import Mathlib

/-!
Glissando: pitch-step resolver, geometry layout and final-note guess; export
dialog: selection of the export type.

A shallow embedding of `src/engraving/libmscore/glissando.cpp` and of
`ExportDialogModel::setExportType` in `src/project/view/exportdialogmodel.cpp`.

Conventions of the embedding.

* C++ `int` pitches, lines and offsets are `Int`.  The table index of the
  WHITE_KEYS / BLACK_KEYS loop adds 1140 to the pitch: where that leaves the
  range of `int` the source has signed overflow, undefined in C++, which the
  model reports as `Fault.intOverflow`.
* C++ `double` coordinates are `ℚ`: every statement about geometry is a
  statement over exact arithmetic.
* Pointers that the source dereferences become `Option`; dereferencing an
  absent one, a failed down-cast and an out-of-range table index are the
  faults of `Fault`.  Loops whose termination depends on the data take a
  fuel argument and report `Fault.outOfFuel` when it is used up.
-/

namespace MuseScore

/-! ## Data model -/

/-- Ways in which a run of the embedded code can fail to produce a value. -/
inductive Fault where
  | outOfFuel
  | nullPointer
  | badCast
  | indexOutOfRange
  | notFinite
  | intOverflow
  deriving DecidableEq, Repr

/-- The playback style of a glissando. -/
inductive GlissandoStyle where
  | CHROMATIC
  | WHITE_KEYS
  | BLACK_KEYS
  | DIATONIC
  | PORTAMENTO
  deriving DecidableEq, Repr

/-- The visual kind of a glissando. -/
inductive GlissandoType where
  | STRAIGHT
  | WAVY
  deriving DecidableEq, Repr

/-- The note types that `Glissando::layout` tells apart. -/
inductive NoteType where
  | NORMAL
  | ACCIACCATURA
  | APPOGGIATURA
  | GRACE4
  | GRACE16
  | GRACE32
  | GRACE8_AFTER
  | GRACE16_AFTER
  | GRACE32_AFTER
  deriving DecidableEq, Repr

/-- A point with `double` coordinates. -/
structure PointF where
  x : ℚ := 0
  y : ℚ := 0
  deriving DecidableEq, Repr

/-- A rectangle given by its top-left corner, width and height. -/
structure RectF where
  x : ℚ := 0
  y : ℚ := 0
  w : ℚ := 0
  h : ℚ := 0
  deriving DecidableEq, Repr

/-- One element of a chord shape: a rectangle and the item it belongs to
(`toItem`, absent for padding rectangles), of which only `isLyrics` is read. -/
structure ShapeElement where
  rect : RectF := {}
  toItemIsLyrics : Option Bool := none
  deriving DecidableEq, Repr

/-- The chord data read by the glissando code.  `id` stands for the address of
the chord, `explicitParent` for the address of its parent when that is a chord. -/
structure Chord where
  id : Nat := 0
  isTabStaff : Bool := false
  lineDistance : ℚ := 1
  measureIsFirstInSystem : Bool := false
  rtickIsZero : Bool := false
  noteType : NoteType := NoteType.NORMAL
  explicitParent : Option Nat := none
  shape : List ShapeElement := []
  systemPagePos : Option PointF := none
  deriving DecidableEq, Repr

/-- The note data read by the glissando code.  `findMeasure` stands for the
address of the measure the note resolves to. -/
structure Note where
  id : Nat := 0
  pitch : Int := 60
  ppitch : Int := 60
  line : Int := 0
  headWidth : ℚ := 0
  bboxRight : ℚ := 0
  posX : ℚ := 0
  pagePos : PointF := {}
  findMeasure : Option Nat := none
  chord : Chord := {}
  deriving DecidableEq, Repr

/-- An anchor element of a spanner: a note, or an item of another type. -/
inductive EngravingItem where
  | note (n : Note)
  | other
  deriving DecidableEq, Repr

/-- The source's `EngravingItem::isNote`. -/
def EngravingItem.isNote : EngravingItem → Bool
  | EngravingItem.note _ => true
  | EngravingItem.other => false

/-- The source's `toNote` followed by a member access: the down-cast of an
anchor pointer to a note, read through. -/
def toNote : Option EngravingItem → Except Fault Note
  | none => Except.error Fault.nullPointer
  | some EngravingItem.other => Except.error Fault.badCast
  | some (EngravingItem.note n) => Except.ok n

/-- A line segment of a spanner.  `ipos` and `ipos2` are the stored origin and
end vector (read by `ipos()`, `ipos2()`, written by `setPos`, `setPos2`,
`rxpos2()`, `rypos2()`); `offset` and `offset2` are the user offsets that
`pos()` and `pos2()` add to them. -/
structure LineSegment where
  ipos : PointF := {}
  ipos2 : PointF := {}
  offset : PointF := {}
  offset2 : PointF := {}
  bbox : RectF := {}
  deriving DecidableEq, Repr

/-- The glissando spanner: its properties, its anchors and its segments. -/
structure Glissando where
  startElement : Option EngravingItem := none
  endElement : Option EngravingItem := none
  glissandoType : GlissandoType := GlissandoType.STRAIGHT
  glissandoStyle : GlissandoStyle := GlissandoStyle.CHROMATIC
  text : String := ""
  showText : Bool := true
  playGlissando : Bool := true
  easeIn : Int := 0
  easeOut : Int := 0
  fontFace : String := ""
  fontSize : ℚ := 0
  fontStyle : Int := 0
  lineWidth : ℚ := 0
  spatium : ℚ := 1
  isPaletteScore : Bool := false
  spannerSegments : List LineSegment := []
  pos : PointF := {}
  bbox : RectF := {}
  deriving DecidableEq, Repr

/-! ## Pitch-step resolver (`Glissando::pitchSteps`) -/

/-- The static table `whiteNotes` of `Glissando::pitchSteps`. -/
def whiteNotes : List Bool :=
  [true, false, true, false, true, true, false, true, false, true, false, true]

/-- The lookup `whiteNotes[idx]`; an index outside the table is a fault. -/
def whiteNotesAt (idx : Int) : Except Fault Bool :=
  if 0 ≤ idx then
    match whiteNotes[idx.toNat]? with
    | some b => Except.ok b
    | none => Except.error Fault.indexOutOfRange
  else Except.error Fault.indexOutOfRange

/-- The loop condition of the DIATONIC scan:
`(direction == 1) ? (pitch < pitchEnd) : (pitch > pitchEnd)`. -/
def beforeEnd (direction pitchEnd pitch : Int) : Bool :=
  if direction = 1 then decide (pitch < pitchEnd) else decide (pitch > pitchEnd)

/-- The DIATONIC loop.  `steps k` is `chromaticPitchSteps(noteStart, noteEnd, k)`. -/
def diatonicLoop (steps : Int → Int) (pitchStart pitchEnd direction lineStart : Int) :
    Nat → Int → Int → List Int → Except Fault (List Int)
  | 0, _, _, _ => Except.error Fault.outOfFuel
  | fuel + 1, line, pitch, pitchOffsets =>
    if beforeEnd direction pitchEnd pitch then
      let halfSteps := steps (lineStart - line)
      let pitch1 := pitchStart + halfSteps
      diatonicLoop steps pitchStart pitchEnd direction lineStart fuel (line - direction) pitch1
        (if beforeEnd direction pitchEnd pitch1 then pitchOffsets ++ [halfSteps] else pitchOffsets)
    else Except.ok pitchOffsets

/-- The CHROMATIC loop. -/
def chromaticLoop (pitchStart pitchEnd direction : Int) :
    Nat → Int → List Int → Except Fault (List Int)
  | 0, _, _ => Except.error Fault.outOfFuel
  | fuel + 1, pitch, pitchOffsets =>
    if pitch ≠ pitchEnd then
      chromaticLoop pitchStart pitchEnd direction fuel (pitch + direction)
        (pitchOffsets ++ [pitch - pitchStart])
    else Except.ok pitchOffsets

/-- The least value of a C++ `int` (32 bits). -/
def INT_MIN : Int := -2147483648

/-- The greatest value of a C++ `int` (32 bits). -/
def INT_MAX : Int := 2147483647

/-- The WHITE_KEYS / BLACK_KEYS loop.  `Cnote` is 60 and `%` is the truncating
remainder of C++.  The index expression `(pitch - Cnote) + 1200` is `int`
arithmetic: a difference below `INT_MIN` or a sum above `INT_MAX` is signed
overflow. -/
def keysLoop (pitchStart pitchEnd direction : Int) (notePick : Bool) :
    Nat → Int → List Int → Except Fault (List Int)
  | 0, _, _ => Except.error Fault.outOfFuel
  | fuel + 1, pitch, pitchOffsets =>
    if pitch ≠ pitchEnd then
      if pitch - 60 < INT_MIN ∨ INT_MAX < (pitch - 60) + 1200 then
        Except.error Fault.intOverflow
      else
        match whiteNotesAt (Int.tmod ((pitch - 60) + 1200) 12) with
        | Except.error e => Except.error e
        | Except.ok white =>
          keysLoop pitchStart pitchEnd direction notePick fuel (pitch + direction)
            (if white = notePick then pitchOffsets ++ [pitch - pitchStart] else pitchOffsets)
    else Except.ok pitchOffsets

/-- The source's `Glissando::pitchSteps(spanner, pitchOffsets)`: the returned
flag together with the final content of `pitchOffsets`.  The absent helper
`chromaticPitchSteps` is a parameter. -/
def Glissando.pitchSteps (chromaticPitchSteps : Note → Note → Int → Int) (fuel : Nat)
    (spanner : Glissando) (pitchOffsets : List Int) : Except Fault (Bool × List Int) :=
  match spanner.endElement with
  | none => Except.error Fault.nullPointer
  | some endElement =>
    if !endElement.isNote then Except.ok (false, pitchOffsets)
    else if !spanner.playGlissando then Except.ok (false, pitchOffsets)
    else if spanner.glissandoStyle = GlissandoStyle.PORTAMENTO then Except.ok (false, pitchOffsets)
    else
      match toNote spanner.startElement, toNote spanner.endElement with
      | Except.error e, _ => Except.error e
      | _, Except.error e => Except.error e
      | Except.ok noteStart, Except.ok noteEnd =>
        let pitchStart := noteStart.ppitch
        let pitchEnd := noteEnd.ppitch
        if pitchEnd = pitchStart then Except.ok (false, pitchOffsets)
        else
          let direction : Int := if pitchEnd > pitchStart then 1 else -1
          if spanner.glissandoStyle = GlissandoStyle.DIATONIC then
            let lineStart := noteStart.line
            match diatonicLoop (chromaticPitchSteps noteStart noteEnd) pitchStart pitchEnd
                direction lineStart fuel lineStart pitchStart [] with
            | Except.error e => Except.error e
            | Except.ok offs => Except.ok (decide (offs.length > 0), offs)
          else if spanner.glissandoStyle = GlissandoStyle.CHROMATIC then
            match chromaticLoop pitchStart pitchEnd direction fuel pitchStart [] with
            | Except.error e => Except.error e
            | Except.ok offs => Except.ok (true, offs)
          else
            let notePick := decide (spanner.glissandoStyle = GlissandoStyle.WHITE_KEYS)
            match keysLoop pitchStart pitchEnd direction notePick fuel pitchStart [] with
            | Except.error e => Except.error e
            | Except.ok offs => Except.ok (true, offs)

/-- A glissando between two plain notes of the given sounding pitches. -/
def betweenPitches (style : GlissandoStyle) (pitchStart pitchEnd : Int) : Glissando :=
  { startElement := some (EngravingItem.note { ppitch := pitchStart, pitch := pitchStart })
    endElement := some (EngravingItem.note { ppitch := pitchEnd, pitch := pitchEnd })
    glissandoStyle := style }

/-- A stand-in for the host's `chromaticPitchSteps`: whole tones on every line. -/
def wholeTones : Note → Note → Int → Int := fun _ _ k => 2 * k

/-- Modelled from the spec: the host's line-to-pitch query
`chromaticPitchSteps` is not among the sources.  The spec has the DIATONIC
scan walk the line positions from the start note toward the end note and
convert each of them to a pitch, and it has the resolver answer not applicable
in four cases only, none of them a DIATONIC scan: at line step 0 the query is
on the start note's own line and gives the start pitch, offset 0. -/
def startsAtStartPitch (chromaticPitchSteps : Note → Note → Int → Int) : Prop :=
  ∀ noteL noteR : Note, chromaticPitchSteps noteL noteR 0 = 0

/-! ## Geometry layout (`GlissandoSegment::layout`, `Glissando::layout`) -/

instance : Add PointF := ⟨fun a b => { x := a.x + b.x, y := a.y + b.y }⟩

instance : Sub PointF := ⟨fun a b => { x := a.x - b.x, y := a.y - b.y }⟩

/-- Modelled from the spec: the geometry library's `RectF` constructor from a
top-left and a bottom-right corner is not among the sources. -/
def RectF.ofPoints (topLeft bottomRight : PointF) : RectF :=
  { x := topLeft.x, y := topLeft.y, w := bottomRight.x - topLeft.x, h := bottomRight.y - topLeft.y }

/-- Modelled from the spec: the geometry library's `RectF::normalized` is not
among the sources; a negative width or height is flipped to the other side. -/
def RectF.normalized (r : RectF) : RectF :=
  let r1 : RectF := if r.w < 0 then { r with x := r.x + r.w, w := -r.w } else r
  if r1.h < 0 then { r1 with y := r1.y + r1.h, h := -r1.h } else r1

/-- Modelled from the spec: the geometry library's `RectF::adjusted` is not
among the sources; the four edges are moved by the four amounts. -/
def RectF.adjusted (r : RectF) (x1 y1 x2 y2 : ℚ) : RectF :=
  { x := r.x + x1, y := r.y + y1, w := r.w + x2 - x1, h := r.h + y2 - y1 }

/-- The accessor `pos()` of the base item, whose declaration is not among the
sources: the stored origin plus the user offset. -/
def LineSegment.pos (s : LineSegment) : PointF := s.ipos + s.offset

/-- The accessor `pos2()` of the base segment, whose declaration is not among
the sources: the stored end vector plus the user offset. -/
def LineSegment.pos2 (s : LineSegment) : PointF := s.ipos2 + s.offset2

/-- The constant `GLISS_PALETTE_WIDTH`. -/
def GLISS_PALETTE_WIDTH : ℚ := 4

/-- The constant `GLISS_PALETTE_HEIGHT`. -/
def GLISS_PALETTE_HEIGHT : ℚ := 4

/-- The source's `GlissandoSegment::layout`, with the glissando's line width
passed in: the bounding box is recomputed (the staff magnification is not
modelled). -/
def GlissandoSegment.layout (lineWidth : ℚ) (s : LineSegment) : LineSegment :=
  let r := RectF.normalized { x := 0, y := 0, w := s.pos2.x, h := s.pos2.y }
  let lw := lineWidth * (1 / 2)
  { s with bbox := r.adjusted (-lw) (-lw) lw lw }

/-- The source's `Glissando::createLineSegment`: a fresh segment. -/
def createLineSegment : LineSegment := {}

/-- The segment at index `i` replaced by its image under `f`; the source does
this through the pointer `segmentAt(i)`. -/
def updateAt (segs : List LineSegment) (i : Nat) (f : LineSegment → LineSegment) :
    List LineSegment :=
  match segs[i]? with
  | some s => segs.set i (f s)
  | none => segs

/-- Division of two `double`s whose quotient is used: a zero divisor gives a
value that is not finite, which the exact-arithmetic model reports as a fault. -/
def fdiv (a b : ℚ) : Except Fault ℚ :=
  if b = 0 then Except.error Fault.notFinite else Except.ok (a / b)

/-- The three-way sign `upDown` of `Glissando::layout`:
`(0 < (p2 - p1)) - ((p2 - p1) < 0)`. -/
def upDown (pitch1 pitch2 : Int) : Int :=
  (if 0 < pitch2 - pitch1 then 1 else 0) - (if pitch2 - pitch1 < 0 then 1 else 0)

/-- The two endpoint offsets `offs1`, `offs2` of `Glissando::layout` after the
blocks "line ending points to notehead centres" and "avoid horizontal lines". -/
def endpointOffsets (spatium : ℚ) (anchor1 anchor2 : Note) : PointF × PointF :=
  let cr1 := anchor1.chord
  let offs1 : PointF :=
    if cr1.isTabStaff then { x := anchor1.bboxRight, y := 0 }
    else { x := anchor1.headWidth * (1 / 2), y := 0 }
  let offs2 : PointF := { x := anchor2.headWidth * (1 / 2), y := 0 }
  let upDown := upDown anchor1.pitch anchor2.pitch
  if cr1.isTabStaff then
    let yOff := cr1.lineDistance * (2 / 5) * spatium
    ({ offs1 with y := offs1.y + yOff * (upDown : ℚ) },
     { offs2 with y := offs2.y - yOff * (upDown : ℚ) })
  else if anchor1.line = anchor2.line then
    ({ offs1 with y := offs1.y + spatium * (1 / 4) * (upDown : ℚ) },
     { offs2 with y := offs2.y - spatium * (1 / 4) * (upDown : ℚ) })
  else (offs1, offs2)

/-- The block of `Glissando::layout` that moves the first segment's origin by
`offs1`, shortens its end vector by `offs1` and lengthens the last segment's
end vector by `offs2`. -/
def applyEndpointOffsets (offs1 offs2 : PointF) (segs : List LineSegment) : List LineSegment :=
  let segs1 := updateAt segs 0 (fun s => { s with ipos := s.ipos + offs1 })
  let segs2 := updateAt segs1 0 (fun s => { s with ipos2 := s.ipos2 - offs1 })
  updateAt segs2 (segs2.length - 1) (fun s => { s with ipos2 := s.ipos2 + offs2 })

/-- The condition of the block "final system-initial note". -/
def isSystemInitial (cr1 cr2 : Chord) : Bool :=
  cr2.measureIsFirstInSystem && cr2.rtickIsZero
    && !(cr2.noteType = NoteType.GRACE8_AFTER || cr2.noteType = NoteType.GRACE16_AFTER
          || cr2.noteType = NoteType.GRACE32_AFTER)
    && !(cr1.explicitParent = some cr2.id)

/-- The block "final system-initial note" of `Glissando::layout`. -/
def widenSystemInitial (spatium : ℚ) (cr1 cr2 : Chord) (segs : List LineSegment) :
    List LineSegment :=
  if isSystemInitial cr1 cr2 then
    let segs1 := updateAt segs (segs.length - 1)
      (fun s => { s with ipos := { s.ipos with x := s.ipos.x + -spatium } })
    updateAt segs1 (segs1.length - 1)
      (fun s => { s with ipos2 := { s.ipos2 with x := s.ipos2.x + spatium } })
  else segs

/-- One pass of the interpolation loop of `Glissando::layout`, for index `i`;
the state is `xCurr` and the segments. -/
def interpolateStep (y0 ratio : ℚ) (st : ℚ × List LineSegment) (i : Nat) :
    ℚ × List LineSegment :=
  match st.2[i]? with
  | none => st
  | some segm =>
    let xCurr := st.1 + segm.ipos2.x
    let yCurr := y0 + ratio * xCurr
    let segs1 := st.2.set i { segm with ipos2 := { segm.ipos2 with y := yCurr - segm.ipos.y } }
    match segs1[i + 1]? with
    | none => (xCurr, segs1)
    | some next =>
      (xCurr, segs1.set (i + 1)
        { next with
          ipos2 := { next.ipos2 with y := next.ipos2.y + (next.ipos.y - yCurr) }
          ipos := { next.ipos with y := yCurr } })

/-- The total x-width `xTot` of all segments. -/
def totalWidth (segs : List LineSegment) : ℚ :=
  segs.foldl (fun xTot segm => xTot + segm.ipos2.x) 0

/-- The block "interpolation of intermediate points" of `Glissando::layout`.
The loop runs for `i = 0, ..., size - 2`; the quotient `ratio` is used only
inside the loop, so it has to be finite exactly when there are two segments or
more. -/
def interpolate (segs : List LineSegment) : Except Fault (List LineSegment) :=
  match segs.head?, segs.getLast? with
  | some segm1, some segm2 =>
    let xTot := totalWidth segs
    let y0 := segm1.ipos.y
    let yTot := segm2.ipos.y + segm2.ipos2.y - y0
    if segs.length - 1 = 0 then Except.ok segs
    else
      match fdiv yTot xTot with
      | Except.error e => Except.error e
      | Except.ok ratio =>
        Except.ok ((List.range (segs.length - 1)).foldl (interpolateStep y0 ratio) (0, segs)).2
  | _, _ => Except.error Fault.nullPointer

/-- The collaborators of `Glissando::layout` that are not among the sources:
the generic line layout `SLine::layout` (the segments it leaves) and the two
`Shape` extents. -/
structure Host where
  slineLayout : Glissando → List LineSegment
  shapeRight : List ShapeElement → ℚ
  shapeLeft : List ShapeElement → ℚ

/-- The block "keep clear of all elements of the chord" of `Glissando::layout`:
`offs1` and `offs2` come in as applied before. -/
def avoidChords (host : Host) (spatium : ℚ) (anchor1 anchor2 : Note) (offs1 offs2 : PointF)
    (segs : List LineSegment) : Except Fault (List LineSegment) :=
  let cr1 := anchor1.chord
  let cr2 := anchor2.chord
  let offs1 : PointF := { x := offs1.x * -1, y := offs1.y * -1 }
  let offs2 : PointF := { x := offs2.x * -1, y := offs2.y * -1 }
  let cr1shape := cr1.shape.filter (fun s =>
    !(match s.toItemIsLyrics with
      | none => true
      | some isLyrics => isLyrics))
  let offs1 := { offs1 with x := offs1.x + (host.shapeRight cr1shape - anchor1.posX) }
  let offs2 := if !cr2.isTabStaff
    then { offs2 with x := offs2.x - (host.shapeLeft cr2.shape + anchor2.posX) } else offs2
  let glissNoteDist := (1 / 4) * spatium
  let offs1 := { offs1 with x := offs1.x + glissNoteDist }
  let offs2 := { offs2 with x := offs2.x - glissNoteDist }
  match segs.head? with
  | none => Except.error Fault.nullPointer
  | some segm1 =>
    match fdiv (segm1.ipos2.y * offs1.x) segm1.ipos2.x with
    | Except.error e => Except.error e
    | Except.ok y1 =>
      let offs1 := { offs1 with y := y1 }
      let segs1 := updateAt segs 0 (fun s => { s with ipos := s.ipos + offs1 })
      let segs2 := updateAt segs1 0 (fun s => { s with ipos2 := s.ipos2 - offs1 })
      match segs2.getLast? with
      | none => Except.error Fault.nullPointer
      | some segm2 =>
        match fdiv (segm2.ipos2.y * offs2.x) segm2.ipos2.x with
        | Except.error e => Except.error e
        | Except.ok y2 =>
          let offs2 := { offs2 with y := y2 }
          Except.ok (updateAt segs2 (segs2.length - 1) (fun s => { s with ipos2 := s.ipos2 + offs2 }))

/-- The start chord's shape as `Glissando::layout` looks at it: the elements
without an item and the lyrics are removed. -/
def shapeWithoutLyrics (shape : List ShapeElement) : List ShapeElement :=
  shape.filter (fun s =>
    !(match s.toItemIsLyrics with
      | none => true
      | some isLyrics => isLyrics))

/-- The x components of `offs1` and `offs2` in the block "keep clear of all
elements of the chord", after "add note distance": the horizontal adjustments
of the start side and of the end side. -/
def avoidanceOffsets (host : Host) (spatium : ℚ) (anchor1 anchor2 : Note)
    (offs1 offs2 : PointF) : ℚ × ℚ :=
  let x1 := offs1.x * -1 + (host.shapeRight (shapeWithoutLyrics anchor1.chord.shape) - anchor1.posX)
  let x2 := if !anchor2.chord.isTabStaff
    then offs2.x * -1 - (host.shapeLeft anchor2.chord.shape + anchor2.posX) else offs2.x * -1
  let glissNoteDist := (1 / 4) * spatium
  (x1 + glissNoteDist, x2 - glissNoteDist)

/-- The start-side shortening of the block "keep clear of all elements of the
chord": the first segment is shortened by `x1` and proportionally in y. -/
def shortenStart (x1 : ℚ) (segs : List LineSegment) : Except Fault (List LineSegment) :=
  match segs.head? with
  | none => Except.error Fault.nullPointer
  | some segm1 =>
    match fdiv (segm1.ipos2.y * x1) segm1.ipos2.x with
    | Except.error e => Except.error e
    | Except.ok y1 =>
      let offs1 : PointF := { x := x1, y := y1 }
      let segs1 := updateAt segs 0 (fun s => { s with ipos := s.ipos + offs1 })
      Except.ok (updateAt segs1 0 (fun s => { s with ipos2 := s.ipos2 - offs1 }))

/-- The end-side shortening of the block "keep clear of all elements of the
chord": the last segment's end vector is adjusted by `x2` and proportionally
in y. -/
def shortenEnd (x2 : ℚ) (segs : List LineSegment) : Except Fault (List LineSegment) :=
  match segs.getLast? with
  | none => Except.error Fault.nullPointer
  | some segm2 =>
    match fdiv (segm2.ipos2.y * x2) segm2.ipos2.x with
    | Except.error e => Except.error e
    | Except.ok y2 =>
      let offs2 : PointF := { x := x2, y := y2 }
      Except.ok (updateAt segs (segs.length - 1) (fun s => { s with ipos2 := s.ipos2 + offs2 }))

/-- The source's `Glissando::addLineAttachPoints`: the reports made to the
anchor notes, each a note and the point passed to its `addLineAttachPoint`. -/
def Glissando.addLineAttachPoints (g : Glissando) : List (Note × PointF) :=
  let seg := g.spannerSegments.head?
  let startNote : Option Note :=
    match g.startElement with
    | some (EngravingItem.note n) => some n
    | _ => none
  let endNote : Option Note :=
    match g.endElement with
    | some (EngravingItem.note n) => some n
    | _ => none
  match seg, startNote, endNote with
  | some seg, some startNote, some endNote =>
    if startNote.findMeasure ≠ endNote.findMeasure then []
    else
      let startX := seg.ipos.x
      let endX := seg.pos2.x + seg.ipos.x
      [(startNote, { x := startX, y := 0 }), (endNote, { x := endX, y := 0 })]
  | _, _, _ => []

/-- The source's `Glissando::layout`: the glissando afterwards and the
attachment reports made. -/
def Glissando.layout (host : Host) (g : Glissando) :
    Except Fault (Glissando × List (Note × PointF)) :=
  let _spatium := g.spatium
  if g.isPaletteScore || g.startElement.isNone || g.endElement.isNone then
    let segs := if g.spannerSegments.isEmpty
      then g.spannerSegments ++ [createLineSegment] else g.spannerSegments
    match segs with
    | [] => Except.error Fault.nullPointer
    | s :: rest =>
      let s := { s with ipos := { x := -_spatium * GLISS_PALETTE_WIDTH / 2,
                                  y := _spatium * GLISS_PALETTE_HEIGHT / 2 } }
      let s := { s with ipos2 := { x := _spatium * GLISS_PALETTE_WIDTH,
                                   y := -_spatium * GLISS_PALETTE_HEIGHT } }
      Except.ok ({ g with spannerSegments := GlissandoSegment.layout g.lineWidth s :: rest }, [])
  else
    let segs := host.slineLayout g
    if segs.isEmpty then Except.ok ({ g with spannerSegments := segs }, [])
    else
      match toNote g.startElement, toNote g.endElement with
      | Except.error e, _ => Except.error e
      | _, Except.error e => Except.error e
      | Except.ok anchor1, Except.ok anchor2 =>
        let cr1 := anchor1.chord
        let cr2 := anchor2.chord
        let offs := endpointOffsets _spatium anchor1 anchor2
        let segs := applyEndpointOffsets offs.1 offs.2 segs
        let segs := widenSystemInitial _spatium cr1 cr2 segs
        match interpolate segs with
        | Except.error e => Except.error e
        | Except.ok segs =>
          match avoidChords host _spatium anchor1 anchor2 offs.1 offs.2 segs with
          | Except.error e => Except.error e
          | Except.ok segs =>
            let segs := segs.map (GlissandoSegment.layout g.lineWidth)
            match segs.getLast? with
            | none => Except.error Fault.nullPointer
            | some segm2 =>
              let anchor2PagePos := anchor2.pagePos
              let system2PagePos :=
                match cr2.systemPagePos with
                | none => segm2.pos
                | some pagePos => pagePos
              let anchor2SystPos := anchor2PagePos - system2PagePos
              let r := (RectF.ofPoints (anchor2SystPos - segm2.pos)
                (anchor2SystPos - segm2.pos - segm2.pos2)).normalized
              let lw := g.lineWidth * (1 / 2)
              let g1 := { g with spannerSegments := segs, pos := { x := 0, y := 0 },
                                 bbox := r.adjusted (-lw) (-lw) lw lw }
              Except.ok (g1, g1.addLineAttachPoints)

/-- A stand-in for the host: the generic line layout leaves the segments as
they are, and every shape has zero extent. -/
def plainHost : Host :=
  { slineLayout := fun g => g.spannerSegments
    shapeRight := fun _ => 0
    shapeLeft := fun _ => 0 }

/-! ## Properties and reading (`Glissando::setProperty`, `Glissando::read`) -/

/-- The property ids that the glissando code names; `other` stands for every
other id. -/
inductive Pid where
  | GLISS_TYPE
  | GLISS_TEXT
  | GLISS_SHOW_TEXT
  | GLISS_STYLE
  | GLISS_EASEIN
  | GLISS_EASEOUT
  | PLAY
  | FONT_FACE
  | FONT_SIZE
  | FONT_STYLE
  | LINE_WIDTH
  | other (n : Nat)
  deriving DecidableEq, Repr

/-- A property value, given by what its accessors return: `toInt()`, `toBool()`,
`toReal()`, `value<String>()`, `value<GlissandoStyle>()`, and the cast
`GlissandoType(v.toInt())`. -/
structure PropertyValue where
  toInt : Int := 0
  toBool : Bool := false
  toReal : ℚ := 0
  toStr : String := ""
  toGlissandoStyle : GlissandoStyle := GlissandoStyle.CHROMATIC
  toGlissandoType : GlissandoType := GlissandoType.STRAIGHT
  deriving DecidableEq, Repr

/-- A child element met by `readNextStartElement`: its tag and its text. -/
structure XmlChild where
  name : String
  text : String := ""
  deriving DecidableEq, Repr

/-- The members of the base classes of the glissando, as far as modelled: code
of the base classes changes these and nothing else. -/
def Glissando.withBase (g base : Glissando) : Glissando :=
  { g with
    startElement := base.startElement
    endElement := base.endElement
    lineWidth := base.lineWidth
    spatium := base.spatium
    isPaletteScore := base.isPaletteScore
    spannerSegments := base.spannerSegments
    pos := base.pos
    bbox := base.bbox }

/-- The collaborators of `Glissando::read` and `Glissando::setProperty` that
are not among the sources: the XML conversions, the table of property names,
and the base class `SLine` (whose results are taken through `withBase`). -/
structure ReadHost where
  glissandoTypeFromXml : String → GlissandoType → GlissandoType
  readValue : Pid → String → PropertyValue
  readInt : String → Int
  readBool : String → Bool
  propertyName : Pid → String
  slineSetProperty : Glissando → Pid → PropertyValue → Option Glissando
  slineReadProperties : Glissando → XmlChild → Option Glissando

/-- The source's `Glissando::setProperty`: the returned flag and the glissando
afterwards. -/
def Glissando.setProperty (host : ReadHost) (g : Glissando) (propertyId : Pid)
    (v : PropertyValue) : Bool × Glissando :=
  match propertyId with
  | Pid.GLISS_TYPE => (true, { g with glissandoType := v.toGlissandoType })
  | Pid.GLISS_TEXT => (true, { g with text := v.toStr })
  | Pid.GLISS_SHOW_TEXT => (true, { g with showText := v.toBool })
  | Pid.GLISS_STYLE => (true, { g with glissandoStyle := v.toGlissandoStyle })
  | Pid.GLISS_EASEIN => (true, { g with easeIn := v.toInt })
  | Pid.GLISS_EASEOUT => (true, { g with easeOut := v.toInt })
  | Pid.PLAY => (true, { g with playGlissando := v.toBool })
  | Pid.FONT_FACE => (true, { g with fontFace := v.toStr })
  | Pid.FONT_SIZE => (true, { g with fontSize := v.toReal })
  | Pid.FONT_STYLE => (true, { g with fontStyle := v.toInt })
  | pid =>
    match host.slineSetProperty g pid v with
    | none => (false, g)
    | some base => (true, g.withBase base)

/-- The number of a glissando type, `int(GlissandoType::...)`: the enumerators
in the order of their declaration, which is not among the sources. -/
def GlissandoType.toInt : GlissandoType → Int
  | GlissandoType.STRAIGHT => 0
  | GlissandoType.WAVY => 1

/-- The source's `Glissando::propertyDefault`; the base class `SLine` is not
among the sources and its `propertyDefault` is a parameter.  Each value is
given by the accessor that reads it back. -/
def Glissando.propertyDefault (slinePropertyDefault : Pid → PropertyValue) (propertyId : Pid) :
    PropertyValue :=
  match propertyId with
  | Pid.GLISS_TYPE =>
    { toInt := GlissandoType.STRAIGHT.toInt, toGlissandoType := GlissandoType.STRAIGHT }
  | Pid.GLISS_SHOW_TEXT => { toBool := true }
  | Pid.GLISS_STYLE => { toGlissandoStyle := GlissandoStyle.CHROMATIC }
  | Pid.GLISS_EASEIN => { toInt := 0 }
  | Pid.GLISS_EASEOUT => { toInt := 0 }
  | Pid.PLAY => { toBool := true }
  | pid => slinePropertyDefault pid

/-- The property ids of `glissandoElementStyle`, in order. -/
def glissandoElementStyle : List Pid :=
  [Pid.FONT_FACE, Pid.FONT_SIZE, Pid.FONT_STYLE, Pid.LINE_WIDTH, Pid.GLISS_TEXT]

/-- The base-class helper `readProperty(e, id)`: the value is read from the
element and set through `setProperty`. -/
def Glissando.readProperty (host : ReadHost) (g : Glissando) (e : XmlChild) (id : Pid) :
    Glissando :=
  (g.setProperty host id (host.readValue id e.text)).2

/-- The base-class helper `readStyledProperty(e, tag)`: the first styled
property whose name is the tag is read; `none` when there is none. -/
def Glissando.readStyledProperty (host : ReadHost) (g : Glissando) (e : XmlChild) :
    Option Glissando :=
  match glissandoElementStyle.find? (fun pid => host.propertyName pid = e.name) with
  | some pid => some (g.readProperty host e pid)
  | none => none

/-- One pass of the `while (e.readNextStartElement())` loop of `Glissando::read`. -/
def Glissando.readChild (host : ReadHost) (g : Glissando) (e : XmlChild) : Glissando :=
  if e.name = "text" then
    Glissando.readProperty host { g with showText := true } e Pid.GLISS_TEXT
  else if e.name = "subtype" then
    { g with glissandoType := host.glissandoTypeFromXml e.text GlissandoType.STRAIGHT }
  else if e.name = "glissandoStyle" then
    g.readProperty host e Pid.GLISS_STYLE
  else if e.name = "easeInSpin" then
    { g with easeIn := host.readInt e.text }
  else if e.name = "easeOutSpin" then
    { g with easeOut := host.readInt e.text }
  else if e.name = "play" then
    { g with playGlissando := host.readBool e.text }
  else
    match g.readStyledProperty host e with
    | some g1 => g1
    | none =>
      match host.slineReadProperties g e with
      | some base => g.withBase base
      | none => g

/-- The source's `Glissando::read` on an element with the given children: the
segments are erased, the show-text flag is cleared, and the children are read
in order.  (The registration of the spanner with the reader's context for old
files is not modelled.) -/
def Glissando.read (host : ReadHost) (children : List XmlChild) (g : Glissando) : Glissando :=
  let g := { g with spannerSegments := [] }
  let g := { g with showText := false }
  children.foldl (Glissando.readChild host) g

/-- A stand-in for the reading collaborators: numbers and flags are read as
zero and false, property names are those of the file format, and the base
class knows no tag and no property. -/
def plainReadHost : ReadHost :=
  { glissandoTypeFromXml := fun _ d => d
    readValue := fun _ t => { toStr := t }
    readInt := fun _ => 0
    readBool := fun _ => false
    propertyName := fun pid =>
      match pid with
      | Pid.FONT_FACE => "family"
      | Pid.FONT_SIZE => "size"
      | Pid.FONT_STYLE => "fontStyle"
      | Pid.LINE_WIDTH => "lineWidth"
      | Pid.GLISS_TEXT => "text"
      | _ => ""
    slineSetProperty := fun _ _ _ => none
    slineReadProperties := fun _ _ => none }

/-- Three segments across two system breaks, used as a worked example. -/
def threeSegments : List LineSegment :=
  [ { ipos := { x := 0, y := 0 }, ipos2 := { x := 2, y := 0 } },
    { ipos := { x := 0, y := 5 }, ipos2 := { x := 1, y := 0 } },
    { ipos := { x := 0, y := 1 }, ipos2 := { x := 1, y := 7 } } ]

/-! ### Reference description of the interpolation -/

/-- The width of the first `j` segments: the value of `xCurr` after `j` passes
of the interpolation loop. -/
def prefixWidth (segs : List LineSegment) (j : Nat) : ℚ :=
  ((segs.take j).map (fun s => s.ipos2.x)).sum

/-- The height of the breakpoint after segment `j`: the line of slope `ratio`
through height `y0`, taken at the end of segment `j`. -/
def breakHeight (y0 ratio : ℚ) (segs : List LineSegment) (j : Nat) : ℚ :=
  y0 + ratio * prefixWidth segs (j + 1)

/-- Segment `j`, entering as `s`, after `k` passes of the interpolation loop:
segments before `k` run between two breakpoints, segment `k` starts at a
breakpoint and keeps its end point, later segments are untouched. -/
def afterPasses (y0 ratio : ℚ) (segs : List LineSegment) (k j : Nat) (s : LineSegment) :
    LineSegment :=
  let startY := if j = 0 then s.ipos.y else breakHeight y0 ratio segs (j - 1)
  if j < k then
    { s with ipos := { s.ipos with y := startY }
             ipos2 := { s.ipos2 with y := breakHeight y0 ratio segs j - startY } }
  else if j = k then
    { s with ipos := { s.ipos with y := startY }
             ipos2 := { s.ipos2 with y := s.ipos2.y + (s.ipos.y - startY) } }
  else s

/-! ### Reference descriptions of the connector's ends -/

/-- The x of the connector's start: the origin x of the first segment. -/
def startX (segs : List LineSegment) : Option ℚ :=
  segs.head?.map (fun s => s.ipos.x)

/-- The x of the connector's end: origin x plus horizontal extent of the last
segment. -/
def endX (segs : List LineSegment) : Option ℚ :=
  segs.getLast?.map (fun s => s.ipos.x + s.ipos2.x)

/-- The segments that the attached branch of `Glissando::layout` leaves, as a
function of the segments left by the generic line layout: the five blocks in
order (`layout_attached_segments`). -/
def attachedSegments (host : Host) (spatium lineWidth : ℚ) (anchor1 anchor2 : Note)
    (naive : List LineSegment) : Except Fault (List LineSegment) :=
  if naive.isEmpty then Except.ok naive
  else
    match interpolate (widenSystemInitial spatium anchor1.chord anchor2.chord
        (applyEndpointOffsets (endpointOffsets spatium anchor1 anchor2).1
          (endpointOffsets spatium anchor1 anchor2).2 naive)) with
    | Except.error e => Except.error e
    | Except.ok s1 =>
      match avoidChords host spatium anchor1 anchor2 (endpointOffsets spatium anchor1 anchor2).1
          (endpointOffsets spatium anchor1 anchor2).2 s1 with
      | Except.error e => Except.error e
      | Except.ok s2 =>
        match (s2.map (GlissandoSegment.layout lineWidth)).getLast? with
        | none => Except.error Fault.nullPointer
        | some _ => Except.ok (s2.map (GlissandoSegment.layout lineWidth))

/-- Two segments whose horizontal extents cancel, used as a worked example. -/
def cancellingSegments : List LineSegment :=
  [ { ipos := { x := 0, y := 0 }, ipos2 := { x := 1, y := 0 } },
    { ipos := { x := 0, y := 0 }, ipos2 := { x := -1, y := 2 } } ]

/-- A glissando across two system breaks between two notes on the same line,
the generic line layout having left `threeSegments`; used as a worked example. -/
def threeSegmentGlissando : Glissando :=
  { startElement := some (EngravingItem.note { pitch := 60, line := 2, headWidth := 2, posX := 1 })
    endElement := some (EngravingItem.note { pitch := 62, line := 2, headWidth := 2, posX := 3 })
    spannerSegments := threeSegments
    spatium := 4 }

/-- The end note of `tabEndGlissando`, on a tablature staff. -/
def tabEndNote : Note :=
  { pitch := 62, line := 2, headWidth := 2, posX := 3, chord := { isTabStaff := true } }

/-- The glissando `threeSegmentGlissando` with its end note on a tablature
staff; used as a worked example. -/
def tabEndGlissando : Glissando :=
  { threeSegmentGlissando with endElement := some (EngravingItem.note tabEndNote) }

/-! ### Reference descriptions of the resolver's output -/

/-- The direction of travel: `+1` if the end pitch is above the start pitch,
else `-1`. -/
def direction (pitchStart pitchEnd : Int) : Int := if pitchEnd > pitchStart then 1 else -1

/-- The chromatic walk from `pitchStart` toward `pitchEnd` as offsets: the
offsets `direction * k` for `k = 0, 1, ..., |pitchEnd - pitchStart| - 1`. -/
def walkedOffsets (pitchStart pitchEnd : Int) : List Int :=
  (List.range (pitchEnd - pitchStart).natAbs).map
    (fun k : Nat => direction pitchStart pitchEnd * (k : Int))

/-- The class `(p - 60 + 1200) mod 12` of a pitch. -/
def pitchClass (p : Int) : Int := (p - 60 + 1200) % 12

/-- Whether a pitch is a white key: the entry of its class in the 12-entry
pattern anchored at C = 60. -/
def isWhiteKey (p : Int) : Bool := whiteNotes.getD (pitchClass p).toNat false

/-- A pitch has reached or crossed the end pitch in the direction of travel. -/
def reachedEnd (direction pitchEnd pitch : Int) : Prop :=
  if direction = 1 then pitchEnd ≤ pitch else pitch ≤ pitchEnd

instance (direction pitchEnd pitch : Int) : Decidable (reachedEnd direction pitchEnd pitch) :=
  inferInstanceAs (Decidable (if direction = 1 then pitchEnd ≤ pitch else pitch ≤ pitchEnd))

/-! ## Guessing the final note (`Glissando::guessFinalNote`) -/

/-- What `explicitParent()` of a chord can be: nothing, a segment, a chord, or
an item of another type. -/
inductive ParentOf (α : Type) where
  | none
  | segment
  | chord (c : α)
  | other

/-- A chord of the score as `Glissando::guessFinalNote` reads it; `P` is the
type of a parent chord.  `upNote` is the chord's top note as the absent
`Chord::upNote` gives it, the grace chords before and after are each given by
their `upNote()`, `part` stands for the address of the part, and `endTick` is
`tick() + actualTicks()`. -/
structure ScoreChord (P : Type) where
  noteType : NoteType := NoteType.NORMAL
  explicitParent : ParentOf P := ParentOf.segment
  upNote : Note := {}
  notes : List Note := []
  graceNotesBefore : List Note := []
  graceNotesAfter : List Note := []
  track : Nat := 0
  part : Nat := 0
  endTick : Int := 0

/-- An element of a segment: a chord, or an item of another type. -/
inductive SegmentElement where
  | chord (c : ScoreChord Unit)
  | other

/-- A segment of the score: whether its type is `ChordRest`, and its element
list `elist()`, indexed by track, with null entries. -/
structure Segment where
  isChordRest : Bool := true
  elist : List (Option SegmentElement) := []

/-- The target search of `guessFinalNote` in one segment: the chord in the
start chord's track if `element(chordTrack)` is a chord, otherwise the first
chord of the same part in `elist()`. -/
def findTargetChord (chordTrack part : Nat) (segm : Segment) : Option (ScoreChord Unit) :=
  match (segm.elist[chordTrack]?).join with
  | some (SegmentElement.chord c) => some c
  | _ =>
    segm.elist.findSome? (fun currChord =>
      match currChord with
      | some (SegmentElement.chord c) => if c.part = part then some c else none
      | _ => none)

/-- The `while (segm)` loop of `guessFinalNote` over the chain of segments that
`next1()` walks; `notes` are the notes of the start chord.  `notes().at(i)`
faults for an index outside the vector. -/
def guessFinalNoteLoop (chordTrack part : Nat) (notes : List Note) (startNote : Note) :
    List Segment → Except Fault (Option Note)
  | [] => Except.ok none
  | segm :: rest =>
    if segm.isChordRest then
      match findTargetChord chordTrack part segm with
      | some target =>
        match target.graceNotesBefore with
        | grace :: _ => Except.ok (some grace)
        | [] =>
          let startNoteIdx : Int := (notes.indexOf startNote : Nat)
          let endNoteIdx : Int := min startNoteIdx ((target.notes.length : Int) - 1)
          if 0 ≤ endNoteIdx then
            match target.notes[endNoteIdx.toNat]? with
            | some n => Except.ok (some n)
            | none => Except.error Fault.indexOutOfRange
          else Except.error Fault.indexOutOfRange
      | none => guessFinalNoteLoop chordTrack part notes startNote rest
    else guessFinalNoteLoop chordTrack part notes startNote rest

/-- The standard case of `guessFinalNote` (a NORMAL chord, or the parent of a
grace-after chord).  `tick2rightSegment` is the score's query of that name
followed by the `next1()` chain, the empty list for a null segment. -/
def guessFinalNoteStandard {P : Type} (tick2rightSegment : Int → List Segment)
    (chord : ScoreChord P) (startNote : Note) : Except Fault (Option Note) :=
  match chord.explicitParent with
  | ParentOf.none => Except.error Fault.nullPointer
  | ParentOf.segment =>
    guessFinalNoteLoop chord.track chord.part chord.notes startNote
      (tick2rightSegment chord.endTick)
  | _ => Except.ok none

/-- The source's `Glissando::guessFinalNote(chord, startNote)`; a null result
is `none`. -/
def Glissando.guessFinalNote (tick2rightSegment : Int → List Segment)
    (chord : ScoreChord (ScoreChord Unit)) (startNote : Note) : Except Fault (Option Note) :=
  match chord.noteType with
  | NoteType.ACCIACCATURA | NoteType.APPOGGIATURA | NoteType.GRACE4 | NoteType.GRACE16
  | NoteType.GRACE32 =>
    match chord.explicitParent with
    | ParentOf.chord parent => Except.ok (some parent.upNote)
    | _ => Except.ok none
  | NoteType.GRACE8_AFTER | NoteType.GRACE16_AFTER | NoteType.GRACE32_AFTER =>
    match chord.explicitParent with
    | ParentOf.chord parent => guessFinalNoteStandard tick2rightSegment parent startNote
    | _ => Except.ok none
  | NoteType.NORMAL =>
    match chord.graceNotesAfter with
    | grace :: _ => Except.ok (some grace)
    | [] => guessFinalNoteStandard tick2rightSegment chord startNote

/-- A start chord with the two notes 1 and 2 (top note 2) on track 0. -/
def twoNoteStartChord : ScoreChord (ScoreChord Unit) :=
  { notes := [{ id := 1, pitch := 60, ppitch := 60 }, { id := 2, pitch := 64, ppitch := 64 }]
    upNote := { id := 2, pitch := 64, ppitch := 64 }
    endTick := 480 }

/-- A following chord with the two notes 3 and 4 (top note 4) on track 0. -/
def twoNoteNextChord : ScoreChord Unit :=
  { notes := [{ id := 3, pitch := 62, ppitch := 62 }, { id := 4, pitch := 65, ppitch := 65 }]
    upNote := { id := 4, pitch := 65, ppitch := 65 } }

/-- A score in which the segment right of every tick holds `twoNoteNextChord`
in track 0 and nothing follows. -/
def twoChordScore : Int → List Segment :=
  fun _ => [{ elist := [some (SegmentElement.chord twoNoteNextChord)] }]

/-! ## Export dialog (`ExportDialogModel::setExportType`) -/

/-- The enumeration `UnitType` of the export scenario. -/
inductive UnitType where
  | PER_PAGE
  | PER_PART
  | MULTI_PART
  deriving DecidableEq, Repr

/-- The signals of `ExportDialogModel` that `setExportType` and `setUnitType`
emit; `E` stands for `ExportType`. -/
inductive ExportSignal (E : Type) where
  | selectedExportTypeChanged (type : E)
  | selectedUnitTypeChanged (unitType : UnitType)

/-- The state of `ExportDialogModel` that `setExportType` touches, with the
signals emitted so far.  `E` stands for `ExportType`, whose declaration and
`operator==` are not among the sources. -/
structure ExportDialogModel (E : Type) where
  selectedExportType : E
  selectedUnitType : UnitType := UnitType.PER_PART
  emitted : List (ExportSignal E) := []

/-- The source's `ExportDialogModel::setUnitType(UnitType)`. -/
def ExportDialogModel.setUnitType {E : Type} (m : ExportDialogModel E) (unitType : UnitType) :
    ExportDialogModel E :=
  if m.selectedUnitType = unitType then m
  else
    { m with
      selectedUnitType := unitType
      emitted := m.emitted ++ [ExportSignal.selectedUnitTypeChanged unitType] }

/-- The source's `ExportDialogModel::setExportType(type)`.  The scenario's
`supportedUnitTypes` is a parameter. -/
def ExportDialogModel.setExportType {E : Type} [DecidableEq E]
    (supportedUnitTypes : E → List UnitType) (m : ExportDialogModel E) (type : E) :
    ExportDialogModel E :=
  if m.selectedExportType = type then m
  else
    let m1 : ExportDialogModel E :=
      { m with
        selectedExportType := type
        emitted := m.emitted ++ [ExportSignal.selectedExportTypeChanged type] }
    let unitTypes := supportedUnitTypes type
    if unitTypes.isEmpty then m1
    else if unitTypes.contains m1.selectedUnitType then m1
    else
      match unitTypes.head? with
      | some front => m1.setUnitType front
      | none => m1

/-- A stand-in for the scenario's `supportedUnitTypes`: export type 1 is
written page by page only, every other type by part or combined. -/
def pagesOrParts : Nat → List UnitType :=
  fun type => if type = 1 then [UnitType.PER_PAGE] else [UnitType.PER_PART, UnitType.MULTI_PART]

/-! ## Theorems: pitch-step resolver -/

theorem range_succ_map_shift {β : Type} (n : Nat) (g : Nat → β) :
    (List.range (n + 1)).map g = g 0 :: (List.range n).map (fun k => g (k + 1)) := by
  rw [List.range_succ_eq_map, List.map_cons, List.map_map]
  rfl

theorem range_succ_filter_shift (n : Nat) (q : Nat → Bool) :
    (List.range (n + 1)).filter q
      = (if q 0 then [0] else []) ++ ((List.range n).filter (fun k => q (k + 1))).map Nat.succ := by
  rw [List.range_succ_eq_map, List.filter_cons, List.filter_map]
  by_cases h : q 0 <;> simp [h, Function.comp_def]

/-- Every successful run of the CHROMATIC loop has walked `n` semitones to the
end pitch and appended the `n` offsets met on the way. -/
theorem chromaticLoop_ok (s e d : Int) :
    ∀ (fuel : Nat) (pitch : Int) (acc r : List Int),
      chromaticLoop s e d fuel pitch acc = Except.ok r →
      ∃ n : Nat, e = pitch + n * d ∧
        r = acc ++ (List.range n).map (fun k : Nat => pitch + (k : Int) * d - s) := by
  intro fuel
  induction fuel with
  | zero => intro pitch acc r h; simp [chromaticLoop] at h
  | succ fuel ih =>
    intro pitch acc r h
    unfold chromaticLoop at h
    by_cases hp : pitch = e
    · subst hp
      simp at h
      exact ⟨0, by simp, by simp [h]⟩
    · rw [if_pos hp] at h
      obtain ⟨n, hn, hr⟩ := ih _ _ _ h
      refine ⟨n + 1, by rw [hn]; push_cast; ring, ?_⟩
      rw [hr, range_succ_map_shift, List.append_assoc]
      simp only [List.singleton_append, Nat.cast_zero, zero_mul, add_zero, Nat.cast_add,
        Nat.cast_one]
      congr 2
      apply List.map_congr_left
      intro k _
      ring

/-- With more fuel than semitones to walk, the CHROMATIC loop succeeds. -/
theorem chromaticLoop_runs (s e d : Int) :
    ∀ (n fuel : Nat) (pitch : Int) (acc : List Int),
      e = pitch + n * d → n < fuel →
      ∃ r, chromaticLoop s e d fuel pitch acc = Except.ok r := by
  intro n
  induction n with
  | zero =>
    intro fuel pitch acc he hf
    obtain ⟨fuel, rfl⟩ : ∃ m, fuel = m + 1 := ⟨fuel - 1, by omega⟩
    exact ⟨acc, by simp [chromaticLoop, he]⟩
  | succ n ih =>
    intro fuel pitch acc he hf
    obtain ⟨fuel, rfl⟩ : ∃ m, fuel = m + 1 := ⟨fuel - 1, by omega⟩
    unfold chromaticLoop
    by_cases hp : pitch = e
    · exact ⟨acc, by simp [hp]⟩
    · rw [if_pos hp]
      exact ih fuel _ _ (by rw [he]; push_cast; ring) (by omega)

/-- A non-negative truncating remainder by 12 is the mathematical remainder. -/
theorem tmod_twelve_of_nonneg (x : Int) (h : 0 ≤ Int.tmod x 12) : Int.tmod x 12 = x % 12 := by
  rcases x with n | m
  · exact Int.tmod_eq_emod (Int.ofNat_nonneg n) (by decide)
  · have h1 : Int.tmod (Int.negSucc m) 12 = -(((m + 1 : Nat) % 12 : Nat) : Int) := rfl
    rw [h1] at h ⊢
    have h2 : Int.negSucc m = -((m : Int) + 1) := Int.negSucc_eq m
    rw [h2]
    omega

/-- A successful table lookup had a non-negative index and read that entry. -/
theorem whiteNotesAt_ok (r : Int) (b : Bool) (h : whiteNotesAt r = Except.ok b) :
    0 ≤ r ∧ b = whiteNotes.getD r.toNat false := by
  unfold whiteNotesAt at h
  by_cases hr : 0 ≤ r
  · rw [if_pos hr] at h
    refine ⟨hr, ?_⟩
    rw [List.getD_eq_getElem?_getD]
    cases hq : whiteNotes[r.toNat]? with
    | none => rw [hq] at h; simp at h
    | some c => rw [hq] at h; simp at h; simp [h]
  · rw [if_neg hr] at h; simp at h

/-- Indices 0..11 are inside the table. -/
theorem whiteNotesAt_of_lt (r : Int) (h0 : 0 ≤ r) (h1 : r < 12) :
    whiteNotesAt r = Except.ok (whiteNotes.getD r.toNat false) := by
  obtain ⟨m, rfl⟩ := Int.eq_ofNat_of_zero_le h0
  have hm : m < 12 := by omega
  interval_cases m <;> rfl

/-- The lookup of the keys loop, when it succeeds, reads the colour of the pitch. -/
theorem keysLookup_ok (pitch : Int) (b : Bool)
    (h : whiteNotesAt (Int.tmod ((pitch - 60) + 1200) 12) = Except.ok b) :
    b = isWhiteKey pitch := by
  obtain ⟨h0, hb⟩ := whiteNotesAt_ok _ _ h
  rw [hb, tmod_twelve_of_nonneg _ h0]
  rfl

/-- The lookup of the keys loop succeeds for every pitch from -1140 upward. -/
theorem keysLookup_runs (pitch : Int) (h : -1140 ≤ pitch) :
    whiteNotesAt (Int.tmod ((pitch - 60) + 1200) 12) = Except.ok (isWhiteKey pitch) := by
  have hx : (0 : Int) ≤ (pitch - 60) + 1200 := by omega
  rw [Int.tmod_eq_emod hx (by decide)]
  exact whiteNotesAt_of_lt _ (Int.emod_nonneg _ (by decide)) (Int.emod_lt_of_pos _ (by decide))

/-- Every successful run of the WHITE_KEYS / BLACK_KEYS loop has walked `n`
semitones to the end pitch and appended the offsets of the walked pitches of
the requested colour. -/
theorem keysLoop_ok (s e d : Int) (pick : Bool) :
    ∀ (fuel : Nat) (pitch : Int) (acc r : List Int),
      keysLoop s e d pick fuel pitch acc = Except.ok r →
      ∃ n : Nat, e = pitch + n * d ∧
        r = acc ++ ((List.range n).filter
              (fun k : Nat => decide (isWhiteKey (pitch + (k : Int) * d) = pick))).map
            (fun k : Nat => pitch + (k : Int) * d - s) := by
  intro fuel
  induction fuel with
  | zero => intro pitch acc r h; simp [keysLoop] at h
  | succ fuel ih =>
    intro pitch acc r h
    unfold keysLoop at h
    by_cases hp : pitch = e
    · subst hp
      simp at h
      exact ⟨0, by simp, by simp [h]⟩
    · rw [if_pos hp] at h
      by_cases hov : pitch - 60 < INT_MIN ∨ INT_MAX < (pitch - 60) + 1200
      · rw [if_pos hov] at h; simp at h
      rw [if_neg hov] at h
      cases hl : whiteNotesAt (Int.tmod ((pitch - 60) + 1200) 12) with
      | error x => rw [hl] at h; simp at h
      | ok white =>
        rw [hl] at h
        have hw := keysLookup_ok pitch white hl
        subst hw
        obtain ⟨n, hn, hr⟩ := ih _ _ _ h
        refine ⟨n + 1, by rw [hn]; push_cast; ring, ?_⟩
        rw [hr, range_succ_filter_shift, List.map_append, List.map_map]
        have hfun : ∀ k : Nat, pitch + d + (k : Int) * d = pitch + ((k + 1 : Nat) : Int) * d := by
          intro k; push_cast; ring
        by_cases hc : isWhiteKey pitch = pick
        · simp [hc, Function.comp_def, hfun]
        · simp [hc, Function.comp_def, hfun]

/-- With more fuel than semitones to walk and every walked pitch from -1140
up to 2147482507 (`INT_MAX - 1140`), the WHITE_KEYS / BLACK_KEYS loop
succeeds. -/
theorem keysLoop_runs (s e d : Int) (pick : Bool) :
    ∀ (n fuel : Nat) (pitch : Int) (acc : List Int),
      e = pitch + n * d → n < fuel →
      (∀ k : Nat, k < n →
        -1140 ≤ pitch + (k : Int) * d ∧ pitch + (k : Int) * d ≤ 2147482507) →
      ∃ r, keysLoop s e d pick fuel pitch acc = Except.ok r := by
  intro n
  induction n with
  | zero =>
    intro fuel pitch acc he hf _
    obtain ⟨fuel, rfl⟩ : ∃ m, fuel = m + 1 := ⟨fuel - 1, by omega⟩
    exact ⟨acc, by simp [keysLoop, he]⟩
  | succ n ih =>
    intro fuel pitch acc he hf hlow
    obtain ⟨fuel, rfl⟩ : ∃ m, fuel = m + 1 := ⟨fuel - 1, by omega⟩
    unfold keysLoop
    by_cases hp : pitch = e
    · exact ⟨acc, by simp [hp]⟩
    · have h0 : -1140 ≤ pitch ∧ pitch ≤ 2147482507 := by simpa using hlow 0 (by omega)
      have hov : ¬ (pitch - 60 < INT_MIN ∨ INT_MAX < (pitch - 60) + 1200) := by
        unfold INT_MIN INT_MAX
        omega
      rw [if_pos hp, if_neg hov, keysLookup_runs pitch h0.1]
      refine ih fuel _ _ (by rw [he]; push_cast; ring) (by omega) ?_
      intro k hk
      have := hlow (k + 1) (by omega)
      push_cast at this
      constructor <;> linarith [this.1, this.2]

/-- The loop condition of the DIATONIC scan holds exactly while the end pitch
has not been reached or crossed. -/
theorem beforeEnd_iff (d e p : Int) : beforeEnd d e p = true ↔ ¬ reachedEnd d e p := by
  unfold beforeEnd reachedEnd
  by_cases hd : d = 1 <;> simp [hd]

/-- The DIATONIC loop, started at line step `k` with `m` further lines before
the first line whose pitch reaches or crosses the end pitch. -/
theorem diatonicLoop_eq (steps : Int → Int) (s e d ls : Int) :
    ∀ (m fuel k : Nat) (pitch : Int) (acc : List Int),
      beforeEnd d e pitch = true →
      (∀ i : Nat, i < m → beforeEnd d e (s + steps (((k + i : Nat) : Int) * d)) = true) →
      beforeEnd d e (s + steps (((k + m : Nat) : Int) * d)) = false →
      m + 2 ≤ fuel →
      diatonicLoop steps s e d ls fuel (ls - (k : Int) * d) pitch acc
        = Except.ok (acc ++ (List.range m).map (fun i : Nat => steps (((k + i : Nat) : Int) * d))) := by
  intro m
  induction m with
  | zero =>
    intro fuel k pitch acc hp _ hlast hf
    obtain ⟨fuel, rfl⟩ : ∃ j, fuel = j + 2 := ⟨fuel - 2, by omega⟩
    have hline : ls - (ls - (k : Int) * d) = (k : Int) * d := by ring
    simp only [Nat.add_zero] at hlast
    simp [diatonicLoop, hp, hline, hlast]
  | succ m ih =>
    intro fuel k pitch acc hp hbefore hlast hf
    obtain ⟨fuel, rfl⟩ : ∃ j, fuel = j + 1 := ⟨fuel - 1, by omega⟩
    have hline : ls - (ls - (k : Int) * d) = (k : Int) * d := by ring
    have h0 : beforeEnd d e (s + steps ((k : Int) * d)) = true := by simpa using hbefore 0 (by omega)
    have hnext : ls - (k : Int) * d - d = ls - ((k + 1 : Nat) : Int) * d := by push_cast; ring
    unfold diatonicLoop
    simp only [hp, if_true, hline, h0, hnext]
    rw [ih fuel (k + 1) _ _ h0 ?_ ?_ (by omega)]
    · rw [range_succ_map_shift, List.append_assoc]
      simp only [List.singleton_append, Nat.add_zero]
      congr 3
      apply List.map_congr_left
      intro i _
      congr 2
      push_cast; ring
    · intro i hi
      have := hbefore (i + 1) (by omega)
      have hidx : k + 1 + i = k + (i + 1) := by omega
      rw [hidx]; exact this
    · have hidx : k + 1 + m = k + (m + 1) := by omega
      rw [hidx]; exact hlast

/-- The number of semitones walked in the direction of travel is the distance
between the two pitches. -/
theorem steps_eq_natAbs (s e : Int) (n : Nat) (h : e = s + n * (if e > s then 1 else -1)) :
    n = (e - s).natAbs := by
  split_ifs at h <;> omega

theorem natAbs_steps (s e : Int) :
    e = s + ((e - s).natAbs : Int) * (if e > s then 1 else -1) := by
  split_ifs <;> omega

/-- Between two notes of different pitch with the play flag set, the CHROMATIC
style runs the CHROMATIC loop from the start pitch. -/
theorem pitchSteps_chromatic_unfold (cps : Note → Note → Int → Int) (fuel : Nat) (g : Glissando)
    (prior : List Int) (ns ne : Note)
    (hs : g.startElement = some (EngravingItem.note ns))
    (he : g.endElement = some (EngravingItem.note ne))
    (hplay : g.playGlissando = true)
    (hstyle : g.glissandoStyle = GlissandoStyle.CHROMATIC)
    (hne : ns.ppitch ≠ ne.ppitch) :
    Glissando.pitchSteps cps fuel g prior
      = match chromaticLoop ns.ppitch ne.ppitch (if ne.ppitch > ns.ppitch then 1 else -1)
          fuel ns.ppitch [] with
        | Except.error x => Except.error x
        | Except.ok offs => Except.ok (true, offs) := by
  have hne2 : ¬ ne.ppitch = ns.ppitch := fun h => hne h.symm
  simp [Glissando.pitchSteps, hs, he, hplay, hstyle, toNote, EngravingItem.isNote, hne2]

/-- Between two notes of different pitch with the play flag set, the
WHITE_KEYS and BLACK_KEYS styles run the keys loop from the start pitch. -/
theorem pitchSteps_keys_unfold (cps : Note → Note → Int → Int) (fuel : Nat) (g : Glissando)
    (prior : List Int) (ns ne : Note)
    (hs : g.startElement = some (EngravingItem.note ns))
    (he : g.endElement = some (EngravingItem.note ne))
    (hplay : g.playGlissando = true)
    (hstyle : g.glissandoStyle = GlissandoStyle.WHITE_KEYS
      ∨ g.glissandoStyle = GlissandoStyle.BLACK_KEYS)
    (hne : ns.ppitch ≠ ne.ppitch) :
    Glissando.pitchSteps cps fuel g prior
      = match keysLoop ns.ppitch ne.ppitch (if ne.ppitch > ns.ppitch then 1 else -1)
          (decide (g.glissandoStyle = GlissandoStyle.WHITE_KEYS)) fuel ns.ppitch [] with
        | Except.error x => Except.error x
        | Except.ok offs => Except.ok (true, offs) := by
  have hne2 : ¬ ne.ppitch = ns.ppitch := fun h => hne h.symm
  rcases hstyle with hstyle | hstyle <;>
    simp [Glissando.pitchSteps, hs, he, hplay, hstyle, toNote, EngravingItem.isNote, hne2]

/-- Whatever the CHROMATIC style produces is the full chromatic walk. -/
theorem pitchSteps_chromatic_ok (cps : Note → Note → Int → Int) (fuel : Nat) (g : Glissando)
    (prior : List Int) (ns ne : Note)
    (hs : g.startElement = some (EngravingItem.note ns))
    (he : g.endElement = some (EngravingItem.note ne))
    (hplay : g.playGlissando = true)
    (hstyle : g.glissandoStyle = GlissandoStyle.CHROMATIC)
    (hne : ns.ppitch ≠ ne.ppitch) (flag : Bool) (offs : List Int)
    (h : Glissando.pitchSteps cps fuel g prior = Except.ok (flag, offs)) :
    flag = true ∧ offs = walkedOffsets ns.ppitch ne.ppitch := by
  rw [pitchSteps_chromatic_unfold cps fuel g prior ns ne hs he hplay hstyle hne] at h
  cases hl : chromaticLoop ns.ppitch ne.ppitch (if ne.ppitch > ns.ppitch then 1 else -1)
      fuel ns.ppitch [] with
  | error x => rw [hl] at h; simp at h
  | ok r =>
    rw [hl] at h
    simp only [Except.ok.injEq, Prod.mk.injEq] at h
    obtain ⟨n, hn, hr⟩ := chromaticLoop_ok _ _ _ _ _ _ _ hl
    have hnabs := steps_eq_natAbs _ _ _ hn
    refine ⟨h.1.symm, ?_⟩
    rw [← h.2, hr, hnabs]
    simp only [List.nil_append, walkedOffsets, direction]
    apply List.map_congr_left
    intro k _
    ring

/-- With more fuel than semitones between the pitches, the CHROMATIC style
produces a result. -/
theorem pitchSteps_chromatic_runs (cps : Note → Note → Int → Int) (fuel : Nat) (g : Glissando)
    (prior : List Int) (ns ne : Note)
    (hs : g.startElement = some (EngravingItem.note ns))
    (he : g.endElement = some (EngravingItem.note ne))
    (hplay : g.playGlissando = true)
    (hstyle : g.glissandoStyle = GlissandoStyle.CHROMATIC)
    (hne : ns.ppitch ≠ ne.ppitch)
    (hfuel : (ne.ppitch - ns.ppitch).natAbs < fuel) :
    ∃ offs, Glissando.pitchSteps cps fuel g prior = Except.ok (true, offs) := by
  rw [pitchSteps_chromatic_unfold cps fuel g prior ns ne hs he hplay hstyle hne]
  obtain ⟨r, hr⟩ := chromaticLoop_runs ns.ppitch ne.ppitch (if ne.ppitch > ns.ppitch then 1 else -1)
    _ fuel ns.ppitch [] (natAbs_steps ns.ppitch ne.ppitch) hfuel
  exact ⟨r, by rw [hr]⟩

/-- Whatever the WHITE_KEYS or BLACK_KEYS style produces is the chromatic walk
filtered by key colour. -/
theorem pitchSteps_keys_ok (cps : Note → Note → Int → Int) (fuel : Nat) (g : Glissando)
    (prior : List Int) (ns ne : Note)
    (hs : g.startElement = some (EngravingItem.note ns))
    (he : g.endElement = some (EngravingItem.note ne))
    (hplay : g.playGlissando = true)
    (hstyle : g.glissandoStyle = GlissandoStyle.WHITE_KEYS
      ∨ g.glissandoStyle = GlissandoStyle.BLACK_KEYS)
    (hne : ns.ppitch ≠ ne.ppitch) (flag : Bool) (offs : List Int)
    (h : Glissando.pitchSteps cps fuel g prior = Except.ok (flag, offs)) :
    flag = true ∧ offs = (walkedOffsets ns.ppitch ne.ppitch).filter
      (fun k => decide (isWhiteKey (ns.ppitch + k)
        = decide (g.glissandoStyle = GlissandoStyle.WHITE_KEYS))) := by
  rw [pitchSteps_keys_unfold cps fuel g prior ns ne hs he hplay hstyle hne] at h
  cases hl : keysLoop ns.ppitch ne.ppitch (if ne.ppitch > ns.ppitch then 1 else -1)
      (decide (g.glissandoStyle = GlissandoStyle.WHITE_KEYS)) fuel ns.ppitch [] with
  | error x => rw [hl] at h; simp at h
  | ok r =>
    rw [hl] at h
    simp only [Except.ok.injEq, Prod.mk.injEq] at h
    obtain ⟨n, hn, hr⟩ := keysLoop_ok _ _ _ _ _ _ _ _ hl
    have hnabs := steps_eq_natAbs _ _ _ hn
    refine ⟨h.1.symm, ?_⟩
    rw [← h.2, hr, hnabs]
    simp only [List.nil_append, walkedOffsets, direction, List.filter_map]
    have hfun : ∀ k : Nat, ns.ppitch + (k : Int) * (if ne.ppitch > ns.ppitch then 1 else -1)
        - ns.ppitch = (if ne.ppitch > ns.ppitch then 1 else -1) * (k : Int) := by
      intro k; ring
    simp only [hfun]
    congr 1
    apply List.filter_congr
    intro k _
    simp only [Function.comp_def]
    congr 3
    ring

/-- With more fuel than semitones between the pitches, and both pitches from
-1140 up to 2147482507 (`INT_MAX - 1140`), the WHITE_KEYS and BLACK_KEYS styles
produce a result. -/
theorem pitchSteps_keys_runs (cps : Note → Note → Int → Int) (fuel : Nat) (g : Glissando)
    (prior : List Int) (ns ne : Note)
    (hs : g.startElement = some (EngravingItem.note ns))
    (he : g.endElement = some (EngravingItem.note ne))
    (hplay : g.playGlissando = true)
    (hstyle : g.glissandoStyle = GlissandoStyle.WHITE_KEYS
      ∨ g.glissandoStyle = GlissandoStyle.BLACK_KEYS)
    (hne : ns.ppitch ≠ ne.ppitch)
    (hrange : (-1140 ≤ ns.ppitch ∧ ns.ppitch ≤ 2147482507)
      ∧ (-1140 ≤ ne.ppitch ∧ ne.ppitch ≤ 2147482507))
    (hfuel : (ne.ppitch - ns.ppitch).natAbs < fuel) :
    ∃ offs, Glissando.pitchSteps cps fuel g prior = Except.ok (true, offs) := by
  rw [pitchSteps_keys_unfold cps fuel g prior ns ne hs he hplay hstyle hne]
  obtain ⟨r, hr⟩ := keysLoop_runs ns.ppitch ne.ppitch (if ne.ppitch > ns.ppitch then 1 else -1)
    (decide (g.glissandoStyle = GlissandoStyle.WHITE_KEYS))
    _ fuel ns.ppitch [] (natAbs_steps ns.ppitch ne.ppitch) hfuel (by
      intro k hk
      split_ifs <;> omega)
  exact ⟨r, by rw [hr]⟩

/-! ### C1: CHROMATIC -/

/-- C2, at the input the claim names: WHITE_KEYS from 60 to 72 yields
`[0,2,4,5,7,9,11]`, the white start pitch included, not `[2,4,5,7,9,11]`. -/
theorem white_keys_60_72_starts_at_zero :
    Glissando.pitchSteps wholeTones 13 (betweenPitches GlissandoStyle.WHITE_KEYS 60 72) []
        = Except.ok (true, [0, 2, 4, 5, 7, 9, 11])
      ∧ Glissando.pitchSteps wholeTones 13 (betweenPitches GlissandoStyle.WHITE_KEYS 60 72) []
        ≠ Except.ok (true, [2, 4, 5, 7, 9, 11]) := by
  refine ⟨rfl, ?_⟩
  intro h
  have h2 : (Except.ok (true, [0, 2, 4, 5, 7, 9, 11]) : Except Fault (Bool × List Int))
      = Except.ok (true, [2, 4, 5, 7, 9, 11]) := h
  simp at h2

/-- C2, amended: between two notes of different pitch with the play flag set,
whatever WHITE_KEYS (resp. BLACK_KEYS) produces is true together with exactly
the offsets `p - start`, in order from start toward end, of the pitches `p`
from start (included) up to but excluding end whose class
`(p - 60 + 1200) mod 12` is white (resp. black) in the 12-entry pattern; and
this result is produced whenever both pitches are at least -1140 and at most
2147482507 (`INT_MAX - 1140`, so that the `int` index expression does not
overflow) and the fuel exceeds the number of semitones to walk. -/
theorem pitchSteps_keys_offsets (cps : Note → Note → Int → Int)
    (g : Glissando) (prior : List Int) (ns ne : Note)
    (hs : g.startElement = some (EngravingItem.note ns))
    (he : g.endElement = some (EngravingItem.note ne))
    (hplay : g.playGlissando = true)
    (hstyle : g.glissandoStyle = GlissandoStyle.WHITE_KEYS
      ∨ g.glissandoStyle = GlissandoStyle.BLACK_KEYS)
    (hne : ns.ppitch ≠ ne.ppitch) :
    (∀ (fuel : Nat) (flag : Bool) (offs : List Int),
        Glissando.pitchSteps cps fuel g prior = Except.ok (flag, offs) →
        flag = true ∧ offs = ((List.range (ne.ppitch - ns.ppitch).natAbs).map
          (fun k : Nat => direction ns.ppitch ne.ppitch * (k : Int))).filter
          (fun k => decide (isWhiteKey (ns.ppitch + k)
            = decide (g.glissandoStyle = GlissandoStyle.WHITE_KEYS))))
    ∧ (-1140 ≤ ns.ppitch → ns.ppitch ≤ 2147482507 →
        -1140 ≤ ne.ppitch → ne.ppitch ≤ 2147482507 →
        ∀ fuel : Nat, (ne.ppitch - ns.ppitch).natAbs < fuel →
        Glissando.pitchSteps cps fuel g prior
          = Except.ok (true, ((List.range (ne.ppitch - ns.ppitch).natAbs).map
              (fun k : Nat => direction ns.ppitch ne.ppitch * (k : Int))).filter
              (fun k => decide (isWhiteKey (ns.ppitch + k)
                = decide (g.glissandoStyle = GlissandoStyle.WHITE_KEYS))))) := by
  have hshape : ∀ (fuel : Nat) (flag : Bool) (offs : List Int),
      Glissando.pitchSteps cps fuel g prior = Except.ok (flag, offs) →
      flag = true ∧ offs = ((List.range (ne.ppitch - ns.ppitch).natAbs).map
        (fun k : Nat => direction ns.ppitch ne.ppitch * (k : Int))).filter
        (fun k => decide (isWhiteKey (ns.ppitch + k)
          = decide (g.glissandoStyle = GlissandoStyle.WHITE_KEYS))) :=
    fun fuel flag offs h =>
      pitchSteps_keys_ok cps fuel g prior ns ne hs he hplay hstyle hne flag offs h
  refine ⟨hshape, ?_⟩
  intro hlo1 hhi1 hlo2 hhi2 fuel hfuel
  obtain ⟨offs, h⟩ := pitchSteps_keys_runs cps fuel g prior ns ne hs he hplay hstyle hne
    ⟨⟨hlo1, hhi1⟩, ⟨hlo2, hhi2⟩⟩ hfuel
  rw [h, (hshape fuel true offs h).2]

/-- C2, amended, at BLACK_KEYS from 66 down to 60: the black start pitch 66 is
kept, then 63 and 61. -/
theorem pitchSteps_keys_offsets_witness :
    Glissando.pitchSteps wholeTones 7 (betweenPitches GlissandoStyle.BLACK_KEYS 66 60) [5]
      = Except.ok (true, [0, -3, -5]) :=
  (pitchSteps_keys_offsets wholeTones (betweenPitches GlissandoStyle.BLACK_KEYS 66 60) [5]
    { ppitch := 66, pitch := 66 } { ppitch := 60, pitch := 60 } rfl rfl rfl (Or.inr rfl)
    (by decide)).2 (by decide) (by decide) (by decide) (by decide) 7 (by decide)

/-! ### C3: not applicable -/

/-- C3: `Glissando.pitchSteps` returns false, leaving the vector as passed in, whenever
the end anchor is not a note, or the play flag is false, or the style is
PORTAMENTO, or both anchors are notes of equal pitch; the last case whatever
the style. -/
theorem pitchSteps_not_applicable (cps : Note → Note → Int → Int) (fuel : Nat)
    (g : Glissando) (prior : List Int) (endElement : EngravingItem)
    (hend : g.endElement = some endElement)
    (h : endElement.isNote = false
      ∨ g.playGlissando = false
      ∨ g.glissandoStyle = GlissandoStyle.PORTAMENTO
      ∨ ∃ ns ne : Note, g.startElement = some (EngravingItem.note ns)
          ∧ endElement = EngravingItem.note ne ∧ ns.ppitch = ne.ppitch) :
    Glissando.pitchSteps cps fuel g prior = Except.ok (false, prior) := by
  unfold Glissando.pitchSteps
  simp only [hend]
  by_cases h1 : endElement.isNote = false
  · simp [h1]
  by_cases h2 : g.playGlissando = false
  · simp [h1, h2]
  by_cases h3 : g.glissandoStyle = GlissandoStyle.PORTAMENTO
  · simp [h1, h2, h3]
  rcases h with h | h | h | ⟨ns, ne, hs, he, hp⟩
  · exact absurd h h1
  · exact absurd h h2
  · exact absurd h h3
  · subst he
    simp [h1, h2, h3, hs, toNote, hp]

/-- C3 at a DIATONIC glissando between two notes of pitch 64, with no fuel. -/
theorem pitchSteps_not_applicable_witness :
    Glissando.pitchSteps wholeTones 0 (betweenPitches GlissandoStyle.DIATONIC 64 64) [1, 2]
      = Except.ok (false, [1, 2]) :=
  pitchSteps_not_applicable wholeTones 0 (betweenPitches GlissandoStyle.DIATONIC 64 64) [1, 2]
    (EngravingItem.note { ppitch := 64, pitch := 64 }) rfl
    (Or.inr (Or.inr (Or.inr ⟨{ ppitch := 64, pitch := 64 }, { ppitch := 64, pitch := 64 },
      rfl, rfl, rfl⟩)))

/-! ### C4: DIATONIC -/

/-- C4: for style DIATONIC between two notes of different pitch, with `d` the
direction and `f k = chromaticPitchSteps(noteStart, noteEnd, k)`: if `n` is the
least `i` with `start + f (i * d)` reaching or crossing the end pitch, then with
fuel for `n + 2` loop tests `Glissando.pitchSteps` emits exactly
`[f 0, f d, ..., f ((n - 1) * d)]` (returning whether that is non-empty), and
every emitted offset `h` has `start + h` strictly before the end pitch. -/
theorem pitchSteps_diatonic_offsets (cps : Note → Note → Int → Int) (fuel : Nat)
    (g : Glissando) (prior : List Int) (ns ne : Note) (n : Nat)
    (hs : g.startElement = some (EngravingItem.note ns))
    (he : g.endElement = some (EngravingItem.note ne))
    (hplay : g.playGlissando = true)
    (hstyle : g.glissandoStyle = GlissandoStyle.DIATONIC)
    (hne : ns.ppitch ≠ ne.ppitch)
    (hreach : reachedEnd (direction ns.ppitch ne.ppitch) ne.ppitch
      (ns.ppitch + cps ns ne ((n : Int) * direction ns.ppitch ne.ppitch)))
    (hleast : ∀ i : Nat, i < n → ¬ reachedEnd (direction ns.ppitch ne.ppitch) ne.ppitch
      (ns.ppitch + cps ns ne ((i : Int) * direction ns.ppitch ne.ppitch)))
    (hfuel : n + 2 ≤ fuel) :
    Glissando.pitchSteps cps fuel g prior
        = Except.ok (decide (0 < n), (List.range n).map
            (fun i : Nat => cps ns ne ((i : Int) * direction ns.ppitch ne.ppitch)))
      ∧ ∀ h ∈ (List.range n).map
            (fun i : Nat => cps ns ne ((i : Int) * direction ns.ppitch ne.ppitch)),
          ¬ reachedEnd (direction ns.ppitch ne.ppitch) ne.ppitch (ns.ppitch + h) := by
  constructor
  · have hne2 : ¬ ne.ppitch = ns.ppitch := fun h => hne h.symm
    have hstart : beforeEnd (direction ns.ppitch ne.ppitch) ne.ppitch ns.ppitch = true := by
      unfold beforeEnd direction
      by_cases hgt : ne.ppitch > ns.ppitch
      · simp [hgt]
      · have : ne.ppitch < ns.ppitch := by omega
        simp [hgt, this]
    have hloop := diatonicLoop_eq (cps ns ne) ns.ppitch ne.ppitch
      (direction ns.ppitch ne.ppitch) ns.line n fuel 0 ns.ppitch [] hstart
      (by
        intro i hi
        rw [beforeEnd_iff]
        simpa using hleast i hi)
      (by
        have := (beforeEnd_iff (direction ns.ppitch ne.ppitch) ne.ppitch
          (ns.ppitch + cps ns ne ((n : Int) * direction ns.ppitch ne.ppitch))).not.mpr
          (not_not.mpr hreach)
        simpa using this)
      hfuel
    simp only [Nat.cast_zero, zero_mul, sub_zero, zero_add, List.nil_append] at hloop
    unfold direction at hloop
    simp [Glissando.pitchSteps, hs, he, hplay, hstyle, toNote, EngravingItem.isNote, hne2, hloop,
      direction]
  · intro h hmem
    obtain ⟨i, hi, rfl⟩ := List.mem_map.mp hmem
    exact hleast i (List.mem_range.mp hi)

/-- C4 on a whole-tone staff from pitch 60 to 67: line 4 is the first to reach
67, and the offsets of lines 0 to 3 are emitted. -/
theorem pitchSteps_diatonic_offsets_witness :
    Glissando.pitchSteps wholeTones 6 (betweenPitches GlissandoStyle.DIATONIC 60 67) [9]
      = Except.ok (true, [0, 2, 4, 6]) :=
  (pitchSteps_diatonic_offsets wholeTones 6 (betweenPitches GlissandoStyle.DIATONIC 60 67) [9]
    { ppitch := 60, pitch := 60 } { ppitch := 67, pitch := 67 } 4 rfl rfl rfl rfl
    (by decide) (by decide) (by decide) (by decide)).1

/-! ### C5: order and bound of the offsets -/

/-- The chromatic walk is ordered in the direction of travel and stays within
the interval between the two pitches. -/
theorem walkedOffsets_ordered (s e : Int) :
    (e > s → (walkedOffsets s e).Pairwise (· < ·))
      ∧ (e < s → (walkedOffsets s e).Pairwise (· > ·))
      ∧ ∀ k ∈ walkedOffsets s e, |k| < |e - s| := by
  refine ⟨?_, ?_, ?_⟩
  · intro h
    unfold walkedOffsets direction
    rw [if_pos h]
    exact (List.pairwise_lt_range _).map _ (fun a b hab => by simpa using hab)
  · intro h
    unfold walkedOffsets direction
    rw [if_neg (by omega)]
    exact (List.pairwise_lt_range _).map _ (fun a b hab => by simpa using hab)
  · intro k hk
    unfold walkedOffsets direction at hk
    obtain ⟨i, hi, rfl⟩ := List.mem_map.mp hk
    have hi2 : i < (e - s).natAbs := List.mem_range.mp hi
    rw [Int.abs_eq_natAbs (e - s)]
    split_ifs
    · rw [one_mul, Nat.abs_cast]; exact_mod_cast hi2
    · rw [neg_one_mul, abs_neg, Nat.abs_cast]; exact_mod_cast hi2

/-- C6, at a palette glissando that already has two segments: after `layout`
it still has two segments, not exactly one. -/
theorem layout_detached_keeps_two_segments :
    (Glissando.layout plainHost
        { isPaletteScore := true, spannerSegments := [{}, {}] }).map
      (fun r => r.1.spannerSegments.length) = Except.ok 2 := by
  rfl

/-- C6, amended: in detached / preview mode (palette score, or start anchor
absent, or end anchor absent) `layout` succeeds with no attachment report; the
front segment afterwards has the placeholder geometry, origin
`(-2 * spatium, 2 * spatium)` and end vector `(4 * spatium, -4 * spatium)`,
whatever the notes; segments after the first are left as they were, so the
spanner has exactly one segment when it had none or one before, and as many
as before otherwise. -/
theorem layout_detached (host : Host) (g : Glissando)
    (h : g.isPaletteScore = true ∨ g.startElement = none ∨ g.endElement = none) :
    ∃ (g1 : Glissando) (front : LineSegment),
      Glissando.layout host g = Except.ok (g1, [])
        ∧ g1.spannerSegments = front :: g.spannerSegments.tail
        ∧ front.ipos = { x := -2 * g.spatium, y := 2 * g.spatium }
        ∧ front.ipos2 = { x := 4 * g.spatium, y := -4 * g.spatium }
        ∧ g1.spannerSegments.length = max 1 g.spannerSegments.length
        ∧ (g.spannerSegments.length ≤ 1 → g1.spannerSegments.length = 1) := by
  have hcond : (g.isPaletteScore || g.startElement.isNone || g.endElement.isNone) = true := by
    rcases h with h | h | h <;> simp [h]
  have hx : -g.spatium * GLISS_PALETTE_WIDTH / 2 = -2 * g.spatium := by
    unfold GLISS_PALETTE_WIDTH; ring
  have hy : g.spatium * GLISS_PALETTE_HEIGHT / 2 = 2 * g.spatium := by
    unfold GLISS_PALETTE_HEIGHT; ring
  have hx2 : g.spatium * GLISS_PALETTE_WIDTH = 4 * g.spatium := by
    unfold GLISS_PALETTE_WIDTH; ring
  have hy2 : -g.spatium * GLISS_PALETTE_HEIGHT = -4 * g.spatium := by
    unfold GLISS_PALETTE_HEIGHT; ring
  unfold Glissando.layout
  simp only [hcond, if_true]
  cases hsegs : g.spannerSegments with
  | nil =>
    refine ⟨_, _, rfl, rfl, ?_, ?_, ?_, ?_⟩
    · simp only [GlissandoSegment.layout, createLineSegment, hx, hy]
    · simp only [GlissandoSegment.layout, createLineSegment, hx2, hy2]
    · simp
    · simp
  | cons s rest =>
    refine ⟨_, _, rfl, rfl, ?_, ?_, ?_, ?_⟩
    · simp only [GlissandoSegment.layout, hx, hy]
    · simp only [GlissandoSegment.layout, hx2, hy2]
    · simp
    · simp

/-- C6, amended, at a glissando without anchors and without segments. -/
theorem layout_detached_witness :
    ∃ (g1 : Glissando) (front : LineSegment),
      Glissando.layout plainHost { spatium := 5 } = Except.ok (g1, [])
        ∧ g1.spannerSegments = front :: ([] : List LineSegment).tail
        ∧ front.ipos = { x := -2 * 5, y := 2 * 5 }
        ∧ front.ipos2 = { x := 4 * 5, y := -4 * 5 }
        ∧ g1.spannerSegments.length = max 1 ([] : List LineSegment).length
        ∧ (([] : List LineSegment).length ≤ 1 → g1.spannerSegments.length = 1) :=
  layout_detached plainHost { spatium := 5 } (Or.inr (Or.inl rfl))

/-! ### C7: horizontal-line avoidance -/

/-- C7: on a tablature staff, and on any other staff when the two notes have
equal line positions, the y components of the endpoint offsets after the
horizontal-avoidance step are opposite: `offs1.y = -offs2.y`. -/
theorem endpointOffsets_y_opposite (spatium : ℚ) (anchor1 anchor2 : Note)
    (h : anchor1.chord.isTabStaff = true ∨ anchor1.line = anchor2.line) :
    (endpointOffsets spatium anchor1 anchor2).1.y
      = -(endpointOffsets spatium anchor1 anchor2).2.y := by
  unfold endpointOffsets
  by_cases ht : anchor1.chord.isTabStaff = true
  · simp [ht]
  · rcases h with h | h
    · exact absurd h ht
    · simp [ht, h]

/-- C7 at two notes on the same line with rising pitch: the start endpoint is
moved by a quarter spatium, the end endpoint by the opposite amount. -/
theorem endpointOffsets_y_opposite_witness :
    (endpointOffsets 2 { line := 3, pitch := 60 } { line := 3, pitch := 61 }).1.y
      = -(endpointOffsets 2 { line := 3, pitch := 60 } { line := 3, pitch := 61 }).2.y :=
  endpointOffsets_y_opposite 2 { line := 3, pitch := 60 } { line := 3, pitch := 61 }
    (Or.inr rfl)

/-! ### C9: attachment points are skipped -/

/-- C9: `addLineAttachPoints` makes no report when the two anchor notes
resolve to different measures, when the front segment is missing, when an
anchor is absent, or when an anchor is not a note. -/
theorem addLineAttachPoints_skipped (g : Glissando)
    (h : (∃ ns ne : Note, g.startElement = some (EngravingItem.note ns)
            ∧ g.endElement = some (EngravingItem.note ne)
            ∧ ns.findMeasure ≠ ne.findMeasure)
      ∨ g.spannerSegments = []
      ∨ g.startElement = none ∨ g.endElement = none
      ∨ g.startElement = some EngravingItem.other
      ∨ g.endElement = some EngravingItem.other) :
    g.addLineAttachPoints = [] := by
  unfold Glissando.addLineAttachPoints
  rcases h with ⟨ns, ne, hs, he, hm⟩ | h | h | h | h | h
  · rw [hs, he]
    cases g.spannerSegments.head? <;> simp [hm]
  · simp [h]
  · rw [h]
    cases g.spannerSegments.head? <;> simp
  · rw [h]
    cases g.spannerSegments.head? <;> cases g.startElement <;> simp
  · rw [h]
    cases g.spannerSegments.head? <;> simp
  · rw [h]
    cases g.spannerSegments.head? <;> cases g.startElement <;> simp

/-- C9 at two notes in measures 1 and 2 with a front segment present. -/
theorem addLineAttachPoints_skipped_witness :
    Glissando.addLineAttachPoints
      { startElement := some (EngravingItem.note { findMeasure := some 1 })
        endElement := some (EngravingItem.note { findMeasure := some 2 })
        spannerSegments := [{}] } = [] :=
  addLineAttachPoints_skipped _
    (Or.inl ⟨{ findMeasure := some 1 }, { findMeasure := some 2 }, rfl, rfl, by decide⟩)

/-! ### C8: interpolation preserves the total span -/

theorem afterPasses_zero (y0 ratio : ℚ) (segs : List LineSegment) (j : Nat) (s : LineSegment) :
    afterPasses y0 ratio segs 0 j s = s := by
  unfold afterPasses
  by_cases hj : j = 0
  · subst hj; simp
  · have : ¬ j < 0 := by omega
    simp [hj]

theorem afterPasses_ipos2_x (y0 ratio : ℚ) (segs : List LineSegment) (k j : Nat)
    (s : LineSegment) : (afterPasses y0 ratio segs k j s).ipos2.x = s.ipos2.x := by
  unfold afterPasses
  split_ifs <;> rfl

theorem afterPasses_ipos_x (y0 ratio : ℚ) (segs : List LineSegment) (k j : Nat)
    (s : LineSegment) : (afterPasses y0 ratio segs k j s).ipos.x = s.ipos.x := by
  unfold afterPasses
  split_ifs <;> rfl

theorem prefixWidth_succ (segs : List LineSegment) (k : Nat) (s : LineSegment)
    (h : segs[k]? = some s) : prefixWidth segs (k + 1) = prefixWidth segs k + s.ipos2.x := by
  unfold prefixWidth
  rw [List.take_succ, h]
  simp

/-- The state of the interpolation loop after `k` passes. -/
theorem interpolate_fold (y0 ratio : ℚ) (segs : List LineSegment) :
    ∀ k : Nat, k < segs.length →
      ∃ S : List LineSegment,
        (List.range k).foldl (interpolateStep y0 ratio) (0, segs) = (prefixWidth segs k, S)
          ∧ ∀ j : Nat, S[j]? = (segs[j]?).map (afterPasses y0 ratio segs k j) := by
  intro k
  induction k with
  | zero =>
    intro _
    refine ⟨segs, by simp [prefixWidth], ?_⟩
    intro j
    cases segs[j]? <;> simp [afterPasses_zero]
  | succ k ih =>
    intro hk
    obtain ⟨S, hS, hpt⟩ := ih (by omega)
    have hk0 : k < segs.length := by omega
    have hsk : segs[k]? = some segs[k] := List.getElem?_eq_getElem hk0
    have hsk1 : segs[k + 1]? = some segs[k + 1] := List.getElem?_eq_getElem hk
    have hSk : S[k]? = some (afterPasses y0 ratio segs k k segs[k]) := by rw [hpt, hsk]; rfl
    have hSk1 : S[k + 1]? = some segs[k + 1] := by
      rw [hpt, hsk1]
      simp [afterPasses]
    have hlen : k < S.length := by
      rcases List.getElem?_eq_some_iff.mp hSk with ⟨h, _⟩
      exact h
    have hlen1 : k + 1 < S.length := by
      rcases List.getElem?_eq_some_iff.mp hSk1 with ⟨h, _⟩
      exact h
    rw [List.range_succ, List.foldl_append, hS]
    simp only [List.foldl_cons, List.foldl_nil, interpolateStep, hSk]
    rw [List.getElem?_set_ne (by omega), hSk1]
    simp only [afterPasses_ipos2_x]
    rw [← prefixWidth_succ segs k _ hsk]
    refine ⟨_, rfl, ?_⟩
    intro j
    rw [List.getElem?_set, List.getElem?_set]
    simp only [List.length_set]
    by_cases hj1 : k + 1 = j
    · subst hj1
      rw [if_pos rfl, if_pos hlen1, hsk1]
      simp [afterPasses, breakHeight]
    · rw [if_neg hj1]
      by_cases hj : k = j
      · subst hj
        rw [if_pos rfl, if_pos hlen, hsk]
        simp [afterPasses, breakHeight]
      · rw [if_neg hj, hpt]
        cases hsj : segs[j]? with
        | none => rfl
        | some sj =>
          simp only [Option.map_some']
          congr 1
          unfold afterPasses
          by_cases hlt : j < k
          · have hlt1 : j < k + 1 := by omega
            simp [hlt, hlt1]
          · have h1 : ¬ j < k + 1 := by omega
            have h2 : ¬ j = k := fun h => hj h.symm
            have h3 : ¬ j = k + 1 := fun h => hj1 h.symm
            simp [hlt, h1, h2, h3]

theorem sum_range_telescope (Z : Nat → ℚ) (n : Nat) :
    ((List.range n).map (fun j => Z (j + 1) - Z j)).sum = Z n - Z 0 := by
  induction n with
  | zero => simp
  | succ n ih =>
    rw [List.range_succ, List.map_append, List.sum_append, ih]
    simp

/-- On two segments or more with a non-zero total width, the interpolation
block succeeds and leaves segment `j` as `afterPasses` describes it for the
last pass. -/
theorem interpolate_eq (segs : List LineSegment) (first last : LineSegment)
    (hn : 2 ≤ segs.length) (hfirst : segs.head? = some first) (hlast : segs.getLast? = some last)
    (hx : totalWidth segs ≠ 0) :
    ∃ out : List LineSegment, interpolate segs = Except.ok out
      ∧ ∀ j : Nat, out[j]? = (segs[j]?).map
          (afterPasses first.ipos.y
            ((last.ipos.y + last.ipos2.y - first.ipos.y) / totalWidth segs) segs
            (segs.length - 1) j) := by
  obtain ⟨S, hS, hpt⟩ := interpolate_fold first.ipos.y
    ((last.ipos.y + last.ipos2.y - first.ipos.y) / totalWidth segs) segs (segs.length - 1)
    (by omega)
  refine ⟨S, ?_, hpt⟩
  have hlen : ¬ segs.length - 1 = 0 := by omega
  simp only [interpolate, hfirst, hlast, hlen, if_false, fdiv, hx, hS]

/-- C8: for a connector of two segments or more whose total horizontal extent
is not zero, the interpolation block of `Glissando::layout` succeeds; the sum
of the stored vertical extents afterwards is the total vertical extent before,
`last.ipos.y + last.ipos2.y - first.ipos.y`; and every stored horizontal
extent and every origin x is left as it was, so the sum of the horizontal
extents is unchanged. -/
theorem interpolate_preserves_span (segs : List LineSegment) (first last : LineSegment)
    (hn : 2 ≤ segs.length) (hfirst : segs.head? = some first) (hlast : segs.getLast? = some last)
    (hx : totalWidth segs ≠ 0) :
    ∃ out : List LineSegment, interpolate segs = Except.ok out
      ∧ (out.map (fun s => s.ipos2.y)).sum = last.ipos.y + last.ipos2.y - first.ipos.y
      ∧ out.map (fun s => s.ipos2.x) = segs.map (fun s => s.ipos2.x)
      ∧ out.map (fun s => s.ipos.x) = segs.map (fun s => s.ipos.x)
      ∧ (out.map (fun s => s.ipos2.x)).sum = (segs.map (fun s => s.ipos2.x)).sum := by
  obtain ⟨out, hout, hpt⟩ := interpolate_eq segs first last hn hfirst hlast hx
  have hx2 : out.map (fun s => s.ipos2.x) = segs.map (fun s => s.ipos2.x) := by
    apply List.ext_getElem?
    intro j
    rw [List.getElem?_map, List.getElem?_map, hpt]
    cases segs[j]? <;> simp [afterPasses_ipos2_x]
  have hx1 : out.map (fun s => s.ipos.x) = segs.map (fun s => s.ipos.x) := by
    apply List.ext_getElem?
    intro j
    rw [List.getElem?_map, List.getElem?_map, hpt]
    cases segs[j]? <;> simp [afterPasses_ipos_x]
  refine ⟨out, hout, ?_, hx2, hx1, by rw [hx2]⟩
  -- the heights between which the segments run after the last pass
  let y0 := first.ipos.y
  let ratio := (last.ipos.y + last.ipos2.y - first.ipos.y) / totalWidth segs
  let Z : Nat → ℚ := fun j =>
    if j = 0 then first.ipos.y
    else if j < segs.length then breakHeight y0 ratio segs (j - 1)
    else last.ipos.y + last.ipos2.y
  have hZ : out.map (fun s => s.ipos2.y)
      = (List.range segs.length).map (fun j => Z (j + 1) - Z j) := by
    apply List.ext_getElem?
    intro j
    rw [List.getElem?_map, List.getElem?_map, hpt]
    by_cases hj : j < segs.length
    · rw [List.getElem?_eq_getElem hj, List.getElem?_range hj]
      simp only [Option.map_some']
      congr 1
      have hfirst0 : segs[0]? = some first := by rw [← List.head?_eq_getElem?]; exact hfirst
      have hlast0 : segs[segs.length - 1]? = some last := by
        rw [← List.getLast?_eq_getElem?]; exact hlast
      by_cases hjl : j < segs.length - 1
      · have h1 : j + 1 < segs.length := by omega
        by_cases hj0 : j = 0
        · subst hj0
          have hf : segs[0] = first := by
            rw [List.getElem?_eq_getElem hj] at hfirst0
            exact Option.some.inj hfirst0
          simp [afterPasses, hjl, Z, h1, hf, y0, ratio]
        · simp [afterPasses, hjl, Z, h1, hj0, hj, y0, ratio]
      · have hjeq : j = segs.length - 1 := by omega
        have hl : segs[j] = last := by
          have : segs[j]? = some last := by rw [hjeq]; exact hlast0
          rw [List.getElem?_eq_getElem hj] at this
          exact Option.some.inj this
        have hj0 : ¬ j = 0 := by omega
        have h1 : ¬ j + 1 < segs.length := by omega
        simp [afterPasses, hjl, hjeq.symm, Z, h1, hj0, hj, hl, y0, ratio]
        ring
    · have hnone : segs[j]? = none := List.getElem?_eq_none (by omega)
      rw [hnone, List.getElem?_eq_none (by simp; omega)]
      rfl
  rw [hZ, sum_range_telescope]
  have hlen0 : ¬ segs.length = 0 := by omega
  simp [Z, hlen0]

/-- C8 on three segments of widths 2, 1, 1 rising from height 0 to height 8. -/
theorem interpolate_preserves_span_witness :
    ∃ out : List LineSegment, interpolate threeSegments = Except.ok out
      ∧ (out.map (fun s => s.ipos2.y)).sum = (1 : ℚ) + 7 - 0
      ∧ out.map (fun s => s.ipos2.x) = threeSegments.map (fun s => s.ipos2.x)
      ∧ out.map (fun s => s.ipos.x) = threeSegments.map (fun s => s.ipos.x)
      ∧ (out.map (fun s => s.ipos2.x)).sum = (threeSegments.map (fun s => s.ipos2.x)).sum :=
  interpolate_preserves_span threeSegments
    { ipos := { x := 0, y := 0 }, ipos2 := { x := 2, y := 0 } }
    { ipos := { x := 0, y := 1 }, ipos2 := { x := 1, y := 7 } }
    (by decide) rfl rfl (by norm_num [totalWidth, threeSegments])

/-! ## Theorems: reading -/

/-! ### C10: the show-text flag after `read` -/

theorem setProperty_showText (host : ReadHost) (g : Glissando) (pid : Pid) (v : PropertyValue)
    (hpid : pid ≠ Pid.GLISS_SHOW_TEXT) :
    (g.setProperty host pid v).2.showText = g.showText := by
  unfold Glissando.setProperty
  cases pid <;> first
    | exact absurd rfl hpid
    | rfl
    | (simp only []; cases host.slineSetProperty g _ v <;> rfl)

theorem withBase_showText (g base : Glissando) : (g.withBase base).showText = g.showText := rfl

theorem readProperty_showText (host : ReadHost) (g : Glissando) (e : XmlChild) (pid : Pid)
    (hpid : pid ≠ Pid.GLISS_SHOW_TEXT) :
    (g.readProperty host e pid).showText = g.showText :=
  setProperty_showText host g pid _ hpid

theorem readStyledProperty_showText (host : ReadHost) (g g1 : Glissando) (e : XmlChild)
    (h : g.readStyledProperty host e = some g1) : g1.showText = g.showText := by
  unfold Glissando.readStyledProperty at h
  cases hf : glissandoElementStyle.find? (fun pid => host.propertyName pid = e.name) with
  | none => rw [hf] at h; cases h
  | some pid =>
    rw [hf] at h
    have hmem : pid ∈ glissandoElementStyle := List.mem_of_find?_eq_some hf
    have hpid : pid ≠ Pid.GLISS_SHOW_TEXT := by
      intro hp
      subst hp
      simp [glissandoElementStyle] at hmem
    cases h
    exact readProperty_showText host g e pid hpid

/-- One child sets the show-text flag when it is a `text` child, and leaves it
as it was otherwise. -/
theorem readChild_showText (host : ReadHost) (g : Glissando) (e : XmlChild) :
    (g.readChild host e).showText = (g.showText || decide (e.name = "text")) := by
  unfold Glissando.readChild
  by_cases h1 : e.name = "text"
  · rw [if_pos h1, readProperty_showText host _ e _ (by decide)]
    simp [h1]
  rw [if_neg h1]
  have hrhs : (g.showText || decide (e.name = "text")) = g.showText := by simp [h1]
  rw [hrhs]
  by_cases h2 : e.name = "subtype"
  · rw [if_pos h2]
  rw [if_neg h2]
  by_cases h3 : e.name = "glissandoStyle"
  · rw [if_pos h3]; exact readProperty_showText host g e _ (by decide)
  rw [if_neg h3]
  by_cases h4 : e.name = "easeInSpin"
  · rw [if_pos h4]
  rw [if_neg h4]
  by_cases h5 : e.name = "easeOutSpin"
  · rw [if_pos h5]
  rw [if_neg h5]
  by_cases h6 : e.name = "play"
  · rw [if_pos h6]
  rw [if_neg h6]
  cases hs : g.readStyledProperty host e with
  | some g1 => exact readStyledProperty_showText host g g1 e hs
  | none =>
    cases host.slineReadProperties g e with
    | some base => rfl
    | none => rfl

theorem foldl_readChild_showText (host : ReadHost) (children : List XmlChild) :
    ∀ g : Glissando, (children.foldl (Glissando.readChild host) g).showText
      = (g.showText || children.any (fun e => decide (e.name = "text"))) := by
  induction children with
  | nil => intro g; simp
  | cons e rest ih =>
    intro g
    rw [List.foldl_cons, ih, readChild_showText, List.any_cons, Bool.or_assoc]

/-- C10, at an element whose only children are `subtype` and `play`, read into
a freshly constructed glissando (show-text true): afterwards show-text is
false, not the property default true. -/
theorem read_without_text_clears_showText :
    ({} : Glissando).showText = true
      ∧ (Glissando.read plainReadHost
          [{ name := "subtype", text := "0" }, { name := "play", text := "1" }] {}).showText
        = false := by
  constructor
  · rfl
  · rw [Glissando.read, foldl_readChild_showText]
    decide

/-- C10, amended: after `Glissando::read`, show-text is true exactly when the
element has a `text` child; reading an element with no `text` child yields
show-text false, whatever the flag was before. -/
theorem read_showText (host : ReadHost) (children : List XmlChild) (g : Glissando) :
    (Glissando.read host children g).showText
        = children.any (fun e => decide (e.name = "text"))
      ∧ ((∀ e ∈ children, e.name ≠ "text") →
          (Glissando.read host children g).showText = false) := by
  have h : (Glissando.read host children g).showText
      = children.any (fun e => decide (e.name = "text")) := by
    rw [Glissando.read, foldl_readChild_showText]
    simp
  refine ⟨h, ?_⟩
  intro hno
  rw [h, List.any_eq_false]
  intro e he
  simpa using hno e he

/-! ## Theorems: properties -/

/-! ### C11: property defaults -/

/-- C11: `Glissando::propertyDefault` gives STRAIGHT (as its number) for the
glissando type, CHROMATIC for the style, true for show-text, true for play and
0 for ease-in and ease-out; every other property id is answered by the base
line's `propertyDefault`, unchanged. -/
theorem propertyDefault_documented (slinePropertyDefault : Pid → PropertyValue) :
    (Glissando.propertyDefault slinePropertyDefault Pid.GLISS_TYPE).toGlissandoType
        = GlissandoType.STRAIGHT
      ∧ (Glissando.propertyDefault slinePropertyDefault Pid.GLISS_TYPE).toInt
        = GlissandoType.STRAIGHT.toInt
      ∧ (Glissando.propertyDefault slinePropertyDefault Pid.GLISS_STYLE).toGlissandoStyle
        = GlissandoStyle.CHROMATIC
      ∧ (Glissando.propertyDefault slinePropertyDefault Pid.GLISS_SHOW_TEXT).toBool = true
      ∧ (Glissando.propertyDefault slinePropertyDefault Pid.PLAY).toBool = true
      ∧ (Glissando.propertyDefault slinePropertyDefault Pid.GLISS_EASEIN).toInt = 0
      ∧ (Glissando.propertyDefault slinePropertyDefault Pid.GLISS_EASEOUT).toInt = 0
      ∧ ∀ pid : Pid, pid ≠ Pid.GLISS_TYPE → pid ≠ Pid.GLISS_STYLE →
          pid ≠ Pid.GLISS_SHOW_TEXT → pid ≠ Pid.PLAY →
          pid ≠ Pid.GLISS_EASEIN → pid ≠ Pid.GLISS_EASEOUT →
          Glissando.propertyDefault slinePropertyDefault pid = slinePropertyDefault pid := by
  refine ⟨rfl, rfl, rfl, rfl, rfl, rfl, rfl, ?_⟩
  intro pid h1 h2 h3 h4 h5 h6
  cases pid <;> first
    | exact absurd rfl h1
    | exact absurd rfl h2
    | exact absurd rfl h3
    | exact absurd rfl h4
    | exact absurd rfl h5
    | exact absurd rfl h6
    | rfl

/-! ## Theorems: geometry layout, continued -/

@[simp] theorem PointF.add_x (a b : PointF) : (a + b).x = a.x + b.x := rfl

@[simp] theorem PointF.add_y (a b : PointF) : (a + b).y = a.y + b.y := rfl

@[simp] theorem PointF.sub_x (a b : PointF) : (a - b).x = a.x - b.x := rfl

@[simp] theorem PointF.sub_y (a b : PointF) : (a - b).y = a.y - b.y := rfl

theorem PointF.ext_xy (a b : PointF) (hx : a.x = b.x) (hy : a.y = b.y) : a = b := by
  cases a; cases b; simp_all

theorem updateAt_cons_zero (a : LineSegment) (t : List LineSegment)
    (f : LineSegment → LineSegment) : updateAt (a :: t) 0 f = f a :: t := by
  simp [updateAt]

theorem updateAt_concat_last (l : List LineSegment) (z : LineSegment)
    (f : LineSegment → LineSegment) :
    updateAt (l ++ [z]) ((l ++ [z]).length - 1) f = l ++ [f z] := by
  induction l with
  | nil => simp [updateAt]
  | cons a t ih =>
    have hlen : ((a :: t) ++ [z]).length - 1 = ((t ++ [z]).length - 1) + 1 := by simp
    rw [hlen]
    unfold updateAt at ih ⊢
    simp only [List.cons_append, List.getElem?_cons_succ, List.set_cons_succ]
    cases hq : (t ++ [z])[(t ++ [z]).length - 1]? with
    | none => rw [hq] at ih; simp only [] at ih ⊢; rw [ih]
    | some w => rw [hq] at ih; simp only [] at ih ⊢; rw [ih]

theorem updateAt_length (segs : List LineSegment) (i : Nat) (f : LineSegment → LineSegment) :
    (updateAt segs i f).length = segs.length := by
  unfold updateAt
  cases segs[i]? <;> simp

/-- A non-empty list is a single element, or a first element, a middle part
and a last element. -/
theorem single_or_first_last (l : List LineSegment) (h : l ≠ []) :
    (∃ s, l = [s]) ∨ ∃ a mid z, l = a :: (mid ++ [z]) := by
  cases l with
  | nil => exact absurd rfl h
  | cons a t =>
    rcases List.eq_nil_or_concat t with ht | ⟨mid, z, ht⟩
    · exact Or.inl ⟨a, by rw [ht]⟩
    · exact Or.inr ⟨a, mid, z, by rw [ht, List.concat_eq_append]⟩

/-! ### C12: the interpolation has no guard for a zero extent -/

theorem foldl_width (segs : List LineSegment) :
    ∀ init : ℚ, segs.foldl (fun xTot segm => xTot + segm.ipos2.x) init
      = init + (segs.map (fun s => s.ipos2.x)).sum := by
  induction segs with
  | nil => intro init; simp
  | cons a t ih =>
    intro init
    rw [List.foldl_cons, ih, List.map_cons, List.sum_cons]
    ring

/-- The total width is the width of all segments taken as a prefix. -/
theorem totalWidth_eq_prefixWidth (segs : List LineSegment) :
    totalWidth segs = prefixWidth segs segs.length := by
  unfold totalWidth prefixWidth
  rw [foldl_width, List.take_length, zero_add]

/-- With a single segment the interpolation loop does not run. -/
theorem interpolate_single (s : LineSegment) : interpolate [s] = Except.ok [s] := by
  simp [interpolate]

/-- With two segments or more and a zero total width, the quotient `ratio` is
not finite. -/
theorem interpolate_zero_width (segs : List LineSegment) (hn : 2 ≤ segs.length)
    (hx : totalWidth segs = 0) : interpolate segs = Except.error Fault.notFinite := by
  have hne : segs ≠ [] := by intro h; rw [h] at hn; simp at hn
  obtain ⟨a, t, rfl⟩ := List.exists_cons_of_ne_nil hne
  obtain ⟨z, hz⟩ : ∃ z, (a :: t).getLast? = some z :=
    ⟨(a :: t).getLast (by simp), List.getLast?_eq_getLast _ _⟩
  have hlen : ¬ (a :: t).length - 1 = 0 := by omega
  simp only [interpolate, List.head?_cons, hz, hlen, if_false, fdiv, hx, if_true]

/-- C12, at two segments of widths 1 and -1: the interpolation block divides
by the zero total width and its result is not finite; the segments are not
left unmodified. -/
theorem interpolate_cancelling_not_finite :
    interpolate cancellingSegments = Except.error Fault.notFinite :=
  interpolate_zero_width cancellingSegments (by decide)
    (by norm_num [totalWidth, cancellingSegments])

/-- C12, amended: the interpolation block of `Glissando::layout` has no guard
for a zero total extent.  A single segment is left unmodified whatever its
extent, because the loop does not run and the quotient is not used; with two
segments or more the block divides by the total extent unconditionally, so it
yields finite segments exactly when the total extent is not zero, and for a
zero total extent what it writes is not finite. -/
theorem interpolate_unguarded (segs : List LineSegment) :
    (∀ s : LineSegment, interpolate [s] = Except.ok [s])
      ∧ (2 ≤ segs.length → totalWidth segs = 0 →
          interpolate segs = Except.error Fault.notFinite)
      ∧ (2 ≤ segs.length →
          ((∃ out, interpolate segs = Except.ok out) ↔ totalWidth segs ≠ 0)) := by
  refine ⟨interpolate_single, interpolate_zero_width segs, ?_⟩
  intro hn
  constructor
  · rintro ⟨out, hout⟩ hx
    rw [interpolate_zero_width segs hn hx] at hout
    cases hout
  · intro hx
    have hne : segs ≠ [] := by intro h; rw [h] at hn; simp at hn
    obtain ⟨a, t, rfl⟩ := List.exists_cons_of_ne_nil hne
    obtain ⟨out, hout, _⟩ := interpolate_eq (a :: t) a ((a :: t).getLast (by simp)) hn rfl
      (List.getLast?_eq_getLast _ _) hx
    exact ⟨out, hout⟩

/-! ### C13: the breakpoints lie on one line -/

/-- C13: for a connector of two segments or more with a non-zero total
horizontal extent, after the interpolation block every breakpoint lies on the
line of slope `ratio = yTot / xTot` through the first segment's start: for
each `i` before the last segment, the end height of segment `i` and the start
height of segment `i + 1` are both `y0 + ratio * (width of segments 0..i)`;
and every segment, first and last included, has `ipos2.y = ratio * ipos2.x`. -/
theorem interpolate_on_line (segs : List LineSegment) (first last : LineSegment)
    (hn : 2 ≤ segs.length) (hfirst : segs.head? = some first) (hlast : segs.getLast? = some last)
    (hx : totalWidth segs ≠ 0) :
    ∃ out : List LineSegment, interpolate segs = Except.ok out
      ∧ (∀ i : Nat, i + 1 < segs.length →
          ∃ a b : LineSegment, out[i]? = some a ∧ out[i + 1]? = some b
            ∧ a.ipos.y + a.ipos2.y = first.ipos.y
                + (last.ipos.y + last.ipos2.y - first.ipos.y) / totalWidth segs
                  * prefixWidth segs (i + 1)
            ∧ b.ipos.y = first.ipos.y
                + (last.ipos.y + last.ipos2.y - first.ipos.y) / totalWidth segs
                  * prefixWidth segs (i + 1))
      ∧ (∀ j : Nat, j < segs.length →
          ∃ s : LineSegment, out[j]? = some s
            ∧ s.ipos2.y
              = (last.ipos.y + last.ipos2.y - first.ipos.y) / totalWidth segs * s.ipos2.x) := by
  obtain ⟨out, hout, hpt⟩ := interpolate_eq segs first last hn hfirst hlast hx
  have hfirst0 : segs[0]? = some first := by rw [← List.head?_eq_getElem?]; exact hfirst
  have hlast0 : segs[segs.length - 1]? = some last := by
    rw [← List.getLast?_eq_getElem?]; exact hlast
  refine ⟨out, hout, ?_, ?_⟩
  · intro i hi
    have hi0 : i < segs.length := by omega
    refine ⟨afterPasses first.ipos.y
        ((last.ipos.y + last.ipos2.y - first.ipos.y) / totalWidth segs) segs
        (segs.length - 1) i segs[i],
      afterPasses first.ipos.y
        ((last.ipos.y + last.ipos2.y - first.ipos.y) / totalWidth segs) segs
        (segs.length - 1) (i + 1) segs[i + 1], ?_, ?_, ?_, ?_⟩
    · rw [hpt, List.getElem?_eq_getElem hi0]; rfl
    · rw [hpt, List.getElem?_eq_getElem hi]; rfl
    · have hlt : i < segs.length - 1 := by omega
      simp [afterPasses, hlt, breakHeight]
    · have h0 : ¬ i + 1 = 0 := by omega
      by_cases hlt : i + 1 < segs.length - 1
      · simp [afterPasses, hlt, breakHeight]
      · have heq : i + 1 = segs.length - 1 := by omega
        simp [afterPasses, heq.symm, breakHeight]
  · intro j hj
    refine ⟨afterPasses first.ipos.y
        ((last.ipos.y + last.ipos2.y - first.ipos.y) / totalWidth segs) segs
        (segs.length - 1) j segs[j], by rw [hpt, List.getElem?_eq_getElem hj]; rfl, ?_⟩
    have hsj : segs[j]? = some segs[j] := List.getElem?_eq_getElem hj
    rw [afterPasses_ipos2_x]
    by_cases hlt : j < segs.length - 1
    · by_cases hj0 : j = 0
      · subst hj0
        have hf : segs[0] = first := by
          rw [hsj] at hfirst0; exact Option.some.inj hfirst0
        have hp0 : prefixWidth segs 0 = 0 := by simp [prefixWidth]
        have hw := prefixWidth_succ segs 0 _ hsj
        rw [hp0, zero_add] at hw
        simp only [afterPasses, hlt, if_true, breakHeight, hw, hf]
        ring
      · obtain ⟨m, rfl⟩ : ∃ m, j = m + 1 := ⟨j - 1, by omega⟩
        have hw := prefixWidth_succ segs (m + 1) _ hsj
        simp [afterPasses, hlt, breakHeight, hw]
        ring
    · have heq : j = segs.length - 1 := by omega
      have hj0 : ¬ j = 0 := by omega
      obtain ⟨m, hm⟩ : ∃ m, j = m + 1 := ⟨j - 1, by omega⟩
      have hl : segs[j] = last := by
        have : segs[j]? = some last := by rw [heq]; exact hlast0
        rw [hsj] at this; exact Option.some.inj this
      have hw := prefixWidth_succ segs j _ hsj
      have htot : totalWidth segs = prefixWidth segs j + last.ipos2.x := by
        rw [totalWidth_eq_prefixWidth, ← hl, ← hw]
        congr 1
        omega
      have hjj : ¬ j < j := by omega
      simp only [afterPasses, heq.symm, hjj, if_false, if_true, hj0, breakHeight, hl]
      have hm1 : j - 1 + 1 = j := by omega
      rw [hm1]
      field_simp
      rw [htot]
      ring

/-- C13 on three segments of widths 2, 1, 1 rising from height 0 to height 8:
the slope is 2. -/
theorem interpolate_on_line_witness :
    ∃ out : List LineSegment, interpolate threeSegments = Except.ok out
      ∧ (∀ i : Nat, i + 1 < threeSegments.length →
          ∃ a b : LineSegment, out[i]? = some a ∧ out[i + 1]? = some b
            ∧ a.ipos.y + a.ipos2.y = (0 : ℚ)
                + ((1 : ℚ) + 7 - 0) / totalWidth threeSegments
                  * prefixWidth threeSegments (i + 1)
            ∧ b.ipos.y = (0 : ℚ)
                + ((1 : ℚ) + 7 - 0) / totalWidth threeSegments
                  * prefixWidth threeSegments (i + 1))
      ∧ (∀ j : Nat, j < threeSegments.length →
          ∃ s : LineSegment, out[j]? = some s
            ∧ s.ipos2.y = ((1 : ℚ) + 7 - 0) / totalWidth threeSegments * s.ipos2.x) :=
  interpolate_on_line threeSegments
    { ipos := { x := 0, y := 0 }, ipos2 := { x := 2, y := 0 } }
    { ipos := { x := 0, y := 1 }, ipos2 := { x := 1, y := 7 } }
    (by decide) rfl rfl (by norm_num [totalWidth, threeSegments])

/-! ### C14: no nudge for equal pitches -/

/-- For equal pitches the three-way sign is 0. -/
theorem upDown_self (pitch1 pitch2 : Int) (h : pitch1 = pitch2) : upDown pitch1 pitch2 = 0 := by
  unfold upDown
  rw [h]
  simp

/-- For equal pitches both endpoint offsets have y component 0. -/
theorem endpointOffsets_y_zero (spatium : ℚ) (anchor1 anchor2 : Note)
    (h : anchor1.pitch = anchor2.pitch) :
    (endpointOffsets spatium anchor1 anchor2).1.y = 0
      ∧ (endpointOffsets spatium anchor1 anchor2).2.y = 0 := by
  have hud := upDown_self anchor1.pitch anchor2.pitch h
  constructor <;>
    by_cases ht : anchor1.chord.isTabStaff = true <;>
    by_cases hl : anchor1.line = anchor2.line <;>
    simp [endpointOffsets, ht, hl, hud]

/-- C14: for two anchor notes of equal pitch, on a tablature staff or not and
whatever their line positions, the three-way sign `upDown` is 0 and the y
components of both endpoint offsets after the horizontal-avoidance step are 0. -/
theorem endpointOffsets_equal_pitch (spatium : ℚ) (anchor1 anchor2 : Note)
    (h : anchor1.pitch = anchor2.pitch) :
    upDown anchor1.pitch anchor2.pitch = 0
      ∧ (endpointOffsets spatium anchor1 anchor2).1.y = 0
      ∧ (endpointOffsets spatium anchor1 anchor2).2.y = 0 := by
  exact ⟨upDown_self anchor1.pitch anchor2.pitch h,
    endpointOffsets_y_zero spatium anchor1 anchor2 h⟩

/-- C14 at two notes of pitch 64 on the same line of a tablature staff. -/
theorem endpointOffsets_equal_pitch_witness :
    upDown 64 64 = 0
      ∧ (endpointOffsets 3 { pitch := 64, line := 2, chord := { isTabStaff := true } }
          { pitch := 64, line := 2 }).1.y = 0
      ∧ (endpointOffsets 3 { pitch := 64, line := 2, chord := { isTabStaff := true } }
          { pitch := 64, line := 2 }).2.y = 0 :=
  endpointOffsets_equal_pitch 3 { pitch := 64, line := 2, chord := { isTabStaff := true } }
    { pitch := 64, line := 2 } rfl

/-! ### C15: the nudge of the horizontal-avoidance step -/

/-- The three-way sign `upDown` is the sign of the pitch difference. -/
theorem upDown_eq_sign (pitch1 pitch2 : Int) : upDown pitch1 pitch2 = Int.sign (pitch2 - pitch1) := by
  unfold upDown
  rcases lt_trichotomy (pitch2 - pitch1) 0 with h | h | h
  · rw [Int.sign_eq_neg_one_of_neg h, if_neg (by omega), if_pos h]; rfl
  · rw [h]; simp
  · rw [Int.sign_eq_one_of_pos h, if_pos h, if_neg (by omega)]; rfl

/-- C15, at two notes of equal pitch on the same line of a normal staff with
spatium 1: both endpoint offsets have y component 0, so they do not differ
and the line stays horizontal. -/
theorem endpointOffsets_same_pitch_same_line_horizontal :
    (endpointOffsets 1 { pitch := 60, line := 3 } { pitch := 60, line := 3 }).1.y
      = (endpointOffsets 1 { pitch := 60, line := 3 } { pitch := 60, line := 3 }).2.y := by
  norm_num [endpointOffsets, upDown]

/-- C15, amended: for two anchor notes with equal line positions on a normal
staff, and for every pair on a tablature staff, the start endpoint is moved in
y by `amount * sign(pitchEnd - pitchStart)` and the end endpoint by the
opposite, where `amount` is `0.25 * spatium` on a normal staff and
`0.4 * lineDistance * spatium` on tablature; with positive spatium the two y
offsets differ whenever the pitches differ (and, on tablature, the line
distance is not zero), and they are equal, both 0, when the pitches are equal. -/
theorem endpointOffsets_nudge (spatium : ℚ) (anchor1 anchor2 : Note)
    (hsp : 0 < spatium)
    (hcase : anchor1.chord.isTabStaff = true ∨ anchor1.line = anchor2.line) :
    (anchor1.chord.isTabStaff = false →
        (endpointOffsets spatium anchor1 anchor2).1.y
            = 1 / 4 * spatium * (Int.sign (anchor2.pitch - anchor1.pitch) : ℚ)
          ∧ (endpointOffsets spatium anchor1 anchor2).2.y
            = -(1 / 4 * spatium * (Int.sign (anchor2.pitch - anchor1.pitch) : ℚ)))
      ∧ (anchor1.chord.isTabStaff = true →
        (endpointOffsets spatium anchor1 anchor2).1.y
            = 2 / 5 * anchor1.chord.lineDistance * spatium
                * (Int.sign (anchor2.pitch - anchor1.pitch) : ℚ)
          ∧ (endpointOffsets spatium anchor1 anchor2).2.y
            = -(2 / 5 * anchor1.chord.lineDistance * spatium
                * (Int.sign (anchor2.pitch - anchor1.pitch) : ℚ)))
      ∧ (anchor1.pitch ≠ anchor2.pitch →
          (anchor1.chord.isTabStaff = true → anchor1.chord.lineDistance ≠ 0) →
          (endpointOffsets spatium anchor1 anchor2).1.y
            ≠ (endpointOffsets spatium anchor1 anchor2).2.y)
      ∧ (anchor1.pitch = anchor2.pitch →
          (endpointOffsets spatium anchor1 anchor2).1.y = 0
            ∧ (endpointOffsets spatium anchor1 anchor2).2.y = 0) := by
  have hnormal : anchor1.chord.isTabStaff = false →
      (endpointOffsets spatium anchor1 anchor2).1.y
          = 1 / 4 * spatium * (Int.sign (anchor2.pitch - anchor1.pitch) : ℚ)
        ∧ (endpointOffsets spatium anchor1 anchor2).2.y
          = -(1 / 4 * spatium * (Int.sign (anchor2.pitch - anchor1.pitch) : ℚ)) := by
    intro ht
    have hline : anchor1.line = anchor2.line := by
      rcases hcase with h | h
      · rw [ht] at h; cases h
      · exact h
    unfold endpointOffsets
    simp only [ht, hline, upDown_eq_sign, Bool.false_eq_true, ↓reduceIte]
    constructor <;> ring
  have htab : anchor1.chord.isTabStaff = true →
      (endpointOffsets spatium anchor1 anchor2).1.y
          = 2 / 5 * anchor1.chord.lineDistance * spatium
              * (Int.sign (anchor2.pitch - anchor1.pitch) : ℚ)
        ∧ (endpointOffsets spatium anchor1 anchor2).2.y
          = -(2 / 5 * anchor1.chord.lineDistance * spatium
              * (Int.sign (anchor2.pitch - anchor1.pitch) : ℚ)) := by
    intro ht
    unfold endpointOffsets
    simp only [ht, upDown_eq_sign, ↓reduceIte]
    constructor <;> ring
  refine ⟨hnormal, htab, ?_, ?_⟩
  · intro hp hld
    have hsign : (Int.sign (anchor2.pitch - anchor1.pitch) : ℚ) ≠ 0 := by
      have : Int.sign (anchor2.pitch - anchor1.pitch) ≠ 0 := by
        rw [Ne, Int.sign_eq_zero_iff_zero]
        omega
      exact_mod_cast this
    by_cases ht : anchor1.chord.isTabStaff = true
    · obtain ⟨h1, h2⟩ := htab ht
      rw [h1, h2]
      intro heq
      have hz : 2 / 5 * anchor1.chord.lineDistance * spatium
          * (Int.sign (anchor2.pitch - anchor1.pitch) : ℚ) = 0 := by linarith
      have hprod : 2 / 5 * anchor1.chord.lineDistance * spatium ≠ 0 :=
        mul_ne_zero (mul_ne_zero (by norm_num) (hld ht)) (ne_of_gt hsp)
      exact (mul_ne_zero hprod hsign) hz
    · have ht2 : anchor1.chord.isTabStaff = false := by simpa using ht
      obtain ⟨h1, h2⟩ := hnormal ht2
      rw [h1, h2]
      intro heq
      have hz : 1 / 4 * spatium * (Int.sign (anchor2.pitch - anchor1.pitch) : ℚ) = 0 := by
        linarith
      have hprod : 1 / 4 * spatium ≠ 0 := mul_ne_zero (by norm_num) (ne_of_gt hsp)
      exact (mul_ne_zero hprod hsign) hz
  · intro hp
    exact endpointOffsets_y_zero spatium anchor1 anchor2 hp

/-- C15, amended, at two notes on the same line with rising pitch and spatium
2: the two y offsets differ. -/
theorem endpointOffsets_nudge_witness :
    (endpointOffsets 2 { line := 3, pitch := 60 } { line := 3, pitch := 61 }).1.y
      ≠ (endpointOffsets 2 { line := 3, pitch := 60 } { line := 3, pitch := 61 }).2.y :=
  (endpointOffsets_nudge 2 { line := 3, pitch := 60 } { line := 3, pitch := 61 }
    (by norm_num) (Or.inr rfl)).2.2.1 (by decide) (by intro h; cases h)

/-! ### C19: system-initial note widening -/

/-- C19: the widening step applies exactly when the end chord's measure is
first in its system, the end chord's tick within the measure is zero, the end
chord is not a grace-after and the start chord is not a child of the end
chord.  When it applies, the last segment's origin x decreases by spatium, its
horizontal extent increases by spatium, its end point and all y values are
unchanged, and the segments before it are untouched; when it does not apply,
nothing changes. -/
theorem widenSystemInitial_effect (spatium : ℚ) (cr1 cr2 : Chord)
    (init : List LineSegment) (z : LineSegment) (segs : List LineSegment) :
    (isSystemInitial cr1 cr2 = true ↔
        (cr2.measureIsFirstInSystem = true ∧ cr2.rtickIsZero = true
          ∧ cr2.noteType ≠ NoteType.GRACE8_AFTER ∧ cr2.noteType ≠ NoteType.GRACE16_AFTER
          ∧ cr2.noteType ≠ NoteType.GRACE32_AFTER
          ∧ cr1.explicitParent ≠ some cr2.id))
      ∧ (isSystemInitial cr1 cr2 = true →
          ∃ z1 : LineSegment,
            widenSystemInitial spatium cr1 cr2 (init ++ [z]) = init ++ [z1]
              ∧ z1.ipos.x = z.ipos.x - spatium
              ∧ z1.ipos2.x = z.ipos2.x + spatium
              ∧ z1.ipos.y = z.ipos.y
              ∧ z1.ipos2.y = z.ipos2.y
              ∧ z1.ipos + z1.ipos2 = z.ipos + z.ipos2
              ∧ z1.offset = z.offset ∧ z1.offset2 = z.offset2)
      ∧ (isSystemInitial cr1 cr2 = false →
          widenSystemInitial spatium cr1 cr2 segs = segs) := by
  refine ⟨?_, ?_, ?_⟩
  · simp only [isSystemInitial, Bool.and_eq_true, Bool.not_eq_true', Bool.or_eq_false_iff,
      decide_eq_true_eq, decide_eq_false_iff_not, ne_eq]
    tauto
  · intro h
    unfold widenSystemInitial
    rw [if_pos h]
    simp only [updateAt_concat_last]
    refine ⟨_, rfl, ?_, rfl, rfl, rfl, ?_, rfl, rfl⟩
    · simp only []; ring
    · apply PointF.ext_xy
      · simp only [PointF.add_x]; ring
      · simp only [PointF.add_y]
  · intro h
    unfold widenSystemInitial
    simp [h]

/-! ### C20: endpoint correction to notehead centres -/

/-- C20: `offs1.x` is half the start notehead width on a normal staff and the
right edge of the start note's bounding box on a tablature staff, `offs2.x` is
half the end notehead width.  On a connector of two segments or more, the
endpoint-correction step moves the first segment's origin by `offs1`, shortens
its end vector by `offs1` (so its end point is unchanged) and lengthens the
last segment's end vector by `offs2`, leaving the last segment's origin and
the segments in between as they were; on a single segment it does all three
to that segment. -/
theorem applyEndpointOffsets_effect (spatium : ℚ) (anchor1 anchor2 : Note)
    (offs1 offs2 : PointF) (a z s : LineSegment) (mid : List LineSegment) :
    (endpointOffsets spatium anchor1 anchor2).1.x
        = (if anchor1.chord.isTabStaff then anchor1.bboxRight else anchor1.headWidth / 2)
      ∧ (endpointOffsets spatium anchor1 anchor2).2.x = anchor2.headWidth / 2
      ∧ applyEndpointOffsets offs1 offs2 (a :: (mid ++ [z]))
          = { a with ipos := a.ipos + offs1, ipos2 := a.ipos2 - offs1 }
              :: (mid ++ [{ z with ipos2 := z.ipos2 + offs2 }])
      ∧ (a.ipos + offs1) + (a.ipos2 - offs1) = a.ipos + a.ipos2
      ∧ applyEndpointOffsets offs1 offs2 [s]
          = [{ s with ipos := s.ipos + offs1, ipos2 := s.ipos2 - offs1 + offs2 }] := by
  refine ⟨?_, ?_, ?_, ?_, ?_⟩
  · unfold endpointOffsets
    by_cases ht : anchor1.chord.isTabStaff = true <;>
      by_cases hl : anchor1.line = anchor2.line <;> simp [ht, hl] <;> ring
  · unfold endpointOffsets
    by_cases ht : anchor1.chord.isTabStaff = true <;>
      by_cases hl : anchor1.line = anchor2.line <;> simp [ht, hl] <;> ring
  · unfold applyEndpointOffsets
    simp only [updateAt_cons_zero]
    exact updateAt_concat_last (_ :: mid) z _
  · apply PointF.ext_xy
    · simp only [PointF.add_x, PointF.sub_x]; ring
    · simp only [PointF.add_y, PointF.sub_y]; ring
  · unfold applyEndpointOffsets
    simp only [updateAt_cons_zero]
    exact updateAt_concat_last [] _ _

/-! ### C16: the shortenings keep the slope -/

/-- The block "keep clear of all elements of the chord" is the start-side
shortening by the first adjustment followed by the end-side shortening by the
second. -/
theorem avoidChords_eq (host : Host) (spatium : ℚ) (anchor1 anchor2 : Note)
    (offs1 offs2 : PointF) (segs : List LineSegment) :
    avoidChords host spatium anchor1 anchor2 offs1 offs2 segs
      = match shortenStart (avoidanceOffsets host spatium anchor1 anchor2 offs1 offs2).1 segs with
        | Except.error e => Except.error e
        | Except.ok segs2 =>
          shortenEnd (avoidanceOffsets host spatium anchor1 anchor2 offs1 offs2).2 segs2 := by
  unfold avoidChords shortenStart avoidanceOffsets shapeWithoutLyrics
  cases hh : segs.head? with
  | none => rfl
  | some segm1 =>
    simp only []
    cases hd : fdiv (segm1.ipos2.y * (offs1.x * -1
        + (host.shapeRight (List.filter (fun s =>
            !(match s.toItemIsLyrics with
              | none => true
              | some isLyrics => isLyrics)) anchor1.chord.shape) - anchor1.posX)
        + 1 / 4 * spatium)) segm1.ipos2.x with
    | error e => rfl
    | ok y1 =>
      simp only [shortenEnd]
      by_cases ht : anchor2.chord.isTabStaff = true
      · simp only [ht, Bool.not_true, Bool.false_eq_true, if_false]
      · have ht2 : anchor2.chord.isTabStaff = false := by simpa using ht
        simp only [ht2, Bool.not_false, if_true]

/-- C16: each inward shortening of the chord-avoidance block keeps the slope
of its segment.  For the first segment with end vector `(x, y)`, `x ≠ 0`, the
start-side shortening by `x1` succeeds and gives the end vector
`(x', y') = (x - x1, y - y * x1 / x)` with `y' * x = y * x'`, the end point
`ipos + ipos2` unchanged.  For the last segment with end vector `(x, y)`,
`x ≠ 0`, the end-side shortening by `x2` succeeds and gives
`(x', y') = (x + x2, y + y * x2 / x)` with `y' * x = y * x'`, the origin
unchanged.  (`avoidChords_eq`: the block is the first followed by the second.) -/
theorem shorten_keeps_slope (x1 x2 : ℚ) (a : LineSegment) (t init : List LineSegment)
    (z : LineSegment) (ha : a.ipos2.x ≠ 0) (hz : z.ipos2.x ≠ 0) :
    (∃ a1 : LineSegment, shortenStart x1 (a :: t) = Except.ok (a1 :: t)
        ∧ a1.ipos2.x = a.ipos2.x - x1
        ∧ a1.ipos2.y * a.ipos2.x = a.ipos2.y * a1.ipos2.x
        ∧ a1.ipos + a1.ipos2 = a.ipos + a.ipos2)
      ∧ (∃ z1 : LineSegment, shortenEnd x2 (init ++ [z]) = Except.ok (init ++ [z1])
        ∧ z1.ipos2.x = z.ipos2.x + x2
        ∧ z1.ipos2.y * z.ipos2.x = z.ipos2.y * z1.ipos2.x
        ∧ z1.ipos = z.ipos) := by
  constructor
  · refine ⟨{ a with ipos := a.ipos + { x := x1, y := a.ipos2.y * x1 / a.ipos2.x }
                     ipos2 := a.ipos2 - { x := x1, y := a.ipos2.y * x1 / a.ipos2.x } },
      ?_, rfl, ?_, ?_⟩
    · simp only [shortenStart, List.head?_cons, fdiv, ha, if_false, updateAt_cons_zero]
    · simp only [PointF.sub_y]
      field_simp
      ring
    · apply PointF.ext_xy
      · simp only [PointF.add_x, PointF.sub_x]; ring
      · simp only [PointF.add_y, PointF.sub_y]; ring
  · refine ⟨{ z with ipos2 := z.ipos2 + { x := x2, y := z.ipos2.y * x2 / z.ipos2.x } },
      ?_, rfl, ?_, rfl⟩
    · simp only [shortenEnd, List.getLast?_concat, fdiv, hz, if_false, updateAt_concat_last]
    · simp only [PointF.add_y]
      field_simp
      ring

/-- C16 on a first segment with end vector (4, 2) shortened by 1 and a last
segment with end vector (3, 6) adjusted by -1. -/
theorem shorten_keeps_slope_witness :
    (∃ a1 : LineSegment,
        shortenStart 1 ({ ipos2 := { x := 4, y := 2 } } :: [{ ipos2 := { x := 3, y := 6 } }])
          = Except.ok (a1 :: [{ ipos2 := { x := 3, y := 6 } }])
        ∧ a1.ipos2.x = (4 : ℚ) - 1
        ∧ a1.ipos2.y * (4 : ℚ) = (2 : ℚ) * a1.ipos2.x
        ∧ a1.ipos + a1.ipos2 = ({ x := 0, y := 0 } : PointF) + { x := 4, y := 2 })
      ∧ (∃ z1 : LineSegment,
        shortenEnd (-1) ([{ ipos2 := { x := 4, y := 2 } }] ++ [{ ipos2 := { x := 3, y := 6 } }])
          = Except.ok ([{ ipos2 := { x := 4, y := 2 } }] ++ [z1])
        ∧ z1.ipos2.x = (3 : ℚ) + -1
        ∧ z1.ipos2.y * (3 : ℚ) = (6 : ℚ) * z1.ipos2.x
        ∧ z1.ipos = ({ x := 0, y := 0 } : PointF)) :=
  shorten_keeps_slope 1 (-1) { ipos2 := { x := 4, y := 2 } } [{ ipos2 := { x := 3, y := 6 } }]
    [{ ipos2 := { x := 4, y := 2 } }] { ipos2 := { x := 3, y := 6 } }
    (by norm_num) (by norm_num)

/-! ### C17: where the connector starts and ends -/

theorem getLast?_first_last (a z : LineSegment) (mid : List LineSegment) :
    (a :: (mid ++ [z])).getLast? = some z := by
  rw [← List.cons_append]
  exact List.getLast?_concat _

theorem applyEndpointOffsets_multi (offs1 offs2 : PointF) (a z : LineSegment)
    (mid : List LineSegment) :
    applyEndpointOffsets offs1 offs2 (a :: (mid ++ [z]))
      = { a with ipos := a.ipos + offs1, ipos2 := a.ipos2 - offs1 }
          :: (mid ++ [{ z with ipos2 := z.ipos2 + offs2 }]) := by
  unfold applyEndpointOffsets
  simp only [updateAt_cons_zero]
  exact updateAt_concat_last (_ :: mid) z _

theorem applyEndpointOffsets_single (offs1 offs2 : PointF) (s : LineSegment) :
    applyEndpointOffsets offs1 offs2 [s]
      = [{ s with ipos := s.ipos + offs1, ipos2 := s.ipos2 - offs1 + offs2 }] := by
  unfold applyEndpointOffsets
  simp only [updateAt_cons_zero]
  exact updateAt_concat_last [] _ _

/-- The endpoint correction moves the connector's start by `offs1.x` and its
end by `offs2.x`. -/
theorem applyEndpointOffsets_ends (offs1 offs2 : PointF) (segs : List LineSegment) :
    startX (applyEndpointOffsets offs1 offs2 segs) = (startX segs).map (fun x => x + offs1.x)
      ∧ endX (applyEndpointOffsets offs1 offs2 segs)
        = (endX segs).map (fun x => x + offs2.x) := by
  by_cases hne : segs = []
  · subst hne
    simp [applyEndpointOffsets, updateAt, startX, endX]
  rcases single_or_first_last segs hne with ⟨s, rfl⟩ | ⟨a, mid, z, rfl⟩
  · rw [applyEndpointOffsets_single]
    constructor
    · simp [startX]
    · simp [endX]; ring
  · rw [applyEndpointOffsets_multi]
    constructor
    · simp [startX]
    · simp only [endX, getLast?_first_last, Option.map_some', PointF.add_x]
      congr 1
      ring

/-- The system-initial widening keeps the connector's end, and keeps its start
unless it is applied to a single segment. -/
theorem widenSystemInitial_ends (spatium : ℚ) (cr1 cr2 : Chord) (segs : List LineSegment) :
    endX (widenSystemInitial spatium cr1 cr2 segs) = endX segs
      ∧ (2 ≤ segs.length ∨ isSystemInitial cr1 cr2 = false →
          startX (widenSystemInitial spatium cr1 cr2 segs) = startX segs) := by
  by_cases hinit : isSystemInitial cr1 cr2 = true
  · by_cases hne : segs = []
    · subst hne
      simp [widenSystemInitial, updateAt, startX, endX]
    obtain ⟨init, z, rfl⟩ : ∃ init z, segs = init ++ [z] := by
      rcases List.eq_nil_or_concat segs with h | ⟨init, z, h⟩
      · exact absurd h hne
      · exact ⟨init, z, by rw [h, List.concat_eq_append]⟩
    have hw : widenSystemInitial spatium cr1 cr2 (init ++ [z])
        = init ++ [{ z with ipos := { z.ipos with x := z.ipos.x + -spatium }
                            ipos2 := { z.ipos2 with x := z.ipos2.x + spatium } }] := by
      unfold widenSystemInitial
      rw [if_pos hinit]
      simp only [updateAt_concat_last]
    rw [hw]
    constructor
    · simp only [endX, List.getLast?_concat, Option.map_some']
      congr 1
      ring
    · intro hcase
      rcases hcase with h2 | h2
      · cases init with
        | nil => simp at h2
        | cons a t => simp [startX]
      · rw [hinit] at h2; cases h2
  · have hfalse : isSystemInitial cr1 cr2 = false := by simpa using hinit
    have hw : widenSystemInitial spatium cr1 cr2 segs = segs := by
      unfold widenSystemInitial
      simp [hfalse]
    rw [hw]
    exact ⟨rfl, fun _ => rfl⟩

/-- The connector's start and end depend only on the x values of the segments. -/
theorem ends_of_x_values (l1 l2 : List LineSegment)
    (h : l1.map (fun s => (s.ipos.x, s.ipos2.x)) = l2.map (fun s => (s.ipos.x, s.ipos2.x))) :
    startX l1 = startX l2 ∧ endX l1 = endX l2 := by
  have h1 : ∀ l : List LineSegment,
      startX l = ((l.map (fun s => (s.ipos.x, s.ipos2.x))).head?).map (fun q => q.1) := by
    intro l; simp [startX, Option.map_map, Function.comp_def]
  have h2 : ∀ l : List LineSegment,
      endX l = ((l.map (fun s => (s.ipos.x, s.ipos2.x))).getLast?).map (fun q => q.1 + q.2) := by
    intro l; simp [endX, Option.map_map, Function.comp_def]
  rw [h1 l1, h1 l2, h2 l1, h2 l2, h]
  exact ⟨rfl, rfl⟩

/-- The interpolation block, when it succeeds, leaves every x value as it was. -/
theorem interpolate_ok_ends (segs out : List LineSegment)
    (h : interpolate segs = Except.ok out) :
    startX out = startX segs ∧ endX out = endX segs := by
  apply ends_of_x_values
  by_cases hne : segs = []
  · subst hne
    simp [interpolate] at h
  rcases single_or_first_last segs hne with ⟨s, rfl⟩ | ⟨a, mid, z, rfl⟩
  · rw [interpolate_single] at h
    cases h
    rfl
  · have hn : 2 ≤ (a :: (mid ++ [z])).length := by simp
    by_cases hx : totalWidth (a :: (mid ++ [z])) = 0
    · rw [interpolate_zero_width _ hn hx] at h
      cases h
    · obtain ⟨out1, hout1, hpt⟩ := interpolate_eq (a :: (mid ++ [z])) a z hn rfl
        (getLast?_first_last a z mid) hx
      rw [hout1] at h
      cases h
      apply List.ext_getElem?
      intro j
      rw [List.getElem?_map, List.getElem?_map, hpt]
      cases (a :: (mid ++ [z]))[j]? <;> simp [afterPasses_ipos_x, afterPasses_ipos2_x]

/-- The start-side shortening, when it succeeds, moves the connector's start by
`x1` and keeps its end. -/
theorem shortenStart_ok_ends (x1 : ℚ) (segs out : List LineSegment)
    (h : shortenStart x1 segs = Except.ok out) :
    startX out = (startX segs).map (fun x => x + x1) ∧ endX out = endX segs := by
  unfold shortenStart at h
  cases segs with
  | nil => simp at h
  | cons a t =>
    simp only [List.head?_cons] at h
    cases hd : fdiv (a.ipos2.y * x1) a.ipos2.x with
    | error e => rw [hd] at h; cases h
    | ok y1 =>
      rw [hd] at h
      simp only [updateAt_cons_zero, Except.ok.injEq] at h
      subst h
      constructor
      · simp [startX]
      · cases t with
        | nil => simp [endX]
        | cons b t2 => simp [endX]

/-- The end-side shortening, when it succeeds, moves the connector's end by
`x2` and keeps its start. -/
theorem shortenEnd_ok_ends (x2 : ℚ) (segs out : List LineSegment)
    (h : shortenEnd x2 segs = Except.ok out) :
    startX out = startX segs ∧ endX out = (endX segs).map (fun x => x + x2) := by
  unfold shortenEnd at h
  by_cases hne : segs = []
  · subst hne
    simp at h
  obtain ⟨init, z, rfl⟩ : ∃ init z, segs = init ++ [z] := by
    rcases List.eq_nil_or_concat segs with h0 | ⟨init, z, h0⟩
    · exact absurd h0 hne
    · exact ⟨init, z, by rw [h0, List.concat_eq_append]⟩
  simp only [List.getLast?_concat] at h
  cases hd : fdiv (z.ipos2.y * x2) z.ipos2.x with
  | error e => rw [hd] at h; cases h
  | ok y2 =>
    rw [hd] at h
    simp only [updateAt_concat_last, Except.ok.injEq] at h
    subst h
    constructor
    · cases init with
      | nil => simp [startX]
      | cons a t => simp [startX]
    · simp only [endX, List.getLast?_concat, Option.map_some', PointF.add_x]
      congr 1
      ring

/-- The layout of the segments writes bounding boxes only. -/
theorem segmentLayout_ends (lineWidth : ℚ) (segs : List LineSegment) :
    startX (segs.map (GlissandoSegment.layout lineWidth)) = startX segs
      ∧ endX (segs.map (GlissandoSegment.layout lineWidth)) = endX segs := by
  apply ends_of_x_values
  rw [List.map_map]
  rfl

/-- The attached branch of `Glissando::layout`: with both anchors notes and
the generic line layout leaving at least one segment, a successful run has
passed the segments through the five blocks in order. -/
theorem layout_attached_ok (host : Host) (g : Glissando) (anchor1 anchor2 : Note)
    (r : Glissando × List (Note × PointF))
    (hpal : g.isPaletteScore = false)
    (hs : g.startElement = some (EngravingItem.note anchor1))
    (he : g.endElement = some (EngravingItem.note anchor2))
    (hne : host.slineLayout g ≠ [])
    (hres : Glissando.layout host g = Except.ok r) :
    ∃ s1 s2 : List LineSegment,
      interpolate (widenSystemInitial g.spatium anchor1.chord anchor2.chord
          (applyEndpointOffsets (endpointOffsets g.spatium anchor1 anchor2).1
            (endpointOffsets g.spatium anchor1 anchor2).2 (host.slineLayout g)))
        = Except.ok s1
      ∧ avoidChords host g.spatium anchor1 anchor2 (endpointOffsets g.spatium anchor1 anchor2).1
          (endpointOffsets g.spatium anchor1 anchor2).2 s1 = Except.ok s2
      ∧ r.1.spannerSegments = s2.map (GlissandoSegment.layout g.lineWidth) := by
  have hempty : (host.slineLayout g).isEmpty = false := by
    cases hl : host.slineLayout g with
    | nil => exact absurd hl hne
    | cons a t => rfl
  unfold Glissando.layout at hres
  simp only [hpal, hs, he, Option.isNone_some, Bool.or_self, Bool.false_eq_true, if_false,
    hempty, toNote] at hres
  cases hi : interpolate (widenSystemInitial g.spatium anchor1.chord anchor2.chord
      (applyEndpointOffsets (endpointOffsets g.spatium anchor1 anchor2).1
        (endpointOffsets g.spatium anchor1 anchor2).2 (host.slineLayout g))) with
  | error e => rw [hi] at hres; cases hres
  | ok s1 =>
    rw [hi] at hres
    simp only [] at hres
    cases ha : avoidChords host g.spatium anchor1 anchor2
        (endpointOffsets g.spatium anchor1 anchor2).1
        (endpointOffsets g.spatium anchor1 anchor2).2 s1 with
    | error e => rw [ha] at hres; cases hres
    | ok s2 =>
      rw [ha] at hres
      simp only [] at hres
      refine ⟨s1, s2, rfl, ha, ?_⟩
      cases hl : (s2.map (GlissandoSegment.layout g.lineWidth)).getLast? with
      | none => rw [hl] at hres; cases hres
      | some segm2 =>
        rw [hl] at hres
        simp only [Except.ok.injEq] at hres
        rw [← hres]

theorem applyEndpointOffsets_length (offs1 offs2 : PointF) (segs : List LineSegment) :
    (applyEndpointOffsets offs1 offs2 segs).length = segs.length := by
  unfold applyEndpointOffsets
  simp only [updateAt_length]

/-- Where a successful attached layout puts the connector's start and end,
relative to the segments left by the generic line layout: the start is moved
by the two start-side adjustments, the end by the two end-side adjustments. -/
theorem layout_attached_ends (host : Host) (g : Glissando) (anchor1 anchor2 : Note)
    (r : Glissando × List (Note × PointF))
    (hpal : g.isPaletteScore = false)
    (hs : g.startElement = some (EngravingItem.note anchor1))
    (he : g.endElement = some (EngravingItem.note anchor2))
    (hne : host.slineLayout g ≠ [])
    (hres : Glissando.layout host g = Except.ok r) :
    endX r.1.spannerSegments
        = (endX (host.slineLayout g)).map (fun x =>
            x + (endpointOffsets g.spatium anchor1 anchor2).2.x
              + (avoidanceOffsets host g.spatium anchor1 anchor2
                  (endpointOffsets g.spatium anchor1 anchor2).1
                  (endpointOffsets g.spatium anchor1 anchor2).2).2)
      ∧ (2 ≤ (host.slineLayout g).length
            ∨ isSystemInitial anchor1.chord anchor2.chord = false →
          startX r.1.spannerSegments
            = (startX (host.slineLayout g)).map (fun x =>
                x + (endpointOffsets g.spatium anchor1 anchor2).1.x
                  + (avoidanceOffsets host g.spatium anchor1 anchor2
                      (endpointOffsets g.spatium anchor1 anchor2).1
                      (endpointOffsets g.spatium anchor1 anchor2).2).1)) := by
  obtain ⟨s1, s2, hi, ha, hsegs⟩ := layout_attached_ok host g anchor1 anchor2 r hpal hs he hne hres
  rw [avoidChords_eq] at ha
  cases hst : shortenStart (avoidanceOffsets host g.spatium anchor1 anchor2
      (endpointOffsets g.spatium anchor1 anchor2).1
      (endpointOffsets g.spatium anchor1 anchor2).2).1 s1 with
  | error e => rw [hst] at ha; cases ha
  | ok s1a =>
    rw [hst] at ha
    simp only [] at ha
    obtain ⟨hA1, hA2⟩ := applyEndpointOffsets_ends (endpointOffsets g.spatium anchor1 anchor2).1
      (endpointOffsets g.spatium anchor1 anchor2).2 (host.slineLayout g)
    obtain ⟨hW2, hW1⟩ := widenSystemInitial_ends g.spatium anchor1.chord anchor2.chord
      (applyEndpointOffsets (endpointOffsets g.spatium anchor1 anchor2).1
        (endpointOffsets g.spatium anchor1 anchor2).2 (host.slineLayout g))
    obtain ⟨hI1, hI2⟩ := interpolate_ok_ends _ _ hi
    obtain ⟨hS1, hS2⟩ := shortenStart_ok_ends _ _ _ hst
    obtain ⟨hE1, hE2⟩ := shortenEnd_ok_ends _ _ _ ha
    obtain ⟨hL1, hL2⟩ := segmentLayout_ends g.lineWidth s2
    constructor
    · rw [hsegs, hL2, hE2, hS2, hI2, hW2, hA2, Option.map_map]
      rfl
    · intro hcase
      rw [applyEndpointOffsets_length] at hW1
      rw [hsegs, hL1, hE1, hS1, hI1, hW1 hcase, hA1, Option.map_map]
      rfl

/-- C17, at a single segment whose end chord is system-initial, spatium 1, all
shapes empty and the naive segment starting at x = 0: the layout succeeds and
the first segment starts at x = -3/4, one spatium left of the
`0 + (0 - 0) + 0.25 * 1` that the claim gives. -/
theorem layout_single_system_initial_start :
    (Glissando.layout plainHost
        { startElement := some (EngravingItem.note { pitch := 60, line := 2, headWidth := 2 })
          endElement := some (EngravingItem.note
            { pitch := 62, line := 4, headWidth := 2,
              chord := { id := 1, measureIsFirstInSystem := true, rtickIsZero := true } })
          spannerSegments := [{ ipos := { x := 0, y := 0 }, ipos2 := { x := 10, y := 4 } }]
          spatium := 1 }).toOption.map (fun r => startX r.1.spannerSegments)
        = some (some (-3 / 4))
      ∧ (-3 / 4 : ℚ) ≠ 0 + (0 - 0) + 1 / 4 * 1 := by
  constructor
  · decide!
  · norm_num

/-- C17, amended: in a successful attached layout, relative to the naive
segments left by the generic line layout, the first segment starts at naive
start x + (right edge of the start chord's shape without lyrics and item-less
elements - the start note's x within its chord) + 0.25 * spatium, provided the
connector has two segments or more or the system-initial widening does not
apply; and on a non-tablature end staff the last segment ends at naive end x -
(left extent of the end chord's shape + the end note's x within its chord) -
0.25 * spatium; whatever the notehead widths. -/
theorem layout_clearance (host : Host) (g : Glissando) (anchor1 anchor2 : Note)
    (firstNaive lastNaive : LineSegment)
    (hpal : g.isPaletteScore = false)
    (hs : g.startElement = some (EngravingItem.note anchor1))
    (he : g.endElement = some (EngravingItem.note anchor2))
    (hfirst : (host.slineLayout g).head? = some firstNaive)
    (hlast : (host.slineLayout g).getLast? = some lastNaive)
    (hcase : 2 ≤ (host.slineLayout g).length
      ∨ isSystemInitial anchor1.chord anchor2.chord = false)
    (hok : (Glissando.layout host g).isOk = true) :
    ∃ (g1 : Glissando) (reports : List (Note × PointF)),
      Glissando.layout host g = Except.ok (g1, reports)
        ∧ startX g1.spannerSegments
          = some (firstNaive.ipos.x
              + (host.shapeRight (shapeWithoutLyrics anchor1.chord.shape) - anchor1.posX)
              + 1 / 4 * g.spatium)
        ∧ (anchor2.chord.isTabStaff = false →
            endX g1.spannerSegments
              = some (lastNaive.ipos.x + lastNaive.ipos2.x
                  - (host.shapeLeft anchor2.chord.shape + anchor2.posX)
                  - 1 / 4 * g.spatium)) := by
  cases hres : Glissando.layout host g with
  | error e => rw [hres] at hok; cases hok
  | ok r =>
    have hne : host.slineLayout g ≠ [] := by
      intro h; rw [h] at hfirst; cases hfirst
    obtain ⟨hend, hstart⟩ := layout_attached_ends host g anchor1 anchor2 r hpal hs he hne hres
    refine ⟨r.1, r.2, rfl, ?_, ?_⟩
    · rw [hstart hcase]
      simp only [startX, hfirst, Option.map_some', avoidanceOffsets]
      congr 1
      ring
    · intro htab
      rw [hend]
      simp only [endX, hlast, Option.map_some', avoidanceOffsets, htab, Bool.not_false, if_true]
      congr 1
      ring

/-- C17, amended, on `threeSegmentGlissando` with empty shapes: the line starts
at `0 + (0 - 1) + 0.25 * 4` and ends at `0 + 1 - (0 + 3) - 0.25 * 4`. -/
theorem layout_clearance_witness :
    ∃ (g1 : Glissando) (reports : List (Note × PointF)),
      Glissando.layout plainHost threeSegmentGlissando = Except.ok (g1, reports)
        ∧ startX g1.spannerSegments = some ((0 : ℚ) + (0 - 1) + 1 / 4 * 4)
        ∧ (false = false →
            endX g1.spannerSegments = some ((0 : ℚ) + 1 - (0 + 3) - 1 / 4 * 4)) :=
  layout_clearance plainHost threeSegmentGlissando
    { pitch := 60, line := 2, headWidth := 2, posX := 1 }
    { pitch := 62, line := 2, headWidth := 2, posX := 3 }
    { ipos := { x := 0, y := 0 }, ipos2 := { x := 2, y := 0 } }
    { ipos := { x := 0, y := 1 }, ipos2 := { x := 1, y := 7 } }
    rfl rfl rfl rfl rfl (Or.inl (by decide)) (by decide!)

/-! ### C18: a tablature end staff skips the end-side shape avoidance -/

/-- On a tablature end staff the horizontal adjustments of the avoidance block
do not read the end chord's shape. -/
theorem avoidanceOffsets_tab_end (host : Host) (spatium : ℚ) (anchor1 anchor2 : Note)
    (shape2 : List ShapeElement) (offs1 offs2 : PointF)
    (ht : anchor2.chord.isTabStaff = true) :
    avoidanceOffsets host spatium anchor1
        { anchor2 with chord := { anchor2.chord with shape := shape2 } } offs1 offs2
      = avoidanceOffsets host spatium anchor1 anchor2 offs1 offs2 := by
  simp [avoidanceOffsets, ht]

/-- The segments after an attached layout are `attachedSegments` of the
segments left by the generic line layout. -/
theorem layout_attached_segments (host : Host) (g : Glissando) (anchor1 anchor2 : Note)
    (hpal : g.isPaletteScore = false)
    (hs : g.startElement = some (EngravingItem.note anchor1))
    (he : g.endElement = some (EngravingItem.note anchor2)) :
    (Glissando.layout host g).map (fun r => r.1.spannerSegments)
      = attachedSegments host g.spatium g.lineWidth anchor1 anchor2 (host.slineLayout g) := by
  unfold Glissando.layout attachedSegments
  simp only [hpal, hs, he, Option.isNone_some, Bool.or_self, Bool.false_eq_true, if_false, toNote]
  by_cases hempty : (host.slineLayout g).isEmpty = true
  · simp only [hempty, if_true]
    rfl
  · simp only [hempty, if_false]
    cases interpolate (widenSystemInitial g.spatium anchor1.chord anchor2.chord
        (applyEndpointOffsets (endpointOffsets g.spatium anchor1 anchor2).1
          (endpointOffsets g.spatium anchor1 anchor2).2 (host.slineLayout g))) with
    | error e => rfl
    | ok s1 =>
      simp only []
      cases avoidChords host g.spatium anchor1 anchor2
          (endpointOffsets g.spatium anchor1 anchor2).1
          (endpointOffsets g.spatium anchor1 anchor2).2 s1 with
      | error e => rfl
      | ok s2 =>
        simp only []
        cases (s2.map (GlissandoSegment.layout g.lineWidth)).getLast? with
        | none => rfl
        | some segm2 => rfl

/-- C18: when the end chord's staff is tablature, the end-side horizontal
adjustment of the avoidance block is `-(end notehead width / 2) - 0.25 * spatium`,
and replacing the end chord's shape by any other, all other inputs equal (the
generic line layout leaving the same segments), leaves the outcome of the
attached layout and every segment after it the same, the last segment's end
vector included. -/
theorem layout_tab_end_ignores_shape (host : Host) (g : Glissando) (anchor1 anchor2 : Note)
    (shape2 : List ShapeElement)
    (ht : anchor2.chord.isTabStaff = true)
    (hpal : g.isPaletteScore = false)
    (hs : g.startElement = some (EngravingItem.note anchor1))
    (he : g.endElement = some (EngravingItem.note anchor2))
    (hnaive : host.slineLayout { g with endElement := some (EngravingItem.note
        { anchor2 with chord := { anchor2.chord with shape := shape2 } }) }
      = host.slineLayout g) :
    (avoidanceOffsets host g.spatium anchor1 anchor2
        (endpointOffsets g.spatium anchor1 anchor2).1
        (endpointOffsets g.spatium anchor1 anchor2).2).2
        = -(anchor2.headWidth / 2) - 1 / 4 * g.spatium
      ∧ (Glissando.layout host { g with endElement := some (EngravingItem.note
            { anchor2 with chord := { anchor2.chord with shape := shape2 } }) }).map
          (fun r => r.1.spannerSegments)
        = (Glissando.layout host g).map (fun r => r.1.spannerSegments) := by
  constructor
  · have h2 : (endpointOffsets g.spatium anchor1 anchor2).2.x = anchor2.headWidth * (1 / 2) := by
      unfold endpointOffsets
      by_cases ht1 : anchor1.chord.isTabStaff = true <;>
        by_cases hl : anchor1.line = anchor2.line <;> simp [ht1, hl]
    simp only [avoidanceOffsets, ht, Bool.not_true, Bool.false_eq_true, if_false, h2]
    ring
  · have h1 := layout_attached_segments host
      { g with endElement := some (EngravingItem.note
          { anchor2 with chord := { anchor2.chord with shape := shape2 } }) }
      anchor1 { anchor2 with chord := { anchor2.chord with shape := shape2 } } hpal hs rfl
    rw [h1, layout_attached_segments host g anchor1 anchor2 hpal hs he, hnaive]
    have hav : ∀ segs : List LineSegment,
        avoidChords host g.spatium anchor1
            { anchor2 with chord := { anchor2.chord with shape := shape2 } }
            (endpointOffsets g.spatium anchor1 anchor2).1
            (endpointOffsets g.spatium anchor1 anchor2).2 segs
          = avoidChords host g.spatium anchor1 anchor2
            (endpointOffsets g.spatium anchor1 anchor2).1
            (endpointOffsets g.spatium anchor1 anchor2).2 segs := by
      intro segs
      rw [avoidChords_eq, avoidChords_eq, avoidanceOffsets_tab_end _ _ _ _ _ _ _ ht]
    have hoff : endpointOffsets g.spatium anchor1
          { anchor2 with chord := { anchor2.chord with shape := shape2 } }
        = endpointOffsets g.spatium anchor1 anchor2 := rfl
    have hwiden : ∀ segs : List LineSegment,
        widenSystemInitial g.spatium anchor1.chord
            ({ anchor2 with chord := { anchor2.chord with shape := shape2 } } : Note).chord segs
          = widenSystemInitial g.spatium anchor1.chord anchor2.chord segs := fun _ => rfl
    show attachedSegments host g.spatium g.lineWidth anchor1
        { anchor2 with chord := { anchor2.chord with shape := shape2 } } (host.slineLayout g)
      = attachedSegments host g.spatium g.lineWidth anchor1 anchor2 (host.slineLayout g)
    unfold attachedSegments
    rw [hoff]
    simp only [hwiden, hav]

/-- C18 on `tabEndGlissando`, the end chord's shape replaced by one rectangle
of width 100. -/
theorem layout_tab_end_ignores_shape_witness :
    (avoidanceOffsets plainHost tabEndGlissando.spatium
        { pitch := 60, line := 2, headWidth := 2, posX := 1 } tabEndNote
        (endpointOffsets tabEndGlissando.spatium
          { pitch := 60, line := 2, headWidth := 2, posX := 1 } tabEndNote).1
        (endpointOffsets tabEndGlissando.spatium
          { pitch := 60, line := 2, headWidth := 2, posX := 1 } tabEndNote).2).2
        = -(tabEndNote.headWidth / 2) - 1 / 4 * tabEndGlissando.spatium
      ∧ (Glissando.layout plainHost { tabEndGlissando with endElement := some (EngravingItem.note
            { tabEndNote with chord := { tabEndNote.chord with
                shape := [{ rect := { x := -50, y := 0, w := 100, h := 1 } }] } }) }).map
          (fun r => r.1.spannerSegments)
        = (Glissando.layout plainHost tabEndGlissando).map (fun r => r.1.spannerSegments) :=
  layout_tab_end_ignores_shape plainHost tabEndGlissando
    { pitch := 60, line := 2, headWidth := 2, posX := 1 } tabEndNote
    [{ rect := { x := -50, y := 0, w := 100, h := 1 } }] rfl rfl rfl rfl rfl

/-! ## Theorems: segment boxes and attachment reports -/

/-! ### C21: the bounding box of a segment -/

/-- C21: for every end vector `pos2` (components of any sign) and every line
width `lineWidth ≥ 0`, `GlissandoSegment::layout` sets the bounding box to the
normalized rectangle spanned by `(0, 0)` and `pos2`, padded by `lineWidth / 2`
on all four sides: its width is `|pos2.x| + lineWidth` and its height is
`|pos2.y| + lineWidth`, both non-negative, and the end vector is untouched. -/
theorem segmentLayout_bbox (lineWidth : ℚ) (s : LineSegment) (hlw : 0 ≤ lineWidth) :
    (GlissandoSegment.layout lineWidth s).bbox
        = { x := min 0 s.pos2.x - lineWidth / 2, y := min 0 s.pos2.y - lineWidth / 2,
            w := |s.pos2.x| + lineWidth, h := |s.pos2.y| + lineWidth }
      ∧ (GlissandoSegment.layout lineWidth s).bbox
        = (RectF.normalized { x := 0, y := 0, w := s.pos2.x, h := s.pos2.y }).adjusted
            (-(lineWidth / 2)) (-(lineWidth / 2)) (lineWidth / 2) (lineWidth / 2)
      ∧ 0 ≤ (GlissandoSegment.layout lineWidth s).bbox.w
      ∧ 0 ≤ (GlissandoSegment.layout lineWidth s).bbox.h
      ∧ (GlissandoSegment.layout lineWidth s).pos2 = s.pos2 := by
  have hb : (GlissandoSegment.layout lineWidth s).bbox
        = { x := min 0 s.pos2.x - lineWidth / 2, y := min 0 s.pos2.y - lineWidth / 2,
            w := |s.pos2.x| + lineWidth, h := |s.pos2.y| + lineWidth } := by
    simp only [GlissandoSegment.layout, RectF.normalized, RectF.adjusted]
    by_cases hx : s.pos2.x < 0 <;> by_cases hy : s.pos2.y < 0
    · simp only [hx, hy, if_true, abs_of_neg, min_eq_right (le_of_lt hx),
        min_eq_right (le_of_lt hy), RectF.mk.injEq]
      refine ⟨by ring, by ring, by ring, by ring⟩
    · simp only [hx, hy, if_true, if_false, abs_of_neg, abs_of_nonneg (not_lt.mp hy),
        min_eq_right (le_of_lt hx), min_eq_left (not_lt.mp hy), RectF.mk.injEq]
      refine ⟨by ring, by ring, by ring, by ring⟩
    · simp only [hx, hy, if_true, if_false, abs_of_neg, abs_of_nonneg (not_lt.mp hx),
        min_eq_left (not_lt.mp hx), min_eq_right (le_of_lt hy), RectF.mk.injEq]
      refine ⟨by ring, by ring, by ring, by ring⟩
    · simp only [hx, hy, if_false, abs_of_nonneg (not_lt.mp hx), abs_of_nonneg (not_lt.mp hy),
        min_eq_left (not_lt.mp hx), min_eq_left (not_lt.mp hy), RectF.mk.injEq]
      refine ⟨by ring, by ring, by ring, by ring⟩
  refine ⟨hb, ?_, ?_, ?_, rfl⟩
  · simp only [GlissandoSegment.layout]
    congr 1 <;> ring
  · rw [hb]
    exact add_nonneg (abs_nonneg _) hlw
  · rw [hb]
    exact add_nonneg (abs_nonneg _) hlw

/-- C21 at the end vector `(-3, 2)` and line width 1: the box is 4 wide and 3
high, from `(-7/2, -1/2)`. -/
theorem segmentLayout_bbox_witness :
    (0 : ℚ) ≤ 1
      ∧ (GlissandoSegment.layout 1 { ipos2 := { x := -3, y := 2 } }).bbox
        = { x := -7 / 2, y := -1 / 2, w := 4, h := 3 } :=
  ⟨by norm_num, by
    rw [(segmentLayout_bbox 1 { ipos2 := { x := -3, y := 2 } } (by norm_num)).1]
    norm_num [LineSegment.pos2]⟩

/-! ### C22: the two attachment reports -/

/-- C22: when the front segment exists and both anchors are notes in the same
measure, `addLineAttachPoints` makes exactly two reports, in this order: to the
start note the point `(origin x, 0)` of the front segment and to the end note
the point `(origin x + pos2.x, 0)`; the y coordinate of every report is 0. -/
theorem addLineAttachPoints_reports (g : Glissando) (seg : LineSegment)
    (rest : List LineSegment) (ns ne : Note)
    (hsegs : g.spannerSegments = seg :: rest)
    (hs : g.startElement = some (EngravingItem.note ns))
    (he : g.endElement = some (EngravingItem.note ne))
    (hm : ns.findMeasure = ne.findMeasure) :
    g.addLineAttachPoints
        = [(ns, { x := seg.ipos.x, y := 0 }), (ne, { x := seg.ipos.x + seg.pos2.x, y := 0 })]
      ∧ ∀ r ∈ g.addLineAttachPoints, r.2.y = 0 := by
  have hr : g.addLineAttachPoints
      = [(ns, { x := seg.ipos.x, y := 0 }), (ne, { x := seg.ipos.x + seg.pos2.x, y := 0 })] := by
    simp [Glissando.addLineAttachPoints, hsegs, hs, he, hm, add_comm]
  refine ⟨hr, ?_⟩
  intro r hmem
  rw [hr] at hmem
  simp only [List.mem_cons, List.mem_singleton, List.not_mem_nil, or_false] at hmem
  rcases hmem with h | h <;> rw [h]

/-- C22 at a front segment with origin x 2 and end vector x 5, both notes in
measure 1: the reports are at x = 2 and x = 7. -/
theorem addLineAttachPoints_reports_witness :
    Glissando.addLineAttachPoints
        { startElement := some (EngravingItem.note { id := 1, findMeasure := some 1 })
          endElement := some (EngravingItem.note { id := 2, findMeasure := some 1 })
          spannerSegments := [{ ipos := { x := 2, y := 9 }, ipos2 := { x := 5, y := 3 } }] }
      = [({ id := 1, findMeasure := some 1 }, { x := 2, y := 0 }),
         ({ id := 2, findMeasure := some 1 }, { x := 7, y := 0 })] := by
  rw [(addLineAttachPoints_reports _ { ipos := { x := 2, y := 9 }, ipos2 := { x := 5, y := 3 } } []
    { id := 1, findMeasure := some 1 } { id := 2, findMeasure := some 1 } rfl rfl rfl rfl).1]
  norm_num [LineSegment.pos2]

/-! ## Theorems: pitch-step resolver, continued -/

/-! ### C29: a true result with no offsets -/

/-- C29, at the input the claim names: BLACK_KEYS from pitch 64 to pitch 65,
play flag set, both anchors notes.  The only walked pitch, 64, is a white key,
so nothing is kept, and the resolver still answers `true`. -/
theorem black_keys_64_65_true_and_empty :
    Glissando.pitchSteps wholeTones 2 (betweenPitches GlissandoStyle.BLACK_KEYS 64 65) []
      = Except.ok (true, []) := by
  rfl

/-! ### C27: the index of the white-key table -/

/-- Every `false` result of `pitchSteps` is either one of the four early
returns (end anchor not a note, play flag off, PORTAMENTO, or two notes of
equal pitch), with the vector exactly as passed in, or a DIATONIC scan between
two notes of different pitch with the play flag set that emitted nothing.  For
every style other than DIATONIC the vector is as passed in. -/
theorem pitchSteps_false_cases (cps : Note → Note → Int → Int) (fuel : Nat) (g : Glissando)
    (prior offs : List Int)
    (h : Glissando.pitchSteps cps fuel g prior = Except.ok (false, offs)) :
    ((offs = prior
        ∧ (g.endElement = some EngravingItem.other ∨ g.playGlissando = false
            ∨ g.glissandoStyle = GlissandoStyle.PORTAMENTO
            ∨ ∃ ns ne : Note, g.startElement = some (EngravingItem.note ns)
                ∧ g.endElement = some (EngravingItem.note ne) ∧ ns.ppitch = ne.ppitch))
      ∨ (offs = [] ∧ g.glissandoStyle = GlissandoStyle.DIATONIC ∧ g.playGlissando = true
          ∧ ∃ ns ne : Note, g.startElement = some (EngravingItem.note ns)
              ∧ g.endElement = some (EngravingItem.note ne) ∧ ns.ppitch ≠ ne.ppitch))
      ∧ (g.glissandoStyle ≠ GlissandoStyle.DIATONIC → offs = prior) := by
  unfold Glissando.pitchSteps at h
  cases hend : g.endElement with
  | none => rw [hend] at h; simp at h
  | some e =>
    rw [hend] at h
    cases e with
    | other =>
      simp [EngravingItem.isNote] at h
      exact ⟨Or.inl ⟨h.symm, Or.inl rfl⟩, fun _ => h.symm⟩
    | note ne =>
      by_cases hplay : g.playGlissando = true
      · by_cases hport : g.glissandoStyle = GlissandoStyle.PORTAMENTO
        · simp [EngravingItem.isNote, hplay, hport] at h
          exact ⟨Or.inl ⟨h.symm, Or.inr (Or.inr (Or.inl hport))⟩, fun _ => h.symm⟩
        · cases hstart : g.startElement with
          | none => simp [EngravingItem.isNote, hplay, hport, hstart, toNote] at h
          | some st =>
            cases st with
            | other => simp [EngravingItem.isNote, hplay, hport, hstart, toNote] at h
            | note ns =>
              by_cases hp : ne.ppitch = ns.ppitch
              · simp [EngravingItem.isNote, hplay, hport, hstart, toNote, hp] at h
                exact ⟨Or.inl ⟨h.symm, Or.inr (Or.inr (Or.inr ⟨ns, ne, rfl, rfl, hp.symm⟩))⟩,
                  fun _ => h.symm⟩
              · by_cases hdia : g.glissandoStyle = GlissandoStyle.DIATONIC
                · simp only [EngravingItem.isNote, hplay, hport, hstart, toNote, hp, hdia,
                    Bool.not_true, Bool.false_eq_true, if_false, if_true] at h
                  cases hl : diatonicLoop (cps ns ne) ns.ppitch ne.ppitch
                      (if ne.ppitch > ns.ppitch then 1 else -1) ns.line fuel ns.line ns.ppitch [] with
                  | error x => rw [hl] at h; simp at h
                  | ok r =>
                    rw [hl] at h
                    simp at h
                    have hoffs : offs = [] := by rw [← h.2]; exact h.1
                    exact ⟨Or.inr ⟨hoffs, hdia, hplay, ns, ne, rfl, rfl, fun hq => hp hq.symm⟩,
                      fun hnd => absurd hdia hnd⟩
                · exfalso
                  simp only [EngravingItem.isNote, hplay, hport, hstart, toNote, hp, hdia,
                    Bool.not_true, Bool.false_eq_true, if_false, if_true] at h
                  by_cases hchr : g.glissandoStyle = GlissandoStyle.CHROMATIC
                  · simp only [hchr, if_true] at h
                    cases hl : chromaticLoop ns.ppitch ne.ppitch
                        (if ne.ppitch > ns.ppitch then 1 else -1) fuel ns.ppitch [] with
                    | error x => rw [hl] at h; simp at h
                    | ok r => rw [hl] at h; simp at h
                  · simp only [hchr, if_false] at h
                    cases hl : keysLoop ns.ppitch ne.ppitch
                        (if ne.ppitch > ns.ppitch then 1 else -1)
                        (decide (g.glissandoStyle = GlissandoStyle.WHITE_KEYS)) fuel ns.ppitch [] with
                    | error x => rw [hl] at h; simp at h
                    | ok r => rw [hl] at h; simp at h
      · have hplay2 : g.playGlissando = false := by simpa using hplay
        simp [EngravingItem.isNote, hplay2] at h
        exact ⟨Or.inl ⟨h.symm, Or.inr (Or.inl hplay2)⟩, fun _ => h.symm⟩

/-- The DIATONIC loop only appends: what it returns is at least as long as
what it was handed. -/
theorem diatonicLoop_grows (steps : Int → Int) (s e d ls : Int) :
    ∀ (fuel : Nat) (line pitch : Int) (acc r : List Int),
      diatonicLoop steps s e d ls fuel line pitch acc = Except.ok r →
      acc.length ≤ r.length := by
  intro fuel
  induction fuel with
  | zero => intro line pitch acc r h; simp [diatonicLoop] at h
  | succ fuel ih =>
    intro line pitch acc r h
    unfold diatonicLoop at h
    by_cases hb : beforeEnd d e pitch = true
    · rw [if_pos hb] at h
      have hrec := ih _ _ _ _ h
      by_cases hb1 : beforeEnd d e (s + steps (ls - line)) = true
      · rw [if_pos hb1] at hrec
        simp only [List.length_append, List.length_singleton] at hrec
        omega
      · rw [if_neg hb1] at hrec
        exact hrec
    · rw [if_neg hb] at h
      simp only [Except.ok.injEq] at h
      rw [h]

/-- With a query that gives the start pitch at line step 0, the DIATONIC scan
between two notes of different pitch keeps offset 0 on its first pass: what
it produces is not empty, and the result is `true`. -/
theorem pitchSteps_diatonic_nonempty (cps : Note → Note → Int → Int) (fuel : Nat)
    (g : Glissando) (prior : List Int) (ns ne : Note)
    (hquery : startsAtStartPitch cps)
    (hs : g.startElement = some (EngravingItem.note ns))
    (he : g.endElement = some (EngravingItem.note ne))
    (hplay : g.playGlissando = true)
    (hstyle : g.glissandoStyle = GlissandoStyle.DIATONIC)
    (hne : ns.ppitch ≠ ne.ppitch) (flag : Bool) (offs : List Int)
    (h : Glissando.pitchSteps cps fuel g prior = Except.ok (flag, offs)) :
    flag = true ∧ offs ≠ [] := by
  have hne2 : ¬ ne.ppitch = ns.ppitch := fun hq => hne hq.symm
  have hstart : beforeEnd (if ne.ppitch > ns.ppitch then 1 else -1) ne.ppitch ns.ppitch
      = true := by
    unfold beforeEnd
    by_cases hgt : ne.ppitch > ns.ppitch
    · simp [hgt]
    · have : ne.ppitch < ns.ppitch := by omega
      simp [hgt, this]
  simp only [Glissando.pitchSteps, hs, he, hplay, hstyle, toNote, EngravingItem.isNote, hne2,
    Bool.not_true, Bool.false_eq_true, if_false, if_true, reduceCtorEq] at h
  cases hl : diatonicLoop (cps ns ne) ns.ppitch ne.ppitch
      (if ne.ppitch > ns.ppitch then 1 else -1) ns.line fuel ns.line ns.ppitch [] with
  | error x => rw [hl] at h; simp at h
  | ok r =>
    rw [hl] at h
    simp only [Except.ok.injEq, Prod.mk.injEq] at h
    have hlen : 1 ≤ r.length := by
      cases fuel with
      | zero => simp [diatonicLoop] at hl
      | succ n =>
        unfold diatonicLoop at hl
        rw [if_pos hstart] at hl
        simp only [sub_self, hquery ns ne, add_zero, hstart, if_true, List.nil_append] at hl
        exact diatonicLoop_grows _ _ _ _ _ _ _ _ _ _ hl
    refine ⟨?_, ?_⟩
    · rw [← h.1]
      simp only [gt_iff_lt, decide_eq_true_eq]
      omega
    · rw [← h.2]
      intro hnil
      rw [hnil] at hlen
      simp at hlen

/-- C25: with a host query that gives the start pitch at line step 0, whenever
`pitchSteps` returns `false` the vector is exactly as it was passed in, for
every style, every fuel and every prior content of the vector: the `false`
comes from one of the four early returns (end anchor not a note, play flag
off, PORTAMENTO, two notes of equal pitch), which are taken before the vector
is touched; the DIATONIC scan keeps offset 0 on its first pass and does not
return `false`. -/
theorem pitchSteps_false_keeps_vector (cps : Note → Note → Int → Int) (fuel : Nat)
    (g : Glissando) (prior offs : List Int)
    (hquery : startsAtStartPitch cps)
    (h : Glissando.pitchSteps cps fuel g prior = Except.ok (false, offs)) :
    offs = prior
      ∧ (g.endElement = some EngravingItem.other ∨ g.playGlissando = false
          ∨ g.glissandoStyle = GlissandoStyle.PORTAMENTO
          ∨ ∃ ns ne : Note, g.startElement = some (EngravingItem.note ns)
              ∧ g.endElement = some (EngravingItem.note ne) ∧ ns.ppitch = ne.ppitch) := by
  rcases (pitchSteps_false_cases cps fuel g prior offs h).1 with
    hleft | ⟨_, hdia, hplay, ns, ne, hs, he, hne⟩
  · exact hleft
  · have hflag := (pitchSteps_diatonic_nonempty cps fuel g prior ns ne hquery hs he hplay hdia
      hne false offs h).1
    cases hflag

/-- C25 at a PORTAMENTO glissando from 60 to 67 with the vector `[7, 7]`
passed in, for the whole-tone query: the result is `false` and the vector is
still `[7, 7]`. -/
theorem pitchSteps_false_keeps_vector_witness :
    startsAtStartPitch wholeTones
      ∧ Glissando.pitchSteps wholeTones 0 (betweenPitches GlissandoStyle.PORTAMENTO 60 67) [7, 7]
          = Except.ok (false, [7, 7])
      ∧ (betweenPitches GlissandoStyle.PORTAMENTO 60 67).glissandoStyle
          = GlissandoStyle.PORTAMENTO
      ∧ ([7, 7] : List Int) = [7, 7] :=
  ⟨fun _ _ => rfl, by rfl, rfl,
    (pitchSteps_false_keeps_vector wholeTones 0 (betweenPitches GlissandoStyle.PORTAMENTO 60 67)
      [7, 7] [7, 7] (fun _ _ => rfl) (by rfl)).1⟩

/-! ### C26: the key styles split the chromatic walk -/

/-- Keeping the entries that pass a test and keeping those that fail it splits
a list that is sorted for a total order `le` into two sorted lists without a
common entry, whose merge is the list itself. -/
theorem filter_merge_filter_not (le : Int → Int → Bool) (p : Int → Bool) (l : List Int)
    (htrans : ∀ a b c : Int, le a b = true → le b c = true → le a c = true)
    (htotal : ∀ a b : Int, (le a b || le b a) = true)
    (hanti : ∀ a b : Int, le a b = true → le b a = true → a = b)
    (hsorted : l.Pairwise (fun a b => le a b = true)) :
    List.merge (l.filter p) (l.filter (fun k => !p k)) le = l := by
  have hperm : List.Perm (List.merge (l.filter p) (l.filter (fun k => !p k)) le) l :=
    (List.merge_perm_append le).trans (List.filter_append_perm p l)
  have hmerged : (List.merge (l.filter p) (l.filter (fun k => !p k)) le).Pairwise
      (fun a b => le a b = true) :=
    List.sorted_merge htrans htotal _ _ (hsorted.filter _) (hsorted.filter _)
  exact List.Perm.eq_of_sorted (fun a b _ _ hab hba => hanti a b hab hba) hmerged hsorted hperm

/-- The chromatic walk is sorted in the direction of travel. -/
theorem walkedOffsets_sorted (s e : Int) (hne : s ≠ e) :
    (walkedOffsets s e).Pairwise
      (fun a b => decide (direction s e * a ≤ direction s e * b) = true) := by
  obtain ⟨hup, hdown, _⟩ := walkedOffsets_ordered s e
  by_cases h : e > s
  · refine (hup h).imp ?_
    intro a b hab
    simp only [direction, if_pos h, one_mul, decide_eq_true_eq]
    omega
  · have h2 : e < s := by omega
    refine (hdown h2).imp ?_
    intro a b hab
    simp only [direction, if_neg h, decide_eq_true_eq]
    omega

/-- C26, as stated, fails at the top of the `int` range: from pitch 2147483647
down to 2147483646, both above -1140, CHROMATIC produces `[0]`, while the
index expression `(pitch - 60) + 1200` of the key styles overflows at the
start pitch, so that WHITE_KEYS and BLACK_KEYS produce no sequence, whatever
the fuel. -/
theorem keys_at_int_max_no_partition :
    (-1140 : Int) ≤ 2147483647 ∧ (-1140 : Int) ≤ 2147483646
      ∧ Glissando.pitchSteps wholeTones 2
          (betweenPitches GlissandoStyle.CHROMATIC 2147483647 2147483646) []
          = Except.ok (true, [0])
      ∧ Glissando.pitchSteps wholeTones 2
          (betweenPitches GlissandoStyle.WHITE_KEYS 2147483647 2147483646) []
          = Except.error Fault.intOverflow
      ∧ Glissando.pitchSteps wholeTones 2
          (betweenPitches GlissandoStyle.BLACK_KEYS 2147483647 2147483646) []
          = Except.error Fault.intOverflow
      ∧ (∀ (fuel : Nat) (r : Bool × List Int),
          Glissando.pitchSteps wholeTones fuel
            (betweenPitches GlissandoStyle.WHITE_KEYS 2147483647 2147483646) [] ≠ Except.ok r)
      ∧ (∀ (fuel : Nat) (r : Bool × List Int),
          Glissando.pitchSteps wholeTones fuel
            (betweenPitches GlissandoStyle.BLACK_KEYS 2147483647 2147483646) [] ≠ Except.ok r) := by
  refine ⟨by decide, by decide, by rfl, by rfl, by rfl, ?_, ?_⟩
  · intro fuel r h
    cases fuel with
    | zero =>
      have h2 : (Except.error Fault.outOfFuel : Except Fault (Bool × List Int)) = Except.ok r := h
      cases h2
    | succ n =>
      have h2 : (Except.error Fault.intOverflow : Except Fault (Bool × List Int))
          = Except.ok r := h
      cases h2
  · intro fuel r h
    cases fuel with
    | zero =>
      have h2 : (Except.error Fault.outOfFuel : Except Fault (Bool × List Int)) = Except.ok r := h
      cases h2
    | succ n =>
      have h2 : (Except.error Fault.intOverflow : Except Fault (Bool × List Int))
          = Except.ok r := h
      cases h2

/-- C26, amended: between two notes of different pitch, both from -1140 up to
2147482507 (`INT_MAX - 1140`, so that the `int` index expression does not
overflow), with the play flag set and more fuel than semitones between them,
the three styles CHROMATIC, WHITE_KEYS and BLACK_KEYS all produce a result, and
the WHITE_KEYS and BLACK_KEYS sequences partition the CHROMATIC one: each is a
subsequence of it in its order, they have no offset in common, merging them
in the direction of travel gives exactly the CHROMATIC sequence, and their
lengths sum to its length. -/
theorem keys_partition_chromatic (cps : Note → Note → Int → Int) (fuel : Nat) (g : Glissando)
    (prior : List Int) (ns ne : Note)
    (hs : g.startElement = some (EngravingItem.note ns))
    (he : g.endElement = some (EngravingItem.note ne))
    (hplay : g.playGlissando = true)
    (hne : ns.ppitch ≠ ne.ppitch)
    (hrange : (-1140 ≤ ns.ppitch ∧ ns.ppitch ≤ 2147482507)
      ∧ (-1140 ≤ ne.ppitch ∧ ne.ppitch ≤ 2147482507))
    (hfuel : (ne.ppitch - ns.ppitch).natAbs < fuel) :
    ∃ chromatic white black : List Int,
      Glissando.pitchSteps cps fuel { g with glissandoStyle := GlissandoStyle.CHROMATIC } prior
          = Except.ok (true, chromatic)
      ∧ Glissando.pitchSteps cps fuel { g with glissandoStyle := GlissandoStyle.WHITE_KEYS } prior
          = Except.ok (true, white)
      ∧ Glissando.pitchSteps cps fuel { g with glissandoStyle := GlissandoStyle.BLACK_KEYS } prior
          = Except.ok (true, black)
      ∧ white.Sublist chromatic ∧ black.Sublist chromatic
      ∧ (∀ k : Int, k ∈ white → k ∉ black)
      ∧ List.merge white black
          (fun a b => decide (direction ns.ppitch ne.ppitch * a
            ≤ direction ns.ppitch ne.ppitch * b)) = chromatic
      ∧ white.length + black.length = chromatic.length := by
  obtain ⟨c, hc⟩ := pitchSteps_chromatic_runs cps fuel
    { g with glissandoStyle := GlissandoStyle.CHROMATIC } prior ns ne hs he hplay rfl hne hfuel
  obtain ⟨w, hw⟩ := pitchSteps_keys_runs cps fuel
    { g with glissandoStyle := GlissandoStyle.WHITE_KEYS } prior ns ne hs he hplay
    (Or.inl rfl) hne hrange hfuel
  obtain ⟨b, hb⟩ := pitchSteps_keys_runs cps fuel
    { g with glissandoStyle := GlissandoStyle.BLACK_KEYS } prior ns ne hs he hplay
    (Or.inr rfl) hne hrange hfuel
  have hc2 := (pitchSteps_chromatic_ok cps fuel
    { g with glissandoStyle := GlissandoStyle.CHROMATIC } prior ns ne hs he hplay rfl hne _ _ hc).2
  have hw2 := (pitchSteps_keys_ok cps fuel
    { g with glissandoStyle := GlissandoStyle.WHITE_KEYS } prior ns ne hs he hplay (Or.inl rfl) hne _ _ hw).2
  have hb2 := (pitchSteps_keys_ok cps fuel
    { g with glissandoStyle := GlissandoStyle.BLACK_KEYS } prior ns ne hs he hplay (Or.inr rfl) hne _ _ hb).2
  have hw3 : w = (walkedOffsets ns.ppitch ne.ppitch).filter
      (fun k => isWhiteKey (ns.ppitch + k)) := by
    rw [hw2]
    apply List.filter_congr
    intro k _
    simp
  have hb3 : b = (walkedOffsets ns.ppitch ne.ppitch).filter
      (fun k => !isWhiteKey (ns.ppitch + k)) := by
    rw [hb2]
    apply List.filter_congr
    intro k _
    simp
  refine ⟨c, w, b, hc, hw, hb, ?_, ?_, ?_, ?_, ?_⟩
  · rw [hw3, hc2]; exact List.filter_sublist _
  · rw [hb3, hc2]; exact List.filter_sublist _
  · intro k hkw hkb
    rw [hw3] at hkw
    rw [hb3] at hkb
    have h1 := (List.mem_filter.mp hkw).2
    have h2 := (List.mem_filter.mp hkb).2
    simp [h1] at h2
  · rw [hw3, hb3, hc2]
    refine filter_merge_filter_not _ (fun k => isWhiteKey (ns.ppitch + k)) _ ?_ ?_ ?_
      (walkedOffsets_sorted _ _ hne)
    · intro x y z hxy hyz
      simp only [decide_eq_true_eq] at hxy hyz ⊢
      exact le_trans hxy hyz
    · intro x y
      simp only [Bool.or_eq_true, decide_eq_true_eq]
      exact le_total _ _
    · intro x y hxy hyx
      simp only [decide_eq_true_eq] at hxy hyx
      have := le_antisymm hxy hyx
      unfold direction at this
      split_ifs at this <;> omega
  · rw [hw3, hb3, hc2]
    exact (List.length_eq_length_filter_add _).symm

/-- C26, amended, between the pitches 60 and 65: CHROMATIC gives `[0, 1, 2, 3, 4]`,
which WHITE_KEYS and BLACK_KEYS split into `[0, 2, 4]` and `[1, 3]`. -/
theorem keys_partition_chromatic_witness :
    ∃ chromatic white black : List Int,
      Glissando.pitchSteps wholeTones 6 (betweenPitches GlissandoStyle.CHROMATIC 60 65) []
          = Except.ok (true, chromatic)
      ∧ Glissando.pitchSteps wholeTones 6 (betweenPitches GlissandoStyle.WHITE_KEYS 60 65) []
          = Except.ok (true, white)
      ∧ Glissando.pitchSteps wholeTones 6 (betweenPitches GlissandoStyle.BLACK_KEYS 60 65) []
          = Except.ok (true, black)
      ∧ white.Sublist chromatic ∧ black.Sublist chromatic
      ∧ (∀ k : Int, k ∈ white → k ∉ black)
      ∧ List.merge white black
          (fun a b => decide (direction 60 65 * a ≤ direction 60 65 * b)) = chromatic
      ∧ white.length + black.length = chromatic.length :=
  keys_partition_chromatic wholeTones 6 (betweenPitches GlissandoStyle.CHROMATIC 60 65) []
    { ppitch := 60, pitch := 60 } { ppitch := 65, pitch := 65 } rfl rfl rfl
    (by decide) (by decide) (by decide)

/-! ## Theorems: geometry layout, the divisions of the avoidance step -/

/-! ### C28: the divisors of the two proportional shortenings -/

/-- C28, as stated, fails for a single segment: the segment enters the
avoidance step with the end vector `(1, 1)`, the start-side adjustment is 1
(a quarter of the spatium 4), the start-side shortening leaves the horizontal
extent 0, and the end-side division has a zero divisor. -/
theorem avoidChords_single_segment_zero_divisor :
    (∀ s ∈ [({ ipos2 := { x := 1, y := 1 } } : LineSegment)], s.ipos2.x ≠ 0 ∧ s.pos2.x ≠ 0)
      ∧ shortenStart 1 [{ ipos2 := { x := 1, y := 1 } }]
          = Except.ok [{ ipos := { x := 1, y := 1 }, ipos2 := { x := 0, y := 0 } }]
      ∧ avoidChords plainHost 4 {} {} { x := 0, y := 0 } { x := 0, y := 0 }
          [{ ipos2 := { x := 1, y := 1 } }] = Except.error Fault.notFinite := by
  refine ⟨?_, ?_, ?_⟩
  · intro s hs
    rw [List.mem_singleton.mp hs]
    norm_num [LineSegment.pos2]
  · norm_num [shortenStart, fdiv, updateAt]
    constructor <;> apply PointF.ext_xy <;> norm_num
  · rw [avoidChords_eq]
    norm_num [shortenStart, shortenEnd, avoidanceOffsets, shapeWithoutLyrics, plainHost, fdiv,
      updateAt]

/-- C28, amended: if every segment has a non-zero horizontal extent on entry
to the avoidance step, the start-side division (by the first segment's
extent) has no zero divisor; with two or more segments the end-side division
(by the last segment's extent) has none either.  With a single segment the
end-side divisor is the extent left by the start-side shortening, `x - x1` for
the extent `x` and the start-side adjustment `x1`: the division has no zero
divisor when `x ≠ x1` and has one when `x = x1`. -/
theorem avoidChords_divisors (host : Host) (spatium : ℚ) (anchor1 anchor2 : Note)
    (offs1 offs2 : PointF) (segs : List LineSegment)
    (hne : segs ≠ [])
    (hext : ∀ s ∈ segs, s.ipos2.x ≠ 0) :
    ∃ segs2 : List LineSegment,
      shortenStart (avoidanceOffsets host spatium anchor1 anchor2 offs1 offs2).1 segs
          = Except.ok segs2
      ∧ avoidChords host spatium anchor1 anchor2 offs1 offs2 segs
          = shortenEnd (avoidanceOffsets host spatium anchor1 anchor2 offs1 offs2).2 segs2
      ∧ (2 ≤ segs.length →
          ∃ r, avoidChords host spatium anchor1 anchor2 offs1 offs2 segs = Except.ok r)
      ∧ ∀ s : LineSegment, segs = [s] →
          (s.ipos2.x ≠ (avoidanceOffsets host spatium anchor1 anchor2 offs1 offs2).1 →
            ∃ r, avoidChords host spatium anchor1 anchor2 offs1 offs2 segs = Except.ok r)
          ∧ (s.ipos2.x = (avoidanceOffsets host spatium anchor1 anchor2 offs1 offs2).1 →
            avoidChords host spatium anchor1 anchor2 offs1 offs2 segs
              = Except.error Fault.notFinite) := by
  rw [avoidChords_eq]
  generalize (avoidanceOffsets host spatium anchor1 anchor2 offs1 offs2).1 = x1
  generalize (avoidanceOffsets host spatium anchor1 anchor2 offs1 offs2).2 = x2
  rcases single_or_first_last segs hne with ⟨s, rfl⟩ | ⟨a, mid, z, rfl⟩
  · have hs : s.ipos2.x ≠ 0 := hext s (List.mem_singleton.mpr rfl)
    have hstart : shortenStart x1 [s]
        = Except.ok [{ s with ipos := s.ipos + { x := x1, y := s.ipos2.y * x1 / s.ipos2.x },
                              ipos2 := s.ipos2 - { x := x1, y := s.ipos2.y * x1 / s.ipos2.x } }] := by
      simp [shortenStart, fdiv, hs, updateAt_cons_zero]
    refine ⟨_, hstart, by rw [hstart], ?_, ?_⟩
    · intro h2; simp at h2
    · intro s2 hs2
      obtain rfl : s = s2 := by simpa using hs2
      rw [hstart]
      constructor
      · intro hx
        have hx2 : ¬ s.ipos2.x - x1 = 0 := fun h0 => hx (sub_eq_zero.mp h0)
        simp [shortenEnd, fdiv, hx2]
      · intro hx
        have hx2 : s.ipos2.x - x1 = 0 := sub_eq_zero.mpr hx
        simp [shortenEnd, fdiv, hx2]
  · have ha : a.ipos2.x ≠ 0 := hext a (List.mem_cons_self _ _)
    have hz : z.ipos2.x ≠ 0 := hext z (by simp)
    have hstart : shortenStart x1 (a :: (mid ++ [z]))
        = Except.ok ({ a with ipos := a.ipos + { x := x1, y := a.ipos2.y * x1 / a.ipos2.x },
                              ipos2 := a.ipos2 - { x := x1, y := a.ipos2.y * x1 / a.ipos2.x } }
            :: (mid ++ [z])) := by
      simp [shortenStart, fdiv, ha, updateAt_cons_zero]
    have hend : ∃ r, shortenEnd x2
        ({ a with ipos := a.ipos + { x := x1, y := a.ipos2.y * x1 / a.ipos2.x },
                  ipos2 := a.ipos2 - { x := x1, y := a.ipos2.y * x1 / a.ipos2.x } }
            :: (mid ++ [z])) = Except.ok r := by
      unfold shortenEnd
      rw [getLast?_first_last]
      simp [fdiv, hz]
    refine ⟨_, hstart, by rw [hstart], ?_, ?_⟩
    · intro _
      rw [hstart]
      exact hend
    · intro s hs
      have hlen := congrArg List.length hs
      simp at hlen

/-- C28 at two segments with the end vectors `(1, 1)` and `(2, 1)`: both
divisions go through. -/
theorem avoidChords_divisors_witness :
    ∃ r, avoidChords plainHost 4 {} {} { x := 0, y := 0 } { x := 0, y := 0 }
        [{ ipos2 := { x := 1, y := 1 } }, { ipos2 := { x := 2, y := 1 } }] = Except.ok r := by
  obtain ⟨_, _, _, h2, _⟩ := avoidChords_divisors plainHost 4 {} {} { x := 0, y := 0 }
    { x := 0, y := 0 } [{ ipos2 := { x := 1, y := 1 } }, { ipos2 := { x := 2, y := 1 } }]
    (by simp) (by
      intro s hs
      simp only [List.mem_cons, List.mem_singleton, List.not_mem_nil, or_false] at hs
      rcases hs with rfl | rfl <;> norm_num)
  exact h2 (by decide)

/-! ## Theorems: guessing the final note -/

/-! ### C23: the note `guessFinalNote` returns -/

/-- The loop of `guessFinalNote` passes over segments that are not of type
`ChordRest` or hold no target chord. -/
theorem guessFinalNoteLoop_skip (chordTrack part : Nat) (notes : List Note) (startNote : Note)
    (rest : List Segment) :
    ∀ before : List Segment,
      (∀ s ∈ before, s.isChordRest = false ∨ findTargetChord chordTrack part s = none) →
      guessFinalNoteLoop chordTrack part notes startNote (before ++ rest)
        = guessFinalNoteLoop chordTrack part notes startNote rest := by
  intro before
  induction before with
  | nil => intro _; rfl
  | cons s t ih =>
    intro h
    have hs := h s (List.mem_cons_self _ _)
    have ht := ih (fun x hx => h x (List.mem_cons_of_mem _ hx))
    rw [List.cons_append, guessFinalNoteLoop]
    rcases hs with hs | hs
    · simp only [hs, Bool.false_eq_true, if_false]
      exact ht
    · by_cases hc : s.isChordRest = true
      · simp only [hc, if_true, hs]
        exact ht
      · simp only [hc, if_false]
        exact ht

/-- The loop of `guessFinalNote` at a `ChordRest` segment that holds a target
chord with notes and without grace notes before it: the note at the start
note's index, or the last note if the target chord has fewer notes. -/
theorem guessFinalNoteLoop_target (chordTrack part : Nat) (notes : List Note) (startNote : Note)
    (segm : Segment) (rest : List Segment) (target : ScoreChord Unit)
    (hsegm : segm.isChordRest = true)
    (htarget : findTargetChord chordTrack part segm = some target)
    (hnograce : target.graceNotesBefore = []) :
    (target.notes ≠ [] →
      guessFinalNoteLoop chordTrack part notes startNote (segm :: rest)
        = Except.ok (target.notes[min (notes.indexOf startNote) (target.notes.length - 1)]?))
    ∧ (target.notes = [] →
      guessFinalNoteLoop chordTrack part notes startNote (segm :: rest)
        = Except.error Fault.indexOutOfRange) := by
  constructor
  · intro hne
    have hlen : 0 < target.notes.length := List.length_pos.mpr hne
    have hidx : min ((notes.indexOf startNote : Nat) : Int) ((target.notes.length : Int) - 1)
        = ((min (notes.indexOf startNote) (target.notes.length - 1) : Nat) : Int) := by
      omega
    have hlt : min (notes.indexOf startNote) (target.notes.length - 1) < target.notes.length := by
      omega
    unfold guessFinalNoteLoop
    simp only [hsegm, if_true, htarget, hnograce, hidx, Int.toNat_ofNat, Int.ofNat_nonneg]
    rw [List.getElem?_eq_getElem hlt]
  · intro hnil
    unfold guessFinalNoteLoop
    simp [hsegm, htarget, hnograce, hnil]

/-- C23, as stated, fails: the start chord holds the notes 1 and 2, the
glissando starts at note 1, and the next chord of the same track holds the
notes 3 and 4 with top note 4; no grace notes are involved.  `guessFinalNote`
returns note 3, the note at the start note's position, not the top note. -/
theorem guessFinalNote_two_note_chords_not_top :
    twoNoteStartChord.noteType = NoteType.NORMAL
      ∧ twoNoteStartChord.graceNotesAfter = []
      ∧ twoNoteNextChord.graceNotesBefore = []
      ∧ Glissando.guessFinalNote twoChordScore twoNoteStartChord
          { id := 1, pitch := 60, ppitch := 60 }
          = Except.ok (some { id := 3, pitch := 62, ppitch := 62 })
      ∧ Glissando.guessFinalNote twoChordScore twoNoteStartChord
          { id := 1, pitch := 60, ppitch := 60 }
          ≠ Except.ok (some twoNoteNextChord.upNote) := by
  refine ⟨rfl, rfl, rfl, by rfl, ?_⟩
  intro h
  have h2 : (Except.ok (some { id := 3, pitch := 62, ppitch := 62 }) : Except Fault (Option Note))
      = Except.ok (some twoNoteNextChord.upNote) := h
  simp [twoNoteNextChord] at h2

/-- C23, amended: for a NORMAL start chord without grace notes after it whose
parent is a segment, let `segm` be the first `ChordRest` segment from the end
of the chord on that holds a target chord, and let that chord have no grace
notes before it.  The target is the chord in the start chord's track if that
track holds a chord in `segm`, and a chord of the same part otherwise.
`guessFinalNote` returns the note of the target at the index the start note
has in the start chord, or the target's last note if it has fewer notes; a
target without notes makes `notes().at` fault. -/
theorem guessFinalNote_next_chord (tick2rightSegment : Int → List Segment)
    (chord : ScoreChord (ScoreChord Unit)) (startNote : Note)
    (before : List Segment) (segm : Segment) (after : List Segment) (target : ScoreChord Unit)
    (hnormal : chord.noteType = NoteType.NORMAL)
    (hgraces : chord.graceNotesAfter = [])
    (hparent : chord.explicitParent = ParentOf.segment)
    (hchain : tick2rightSegment chord.endTick = before ++ segm :: after)
    (hbefore : ∀ s ∈ before,
      s.isChordRest = false ∨ findTargetChord chord.track chord.part s = none)
    (hsegm : segm.isChordRest = true)
    (htarget : findTargetChord chord.track chord.part segm = some target)
    (hnograce : target.graceNotesBefore = []) :
    (target.notes ≠ [] →
      Glissando.guessFinalNote tick2rightSegment chord startNote
        = Except.ok
            (target.notes[min (chord.notes.indexOf startNote) (target.notes.length - 1)]?)
      ∧ ∃ n, target.notes[min (chord.notes.indexOf startNote) (target.notes.length - 1)]?
          = some n)
    ∧ (target.notes = [] →
      Glissando.guessFinalNote tick2rightSegment chord startNote
        = Except.error Fault.indexOutOfRange)
    ∧ (∀ c : ScoreChord Unit,
        (segm.elist[chord.track]?).join = some (SegmentElement.chord c) →
          findTargetChord chord.track chord.part segm = some c)
    ∧ ((∀ c : ScoreChord Unit,
        (segm.elist[chord.track]?).join ≠ some (SegmentElement.chord c)) →
          target.part = chord.part ∧ some (SegmentElement.chord target) ∈ segm.elist) := by
  have hrun : Glissando.guessFinalNote tick2rightSegment chord startNote
      = guessFinalNoteLoop chord.track chord.part chord.notes startNote (segm :: after) := by
    unfold Glissando.guessFinalNote
    rw [hnormal]
    simp only [hgraces, guessFinalNoteStandard, hparent, hchain]
    exact guessFinalNoteLoop_skip _ _ _ _ _ before hbefore
  have hloop := guessFinalNoteLoop_target chord.track chord.part chord.notes startNote segm after
    target hsegm htarget hnograce
  refine ⟨?_, ?_, ?_, ?_⟩
  · intro hne
    refine ⟨by rw [hrun]; exact hloop.1 hne, ?_⟩
    have hlen : 0 < target.notes.length := List.length_pos.mpr hne
    have hlt : min (chord.notes.indexOf startNote) (target.notes.length - 1)
        < target.notes.length := by omega
    exact ⟨_, List.getElem?_eq_getElem hlt⟩
  · intro hnil
    rw [hrun]
    exact hloop.2 hnil
  · intro c hc
    unfold findTargetChord
    rw [hc]
  · intro hnone
    unfold findTargetChord at htarget
    have hsearch : segm.elist.findSome? (fun currChord =>
        match currChord with
        | some (SegmentElement.chord c) => if c.part = chord.part then some c else none
        | _ => none) = some target := by
      cases hj : (segm.elist[chord.track]?).join with
      | none => rw [hj] at htarget; exact htarget
      | some el =>
        cases el with
        | chord c => exact absurd hj (hnone c)
        | other => rw [hj] at htarget; exact htarget
    obtain ⟨el, hmem, hel⟩ := List.exists_of_findSome?_eq_some hsearch
    cases el with
    | none => simp at hel
    | some e =>
      cases e with
      | other => simp at hel
      | chord c =>
        simp only at hel
        by_cases hp : c.part = chord.part
        · rw [if_pos hp] at hel
          have hct : c = target := Option.some.inj hel
          rw [← hct]
          exact ⟨hp, hmem⟩
        · rw [if_neg hp] at hel
          cases hel

/-- C23 at the two-note chords: started at note 1, the first note of the start
chord, `guessFinalNote` returns note 3, the first note of the next chord. -/
theorem guessFinalNote_next_chord_witness :
    Glissando.guessFinalNote twoChordScore twoNoteStartChord { id := 1, pitch := 60, ppitch := 60 }
      = Except.ok (some { id := 3, pitch := 62, ppitch := 62 }) :=
  ((guessFinalNote_next_chord twoChordScore twoNoteStartChord
      { id := 1, pitch := 60, ppitch := 60 } []
      { elist := [some (SegmentElement.chord twoNoteNextChord)] } [] twoNoteNextChord
      rfl rfl rfl rfl (by simp) rfl rfl rfl).1 (by simp [twoNoteNextChord])).1.trans (by rfl)

/-! ## Theorems: export dialog -/

/-! ### C24: the unit type after a change of the export type -/

/-- C24: after `setExportType(type)` with a type different from the selected
one and a non-empty list of supported unit types for it, the export type is
`type` and the selected unit type is in the supported list: unchanged if it was
in the list, and the first entry of the list otherwise.  `setExportType` with
the already selected type leaves the whole state as it was, so neither the
export type nor the unit type changes and nothing is emitted. -/
theorem setExportType_unit_supported {E : Type} [DecidableEq E]
    (supportedUnitTypes : E → List UnitType) (m : ExportDialogModel E) (type : E) :
    (m.selectedExportType ≠ type → supportedUnitTypes type ≠ [] →
      (m.setExportType supportedUnitTypes type).selectedExportType = type
      ∧ (m.setExportType supportedUnitTypes type).selectedUnitType ∈ supportedUnitTypes type
      ∧ (m.selectedUnitType ∈ supportedUnitTypes type →
          (m.setExportType supportedUnitTypes type).selectedUnitType = m.selectedUnitType)
      ∧ (m.selectedUnitType ∉ supportedUnitTypes type →
          some (m.setExportType supportedUnitTypes type).selectedUnitType
            = (supportedUnitTypes type).head?))
    ∧ (m.selectedExportType = type → m.setExportType supportedUnitTypes type = m) := by
  constructor
  · intro hne hsup
    obtain ⟨front, rest, hl⟩ := List.exists_cons_of_ne_nil hsup
    unfold ExportDialogModel.setExportType
    rw [if_neg hne]
    simp only [hl, List.isEmpty_cons, Bool.false_eq_true, if_false, List.head?_cons]
    by_cases hin : m.selectedUnitType ∈ front :: rest
    · have hc : (front :: rest).contains m.selectedUnitType = true := by
        simpa using hin
      rw [if_pos hc]
      exact ⟨rfl, hin, fun _ => rfl, fun hnot => absurd hin hnot⟩
    · have hc : ¬ (front :: rest).contains m.selectedUnitType = true := by
        simpa using hin
      rw [if_neg hc]
      have hf : m.selectedUnitType ≠ front := fun h => hin (by rw [h]; exact List.mem_cons_self _ _)
      have hset : (ExportDialogModel.setUnitType
          { m with
            selectedExportType := type
            emitted := m.emitted ++ [ExportSignal.selectedExportTypeChanged type] }
          front).selectedUnitType = front := by
        simp [ExportDialogModel.setUnitType, hf]
      have hset2 : (ExportDialogModel.setUnitType
          { m with
            selectedExportType := type
            emitted := m.emitted ++ [ExportSignal.selectedExportTypeChanged type] }
          front).selectedExportType = type := by
        simp [ExportDialogModel.setUnitType, hf]
      refine ⟨hset2, ?_, fun h => absurd h hin, fun _ => ?_⟩
      · rw [hset]; exact List.mem_cons_self _ _
      · rw [hset]
  · intro heq
    unfold ExportDialogModel.setExportType
    rw [if_pos heq]

/-- C24 at the stand-in scenario: with export type 0 and unit type PER_PART
selected, choosing type 1 (pages only) selects PER_PAGE, choosing type 2
keeps PER_PART, and choosing type 0 again changes nothing. -/
theorem setExportType_unit_supported_witness :
    (ExportDialogModel.setExportType pagesOrParts { selectedExportType := 0 } 1).selectedUnitType
        = UnitType.PER_PAGE
      ∧ (ExportDialogModel.setExportType pagesOrParts { selectedExportType := 0 } 2).selectedUnitType
        = UnitType.PER_PART
      ∧ (ExportDialogModel.setExportType pagesOrParts { selectedExportType := 0 } 0).selectedUnitType
        = UnitType.PER_PART :=
  ⟨Option.some.inj (((setExportType_unit_supported pagesOrParts { selectedExportType := 0 } 1).1
      (by decide) (by decide)).2.2.2 (by decide)),
   ((setExportType_unit_supported pagesOrParts { selectedExportType := 0 } 2).1
      (by decide) (by decide)).2.2.1 (by decide),
   congrArg ExportDialogModel.selectedUnitType
     ((setExportType_unit_supported pagesOrParts { selectedExportType := 0 } 0).2 rfl)⟩

end MuseScore
